import Mathlib

/-!
# Line detection and occlusion tracking of `mirror.c`

A shallow embedding of the detection/tracking core of
`host_applications/linux/apps/raspicam/mirror.c` (the static array `maxes`,
`remove_dups`, and the body of `mirror_redraw` from line 338 on), followed by
theorems about it.

Conventions of the embedding.

* C `int` values are modelled by `Int`.  Signed overflow is undefined behaviour
  in C, so the source gives no wrap-around semantics to model; every statement
  below is about executions in which the counters (`frame`, `n`, `noisy`, the
  differences taken in `remove_dups`) stay inside the `int` range.
* The array `maxes[N_MAXES]` is a `List LocMax`; `slot maxes i` is the read
  `maxes[i]` and `List.set` the write.  Theorems about "every slot array" assume
  `maxes.length = N_MAXES`.
* A `for` loop with a constant trip count is a structurally recursive function
  whose first argument counts the iterations that remain, or a `List.foldl`
  over the list of values the loop variable takes.
* Floating-point expressions and library calls are parameters (`Env`): the two
  trigonometric expressions and `qsort`.  Theorems that go through the detection
  pass assume of `qsort` only that it returns a permutation of the array.  What
  a call reads back from the GL frame buffer is the per-call input (`Frame`).
* The OpenGL drawing code, the `printf` progress output and the polling of
  `uv.txt` (lines 274-336, 344-348) do not touch the state modelled here and
  are left out.
-/

namespace Mirror

/-! ## Data model -/

/-- The `LocMax` struct (lines 216-228). -/
structure LocMax where
  count : Int
  t : Int
  r : Int
  search_n : Int
  search_x : Int
  search_y : Int
  played_at : Int
  reset_at : Int
  instrument : Int
  play : Int
  noisy : Int
deriving DecidableEq, Repr

/-- A zero-filled entry, the content of every element of
`LocMax maxes[N_MAXES]= {0,};` at program start. -/
def zeroMax : LocMax := ⟨0, 0, 0, 0, 0, 0, 0, 0, 0, 0, 0⟩

instance : Inhabited LocMax := ⟨zeroMax⟩

/-- The constant `#define N_MAXES 50`. -/
def N_MAXES : Nat := 50

/-- The constant `#define N_THETA 360`. -/
def N_THETA : Int := 360

/-- The macro `MAX(a,b) ((a) > (b) ? (a) : (b))`. -/
def MAX (a b : Int) : Int := if a > b then a else b

/-- The read `maxes[i]`. -/
def slot (maxes : List LocMax) (i : Nat) : LocMax := maxes.getD i zeroMax

/-- Values taken by `v` in `for (v = lo; v < hi; v++)`. -/
def intRange (lo hi : Int) : List Int :=
  (List.range (hi - lo).toNat).map (fun (k : Nat) => lo + (k : Int))

/-- Values taken by `sx` in `for (sx = 2; sx < w-2; sx += 10)` (line 434). -/
def strides (w : Int) : List Int :=
  (List.range ((w - 4 + 9) / 10).toNat).map (fun (k : Nat) => 2 + 10 * (k : Int))

/-! ## `remove_dups` (lines 236-250) -/

/-- The value of `diff` at line 243: `abs(maxes[i].r - maxes[j].r)` plus
`abs(maxes[i].t - maxes[j].t)`.  The source accumulates it in a `float`; both
summands are non-negative integers and 10 is exactly representable, so the
comparison `diff < 10` has the same outcome as on the integers. -/
def diff (a b : LocMax) : Int :=
  ((a.r - b.r).natAbs : Int) + ((a.t - b.t).natAbs : Int)

/-- The inner loop `for (j = ...; j < N_MAXES; j++)` of `remove_dups` for a
fixed `i`, with `k` iterations left: the first `j` with `diff < 10` zeroes
`maxes[i].search_n` and leaves the loop (`break`). -/
def dupInner (i : Nat) : Nat → Nat → List LocMax → List LocMax
  | 0, _, maxes => maxes
  | k + 1, j, maxes =>
    if diff (slot maxes i) (slot maxes j) < 10 then
      maxes.set i { slot maxes i with search_n := 0 }
    else
      dupInner i k (j + 1) maxes

/-- The outer loop `for (i = ...; i < N_MAXES; i++)` of `remove_dups`, with `k`
iterations left; the inner loop runs `j` from `i+1` to `N_MAXES - 1`. -/
def dupOuter : Nat → Nat → List LocMax → List LocMax
  | 0, _, maxes => maxes
  | k + 1, i, maxes => dupOuter k (i + 1) (dupInner i (N_MAXES - (i + 1)) (i + 1) maxes)

/-- The function `remove_dups` (lines 236-250). -/
def remove_dups (maxes : List LocMax) : List LocMax :=
  dupOuter N_MAXES 0 maxes

/-! ## Maxima scan (lines 390-422) -/

/-- The variables the maxima scan updates: the array and the locals `min_max`,
`min_max_i`. -/
structure ScanState where
  maxes : List LocMax
  min_max : Int
  min_max_i : Nat
deriving DecidableEq, Repr

/-- The loop of lines 413-418, with `k` iterations left:
`if (maxes[i].count < min_max) { min_max = maxes[min_max_i].count; min_max_i = i; }`. -/
def minLoop : Nat → Nat → ScanState → ScanState
  | 0, _, s => s
  | k + 1, i, s =>
    minLoop k (i + 1)
      (if (slot s.maxes i).count < s.min_max then
        { s with min_max := (slot s.maxes s.min_max_i).count, min_max_i := i }
      else s)

/-- The test of line 406: the cell `(t, r)` is not exceeded by any of its eight
neighbours in the flat accumulator `hough` with row length `N_R`. -/
def isLocalMax (hough : Int → Int) (N_R t r : Int) : Bool :=
  let n := hough (t * N_R + r)
  let n1 := hough ((t - 1) * N_R + r)
  let n2 := hough ((t + 1) * N_R + r)
  let n3 := hough (t * N_R + (r - 1))
  let n4 := hough (t * N_R + (r + 1))
  let n5 := hough ((t - 1) * N_R + (r - 1))
  let n6 := hough ((t + 1) * N_R + (r - 1))
  let n7 := hough ((t - 1) * N_R + (r + 1))
  let n8 := hough ((t + 1) * N_R + (r + 1))
  decide (n ≥ n1) && decide (n ≥ n2) && decide (n ≥ n3) && decide (n ≥ n4) &&
    decide (n ≥ n5) && decide (n ≥ n6) && decide (n ≥ n7) && decide (n ≥ n8)

/-- The condition under which the scan stores the cell `(t, r)` (lines 396 and
406): its count exceeds `min_max` and it is a local maximum. -/
def accepts (hough : Int → Int) (N_R t r : Int) (s : ScanState) : Bool :=
  decide (hough (t * N_R + r) > s.min_max) && isLocalMax hough N_R t r

/-- The body of the scan for one cell (lines 395-420): an accepted cell is
written to `maxes[min_max_i]` (count, `r`, `t`), `min_max` is set to its count,
and the loop of lines 413-418 runs. -/
def scanCell (hough : Int → Int) (N_R t r : Int) (s : ScanState) : ScanState :=
  if accepts hough N_R t r s then
    minLoop N_MAXES 0
      { s with
        maxes := s.maxes.set s.min_max_i
          { slot s.maxes s.min_max_i with count := hough (t * N_R + r), r := r, t := t }
        min_max := hough (t * N_R + r) }
  else s

/-- The cells `(t, r)` in the order the nested loops of lines 393-394 visit
them: `t` from 1 to `N_THETA - 1`, `r` from 1 to `N_R - 1`. -/
def scanCells (N_R : Int) : List (Int × Int) :=
  (intRange 1 N_THETA).flatMap (fun t => (intRange 1 N_R).map (fun r => (t, r)))

/-- The scan over a list of cells. -/
def scanOver (hough : Int → Int) (N_R : Int) (cells : List (Int × Int))
    (s : ScanState) : ScanState :=
  cells.foldl (fun s c => scanCell hough N_R c.1 c.2 s) s

/-- The maxima scan of lines 390-422 on the array `maxes`. -/
def maximaScan (hough : Int → Int) (N_R : Int) (maxes : List LocMax) : ScanState :=
  scanOver hough N_R (scanCells N_R) ⟨maxes, 0, 0⟩

/-! ## Environment -/

/-- The floating-point expressions and the library sort used by the detection
pass.  `houghR x y t` is `(int)(x*cos(theta)+y*sin(theta))` of line 374,
`lineY t r sx` is the `int sy` of line 436 for `maxes[min_max_i].t = t`,
`maxes[min_max_i].r = r`, and `qsort` is the call of line 423. -/
structure Env where
  houghR : Int → Int → Int → Int
  lineY : Int → Int → Int → Int
  qsort : List LocMax → List LocMax

/-- What one call of `mirror_redraw` reads from outside: the size of the
frame, the bytes `glReadPixels` returns for the whole frame (line 360, indexed
as `data[k]`, each a C `char`), and for each `line` the bytes of the 9x9
read-back of line 501 (`readdata line k` is `readdata[k]`). -/
structure Frame where
  width : Int
  height : Int
  data : Int → Int
  readdata : Nat → Nat → Int

/-! ## Hough pass (lines 363-386) -/

/-- The block `int* hough` of line 364 as a memory of `int` cells addressed by
their flat index. -/
structure Accumulator where
  cell : Int → Int

/-- The update `hough[k]++`. -/
def bump (hough : Accumulator) (k : Int) : Accumulator :=
  ⟨fun j => if j = k then hough.cell j + 1 else hough.cell j⟩

/-- The votes of one foreground pixel `(x, y)` (lines 372-378). -/
def houghVotes (env : Env) (N_R x y : Int) (hough : Accumulator) : Accumulator :=
  (intRange 0 N_THETA).foldl
    (fun hg t =>
      let r := env.houghR x y t
      if r > 0 then bump hg (t * N_R + r) else hg)
    hough

/-- The accumulator after the loops of lines 366-386, starting from the
zero-filled `calloc` block; `ptr[3]` at pixel `(x, y)` is `data[4*(y*w+x)+3]`. -/
def houghPass (env : Env) (fr : Frame) : Accumulator :=
  let w := fr.width
  let h := fr.height
  let N_R := MAX w h
  (intRange 0 h).foldl
    (fun hg y =>
      (intRange 0 w).foldl
        (fun hg x => if fr.data (4 * (y * w + x) + 3) > 0 then houghVotes env N_R x y hg else hg)
        hg)
    ⟨fun _ => 0⟩

/-! ## Line locator (lines 424-481) -/

/-- The count `npix` of lines 438-446: foreground pixels of the 5x5 window
centred at `(sx, sy)`. -/
def windowCount (w : Int) (data : Int → Int) (sx sy : Int) : Int :=
  (intRange (sy - 2) (sy + 2 + 1)).foldl
    (fun np y =>
      (intRange (sx - 2) (sx + 2 + 1)).foldl
        (fun np x => if data (4 * (w * y + x) + 3) > 0 then np + 1 else np)
        np)
    0

/-- The sums `xs`, `ys` of lines 465-475 over the 5x5 window centred at
`(cx, cy)`. -/
def windowSums (w : Int) (data : Int → Int) (cx cy : Int) : Int × Int :=
  (intRange (cy - 2) (cy + 2 + 1)).foldl
    (fun acc y =>
      (intRange (cx - 2) (cx + 2 + 1)).foldl
        (fun acc x => if data (4 * (w * y + x) + 3) > 0 then (acc.1 + x, acc.2 + y) else acc)
        acc)
    (0, 0)

/-- One iteration of the stride loop (lines 435-456) on the entry `m` and the
local `found`. -/
def locateStride (env : Env) (fr : Frame) (sx : Int) (s : LocMax × Int) : LocMax × Int :=
  let sy := env.lineY s.1.t s.1.r sx
  if sy > 2 ∧ sy < fr.height - 2 then
    let npix := windowCount fr.width fr.data sx sy
    let found := if npix > 1 then s.2 + 1 else s.2
    let m := if npix > s.1.search_n then
        { s.1 with search_n := npix, search_x := sx, search_y := sy }
      else s.1
    (m, found)
  else s

/-- The entry and `found` after the stride loop of lines 425-457, started on
the entry as reset by lines 425-431. -/
def searchLine (env : Env) (fr : Frame) (m : LocMax) : LocMax × Int :=
  (strides fr.width).foldl (fun s sx => locateStride env fr sx s)
    ({ m with instrument := -1, noisy := 0, played_at := 0, reset_at := 0,
              search_n := 0, search_x := -1, search_y := -1 }, 0)

/-- The acceptance test of lines 458-461. -/
def acceptLine (s : LocMax × Int) : LocMax :=
  if s.2 < 2 ∨ s.1.search_n < 4 then { s.1 with search_n := 0 } else s.1

/-- The centre-of-mass adjustment of lines 464-478; `/` on `int` truncates. -/
def centerOfMass (fr : Frame) (m : LocMax) : LocMax :=
  if m.search_n ≠ 0 then
    let sums := windowSums fr.width fr.data m.search_x m.search_y
    { m with search_x := Int.tdiv sums.1 m.search_n, search_y := Int.tdiv sums.2 m.search_n }
  else m

/-- The body of the loop of lines 424-481 for one entry. -/
def locate (env : Env) (fr : Frame) (m : LocMax) : LocMax :=
  centerOfMass fr (acceptLine (searchLine env fr m))

/-- The loop of lines 424-481 over the array, with `k` iterations left. -/
def locateLoop (env : Env) (fr : Frame) : Nat → Nat → List LocMax → List LocMax
  | 0, _, maxes => maxes
  | k + 1, i, maxes =>
    locateLoop env fr k (i + 1) (maxes.set i (locate env fr (slot maxes i)))

/-- The one-time detection pass (lines 356-486): Hough pass, maxima scan,
`qsort`, line location, `remove_dups`. -/
def detect (env : Env) (fr : Frame) (maxes : List LocMax) : List LocMax :=
  let N_R := MAX fr.width fr.height
  let scanned := (maximaScan (houghPass env fr).cell N_R maxes).maxes
  remove_dups (locateLoop env fr N_MAXES 0 (env.qsort scanned))

/-! ## Tracking (lines 490-537) -/

/-- The count `npixels` of lines 502-510 over the 9x9 read-back (the sums
`r`, `g`, `b` are used only in commented-out code). -/
def countPixels (readdata : Nat → Int) : Int :=
  (List.range (9 * 9)).foldl (fun np i => if readdata (i * 4 + 3) > 0 then np + 1 else np) 0

/-- The trigger condition of lines 518-520 for an entry `m`. -/
def triggerCond (frame npixels : Int) (m : LocMax) : Prop :=
  npixels < 2 ∧ frame - m.played_at > 5 ∧ frame - m.reset_at < 2

instance (frame npixels : Int) (m : LocMax) : Decidable (triggerCond frame npixels m) := by
  unfold triggerCond; infer_instance

/-- The body of the tracking loop for one entry (lines 493-536), on the entry
and the static counter `n`. -/
def trackLine (frame npixels : Int) (m : LocMax) (n : Int) : LocMax × Int :=
  if m.search_n = 0 then (m, n)
  else if npixels < 2 then
    if frame - m.played_at > 5 ∧ frame - m.reset_at < 2 then
      let n1 := n + 1
      ({ m with
          instrument := if m.instrument < 0 then n1 else m.instrument
          played_at := frame
          play := if m.noisy = 0 then 1 else m.play
          noisy := m.noisy + 10 }, n1)
    else (m, n)
  else
    ({ m with noisy := if m.noisy = 0 then 0 else m.noisy - 1, reset_at := frame }, n)

/-- The tracking loop of lines 492-537, with `k` iterations left. -/
def trackLoop (frame : Int) (npix : Nat → Int) :
    Nat → Nat → List LocMax × Int → List LocMax × Int
  | 0, _, s => s
  | k + 1, line, s =>
    trackLoop frame npix k (line + 1)
      ((s.1.set line (trackLine frame (npix line) (slot s.1 line) s.2).1),
        (trackLine frame (npix line) (slot s.1 line) s.2).2)

/-! ## Emitter (lines 539-553) -/

/-- The loop of lines 541-550, with `k` iterations left: the first entry with
`play` set has the flag cleared and its `instrument` written to the sink
(`some id`); `none` when `f` stays `NULL`. -/
def playLoop : Nat → Nat → List LocMax → List LocMax × Option Int
  | 0, _, maxes => (maxes, none)
  | k + 1, line, maxes =>
    if (slot maxes line).play ≠ 0 then
      (maxes.set line { slot maxes line with play := 0 }, some (slot maxes line).instrument)
    else
      playLoop k (line + 1) maxes

/-- The emitter step of one frame. -/
def emit (maxes : List LocMax) : List LocMax × Option Int :=
  playLoop N_MAXES 0 maxes

/-! ## `mirror_redraw` -/

/-- The static state of the program: the global `maxes` and the function-level
statics `n`, `frame`, `initialized`. -/
structure State where
  maxes : List LocMax
  n : Int
  frame : Int
  initialized : Bool
deriving DecidableEq, Repr

/-- The state at program start. -/
def initState : State := ⟨List.replicate N_MAXES zeroMax, 0, 0, false⟩

/-- The values `npixels` takes for each `line` in a call that reads `fr`. -/
def npixelsOf (fr : Frame) (line : Nat) : Int := countPixels (fr.readdata line)

/-- The array at line 490 of a call entered in state `s`, after `frame++`: the
detection pass has run if it had not run before. -/
def maxesBeforeTracking (env : Env) (fr : Frame) (s : State) : List LocMax :=
  if s.initialized then s.maxes else detect env fr s.maxes

/-- One call of `mirror_redraw` (lines 338-557): the new state and what the
call writes to the sink. -/
def mirror_redraw (env : Env) (fr : Frame) (s : State) : State × Option Int :=
  let frame := s.frame + 1
  if frame < 150 then
    ({ s with frame := frame }, none)
  else
    let tracked := trackLoop frame (npixelsOf fr) N_MAXES 0 (maxesBeforeTracking env fr s, s.n)
    let played := emit tracked.1
    (⟨played.1, tracked.2, frame, true⟩, played.2)

/-- The state after a sequence of calls, one `Frame` per call. -/
def run (env : Env) (s : State) (frames : List Frame) : State :=
  frames.foldl (fun s fr => (mirror_redraw env fr s).1) s

/-! ## Predicates, measures and worked examples used in the statements -/

/-- Number of entries whose `play` flag is set. -/
def pending (maxes : List LocMax) : Nat := maxes.countP (fun m => decide (m.play ≠ 0))

/-- Entry `i` has a later entry within combined distance 10 -/
def hasLaterDup (maxes : List LocMax) (i : Nat) : Prop :=
  ∃ j, j < N_MAXES ∧ i < j ∧ diff (slot maxes i) (slot maxes j) < 10

instance (maxes : List LocMax) (i : Nat) : Decidable (hasLaterDup maxes i) := by
  unfold hasLaterDup; infer_instance

/-- Fifty active entries, pairwise at combined distance at least 100. -/
def spreadMaxes : List LocMax :=
  (List.range 50).map (fun i => { zeroMax with count := i, t := 1, r := 100 * i, search_n := 5 })

/-- The array `spreadMaxes` with entry 49 moved to within distance 3 of entry 48. -/
def nearPair : List LocMax :=
  spreadMaxes.set 49 { zeroMax with count := 49, t := 1, r := 4803, search_n := 5 }

/-- The zero-filled array the scan starts from. -/
def zeroMaxes : List LocMax := List.replicate N_MAXES zeroMax

/-- An accumulator with row length 4 holding five isolated peaks, at `r = 2` in
the rows `t = 1, 3, 5, 7, 9`, with counts 5, 7, 3, 6, 6; every other cell is 0. -/
def fivePeaks : Int → Int := fun k =>
  if k = 1 * 4 + 2 then 5 else if k = 3 * 4 + 2 then 7 else if k = 5 * 4 + 2 then 3
  else if k = 7 * 4 + 2 then 6 else if k = 9 * 4 + 2 then 6 else 0

/-- The scan state on `fivePeaks` when the loops reach the cell `(9, 2)`, the
26th cell visited. -/
def beforeFifth : ScanState :=
  scanOver fivePeaks 4 ((scanCells 4).take 25) ⟨zeroMaxes, 0, 0⟩

/-- The strides of the locator loop whose row `sy`, computed for the peak
`(t, r)`, passes the test `sy > 2 && sy < h-2` of line 437. -/
def inImageStrides (env : Env) (fr : Frame) (t r : Int) : List Int :=
  (strides fr.width).filter (fun sx => decide (env.lineY t r sx > 2 ∧ env.lineY t r sx < fr.height - 2))

/-- The foreground-pixel counts of the 5x5 windows of the in-image strides. -/
def windowCounts (env : Env) (fr : Frame) (t r : Int) : List Int :=
  (inImageStrides env fr t r).map (fun sx => windowCount fr.width fr.data sx (env.lineY t r sx))

/-- Number of in-image strides whose window holds at least 2 foreground pixels. -/
def qualifyingStrides (env : Env) (fr : Frame) (t r : Int) : Nat :=
  ((windowCounts env fr t r).filter (fun c => decide (2 ≤ c))).length

/-- The largest window count over the in-image strides (0 when there is none). -/
def bestWindow (env : Env) (fr : Frame) (t r : Int) : Int :=
  (windowCounts env fr t r).foldl max 0

/-- The entry is active and meets the trigger condition of lines 518-520. -/
def fires (frame npixels : Int) (m : LocMax) : Prop :=
  m.search_n ≠ 0 ∧ triggerCond frame npixels m

instance (frame npixels : Int) (m : LocMax) : Decidable (fires frame npixels m) := by
  unfold fires; infer_instance

/-- The entry is active and sampled visible: the `else` branch of line 533. -/
def clears (npixels : Int) (m : LocMax) : Prop :=
  m.search_n ≠ 0 ∧ ¬ npixels < 2

instance (npixels : Int) (m : LocMax) : Decidable (clears npixels m) := by
  unfold clears; infer_instance

/-- The value of the counter `n` when the tracking loop, started at line 0 on
`(maxes, n)`, reaches `line`. -/
def nBefore (frame : Int) (npix : Nat → Int) (maxes : List LocMax) (n : Int) (line : Nat) : Int :=
  (trackLoop frame npix line 0 (maxes, n)).2

/-- Entry `i` meets the trigger condition in the call of `mirror_redraw` that
starts in state `s` and reads `fr`: the call reaches the tracking loop
(`frame >= 150` after `frame++`) and the loop body for `line = i` takes the
branch of lines 521-530. -/
def triggers (env : Env) (fr : Frame) (s : State) (i : Nat) : Prop :=
  i < N_MAXES ∧ ¬ (s.frame + 1 < 150) ∧
    fires (s.frame + 1) (npixelsOf fr i) (slot (maxesBeforeTracking env fr s) i)

/-- Entry `i` is sampled visible in the call of `mirror_redraw` that starts in
state `s` and reads `fr`: the tracking loop body for `line = i` takes the `else`
branch of line 533. -/
def sampledVisible (env : Env) (fr : Frame) (s : State) (i : Nat) : Prop :=
  i < N_MAXES ∧ ¬ (s.frame + 1 < 150) ∧
    clears (npixelsOf fr i) (slot (maxesBeforeTracking env fr s) i)

instance (env : Env) (fr : Frame) (s : State) (i : Nat) : Decidable (triggers env fr s i) := by
  unfold triggers; infer_instance

instance (env : Env) (fr : Frame) (s : State) (i : Nat) :
    Decidable (sampledVisible env fr s i) := by
  unfold sampledVisible; infer_instance

/-- The entry the tracking loop of this call computes for `line = i`. -/
def trackedEntry (env : Env) (fr : Frame) (s : State) (i : Nat) : LocMax :=
  (trackLine (s.frame + 1) (npixelsOf fr i) (slot (maxesBeforeTracking env fr s) i)
    (nBefore (s.frame + 1) (npixelsOf fr) (maxesBeforeTracking env fr s) s.n i)).1

/-- Fields the stride loop, the acceptance test and the centre-of-mass step
leave alone. -/
def sameButSearch (a b : LocMax) : Prop :=
  b.count = a.count ∧ b.t = a.t ∧ b.r = a.r ∧ b.played_at = a.played_at ∧
    b.reset_at = a.reset_at ∧ b.instrument = a.instrument ∧ b.play = a.play ∧
    b.noisy = a.noisy

/-- A set `play` flag comes with an assigned (non-negative) instrument id. -/
def playHasId (maxes : List LocMax) : Prop :=
  ∀ i, i < N_MAXES → (slot maxes i).play ≠ 0 → 0 ≤ (slot maxes i).instrument

/-- The call that starts after the calls `pre` and reads `fr` is the first call
in which entry `i` meets the trigger condition. -/
def firstTrigger (env : Env) (pre : List Frame) (fr : Frame) (i : Nat) : Prop :=
  triggers env fr (run env initState pre) i ∧
    ∀ pre1 fr1 rest, pre = pre1 ++ fr1 :: rest → ¬ triggers env fr1 (run env initState pre1) i

/-- No id exceeds the counter `n`, and assigned ids are pairwise different. -/
def idsDistinct (maxes : List LocMax) (n : Int) : Prop :=
  (∀ i, i < N_MAXES → (slot maxes i).instrument ≤ n) ∧
  (∀ i j, i < N_MAXES → j < N_MAXES → i ≠ j → 0 ≤ (slot maxes i).instrument →
    0 ≤ (slot maxes j).instrument → (slot maxes i).instrument ≠ (slot maxes j).instrument)

/-- Number of angle buckets `t` in which the pixel `(x, y)` votes for the flat
cell `k` (`r > 0` and `t*N_R + r = k`). -/
def votesAt (env : Env) (N_R x y k : Int) : Nat :=
  ((intRange 0 N_THETA).filter
    (fun t => decide (env.houghR x y t > 0 ∧ t * N_R + env.houghR x y t = k))).length

/-- Number of votes the frame casts for the flat cell `k`. -/
def votesOfFrame (env : Env) (fr : Frame) (k : Int) : Int :=
  ((intRange 0 fr.height).map (fun y =>
    ((intRange 0 fr.width).map (fun x =>
      if fr.data (4 * (y * fr.width + x) + 3) > 0 then
        (votesAt env (MAX fr.width fr.height) x y k : Int)
      else 0)).sum)).sum

/-- All counts in the array and the threshold `min_max` are non-negative. -/
def scanNonneg (s : ScanState) : Prop :=
  0 ≤ s.min_max ∧ ∀ i, 0 ≤ (slot s.maxes i).count

/-- An environment for worked examples: every pixel votes for the cells
`(t, r) = (10, 7)` and `(100, 3)`, the line of the first is sampled on row 4, that
of the second on row 9, any other on row 0 (outside the image), and `qsort` is
an insertion sort by `count`. -/
def demoEnv : Env :=
  { houghR := fun _ _ t => if t = 10 then 7 else if t = 100 then 3 else 0
    lineY := fun t _ _ => if t = 10 then 4 else if t = 100 then 9 else 0
    qsort := fun l => l.insertionSort (fun a b => a.count ≤ b.count) }

/-- Foreground pixels `(x, y)` of the example image. -/
def demoPixels : List (Int × Int) :=
  [(1, 4), (2, 4), (3, 4), (2, 5), (11, 4), (12, 4),
   (1, 9), (2, 9), (3, 9), (2, 10), (11, 9), (12, 9)]

/-- The 15x12 example image as the byte buffer `data`: alpha 1 at the pixels of
`demoPixels`, every other byte 0. -/
def demoData : Int → Int := fun k =>
  if demoPixels.any (fun p => decide (4 * (15 * p.2 + p.1) + 3 = k)) then 1 else 0

/-- A call input on the example image; the 9x9 read-back of `line` is fully
transparent when `occ line`, fully opaque otherwise. -/
def demoFrame (occ : Nat → Bool) : Frame :=
  ⟨15, 12, demoData, fun line _ => if occ line then 0 else 1⟩

/-- Every entry sampled visible. -/
def frClear : Frame := demoFrame (fun _ => false)

/-- Entry 48 sampled occluded, every other visible. -/
def frOcc48 : Frame := demoFrame (fun l => l == 48)

/-- Entry 49 sampled occluded, every other visible. -/
def frOcc49 : Frame := demoFrame (fun l => l == 49)

/-- Every entry sampled occluded. -/
def frOccBoth : Frame := demoFrame (fun _ => true)

/-- The 149 warm-up calls. -/
def demoWarm : List Frame := List.replicate 149 frClear

/-- The accumulator of the example image. -/
def demoHough : Int → Int := fun k => if k = 157 then 12 else if k = 1503 then 12 else 0

/-- An entry the locator rejected. -/
def demoIdle : LocMax := ⟨0, 0, 0, 0, -1, -1, 0, 0, -1, 0, 0⟩

/-- A state of the example run: 48 rejected entries, then the two tracked
lines as entries 48 and 49. -/
def demoState (a b : LocMax) (n frame : Int) : State :=
  ⟨List.replicate 48 demoIdle ++ [a, b], n, frame, true⟩

/-- Entry 48 of the example run. -/
def demoA (played reset inst play noisy : Int) : LocMax :=
  ⟨12, 10, 7, 4, 2, 4, played, reset, inst, play, noisy⟩

/-- Entry 49 of the example run. -/
def demoB (played reset inst play noisy : Int) : LocMax :=
  ⟨12, 100, 3, 4, 2, 9, played, reset, inst, play, noisy⟩

/-- Calls 152 to 156 of the example run: entry 49 occluded once, then four
clear frames. -/
def demoMid : List Frame := [frOcc49, frClear, frClear, frClear, frClear]

/-- The array the emitter scans in call 151 of the example run when both
tracked entries trigger in that call. -/
def demoPending : List LocMax :=
  List.replicate 48 demoIdle ++ [demoA 151 150 1 1 10, demoB 151 150 2 1 10]

/-- An image with a single cluster of four foreground pixels, around `(2, 4)`. -/
def frOneCluster : Frame :=
  ⟨15, 12,
    fun k => if [(1, 4), (2, 4), (3, 4), (2, 5)].any
      (fun (p : Int × Int) => decide (4 * (15 * p.2 + p.1) + 3 = k)) then 1 else 0,
    fun _ _ => 1⟩

/-- The fields that identify a tracked line and its point: `count`, `t`, `r`,
`search_n`, `search_x`, `search_y` agree. -/
def sameLine (a b : LocMax) : Prop :=
  b.count = a.count ∧ b.t = a.t ∧ b.r = a.r ∧ b.search_n = a.search_n ∧
    b.search_x = a.search_x ∧ b.search_y = a.search_y

/-- The array after the tracking loop and the emitter of one frame. -/
def trackAndEmit (frame : Int) (npix : Nat → Int) (maxes : List LocMax) (n : Int) :
    List LocMax :=
  (emit (trackLoop frame npix N_MAXES 0 (maxes, n)).1).1

/-- An inactive entry (`search_n = 0`) close to the active entry 49. -/
def inactivePair : List LocMax :=
  nearPair.set 49 { zeroMax with count := 49, t := 1, r := 4803, search_n := 0 }

/-- Reference transition of an active slot, written from the specification:
(1) trigger, (2) visible, (3) occluded with the debounce condition failing.
The id a first trigger assigns is the incremented counter. -/
def slotTransitionRef (f npixels : Int) (m : LocMax) (n : Int) : LocMax × Int :=
  if npixels < 2 ∧ f - m.played_at > 5 ∧ f - m.reset_at < 2 then
    ({ m with
        instrument := if m.instrument < 0 then n + 1 else m.instrument
        played_at := f
        play := if m.noisy = 0 then 1 else m.play
        noisy := m.noisy + 10 }, n + 1)
  else if npixels ≥ 2 then
    ({ m with noisy := max (m.noisy - 1) 0, reset_at := f }, n)
  else (m, n)

/-- The call that starts in state `s` and reads `fr` sets the `play` flag of
entry `i`: the entry triggers with `noisy == 0` (line 527). -/
def setsFlag (env : Env) (fr : Frame) (s : State) (i : Nat) : Prop :=
  triggers env fr s i ∧ (slot (maxesBeforeTracking env fr s) i).noisy = 0

instance (env : Env) (fr : Frame) (s : State) (i : Nat) : Decidable (setsFlag env fr s i) := by
  unfold setsFlag; infer_instance

/-- Number of calls, among the calls reading `frames` one after the other from
state `s`, in which entry `i` is sampled visible. -/
def visibleCount (env : Env) (i : Nat) : State → List Frame → Nat
  | _, [] => 0
  | s, fr :: rest =>
    (if sampledVisible env fr s i then 1 else 0) +
      visibleCount env i (mirror_redraw env fr s).1 rest

/-- The pixels `(x, y)` the loops of lines 439-440 (and of lines 467-468) visit
for the 5x5 window centred at `(cx, cy)`, in the order visited. -/
def windowPixels (cx cy : Int) : List (Int × Int) :=
  (intRange (cy - 2) (cy + 2 + 1)).flatMap
    (fun y => (intRange (cx - 2) (cx + 2 + 1)).map (fun x => (x, y)))

/-- The test `a > 0` on the byte `data[4*(w*y+x)+3]` read for the pixel `p`. -/
def isForeground (w : Int) (data : Int → Int) (p : Int × Int) : Bool :=
  decide (data (4 * (w * p.2 + p.1) + 3) > 0)

/-- The foreground pixels of the 5x5 window centred at `(cx, cy)`. -/
def foregroundPixels (w : Int) (data : Int → Int) (cx cy : Int) : List (Int × Int) :=
  (windowPixels cx cy).filter (isForeground w data)

/-- The pixel `p` lies in the `w` x `h` image and its alpha byte lies in the
`4*w*h` bytes of the frame buffer. -/
def pixelInBounds (w h : Int) (p : Int × Int) : Prop :=
  (0 ≤ p.1 ∧ p.1 < w) ∧ (0 ≤ p.2 ∧ p.2 < h) ∧
    (0 ≤ 4 * (w * p.2 + p.1) + 3 ∧ 4 * (w * p.2 + p.1) + 3 < 4 * w * h)

/-- The position the locator stores for the entry `m` is the centroid of the
window of the stride `sx`: the row of `sx` is in the image, the window holds
`k = search_n` foreground pixels, `k` is the best window count and is positive,
the stored position is `(floor(sum x / k), floor(sum y / k))` over these pixels,
and it lies in the window and in the image. -/
def refinedFrom (env : Env) (fr : Frame) (m : LocMax) (sx : Int) : Prop :=
  (env.lineY m.t m.r sx > 2 ∧ env.lineY m.t m.r sx < fr.height - 2) ∧
  ((foregroundPixels fr.width fr.data sx (env.lineY m.t m.r sx)).length : Int) =
    (locate env fr m).search_n ∧
  (locate env fr m).search_n = bestWindow env fr m.t m.r ∧
  0 < (locate env fr m).search_n ∧
  (locate env fr m).search_x =
    ((foregroundPixels fr.width fr.data sx (env.lineY m.t m.r sx)).map Prod.fst).sum /
      ((foregroundPixels fr.width fr.data sx (env.lineY m.t m.r sx)).length : Int) ∧
  (locate env fr m).search_y =
    ((foregroundPixels fr.width fr.data sx (env.lineY m.t m.r sx)).map Prod.snd).sum /
      ((foregroundPixels fr.width fr.data sx (env.lineY m.t m.r sx)).length : Int) ∧
  (sx - 2 ≤ (locate env fr m).search_x ∧ (locate env fr m).search_x ≤ sx + 2) ∧
  (env.lineY m.t m.r sx - 2 ≤ (locate env fr m).search_y ∧
    (locate env fr m).search_y ≤ env.lineY m.t m.r sx + 2) ∧
  (0 ≤ (locate env fr m).search_x ∧ (locate env fr m).search_x < fr.width) ∧
  (0 ≤ (locate env fr m).search_y ∧ (locate env fr m).search_y < fr.height)

/-- The cells `(angle, radius)` whose counts lines 398-405 read for the
candidate `(t, r)`, as `n1` to `n8`. -/
def neighbourCells (t r : Int) : List (Int × Int) :=
  [(t - 1, r), (t + 1, r), (t, r - 1), (t, r + 1),
   (t - 1, r - 1), (t + 1, r - 1), (t - 1, r + 1), (t + 1, r + 1)]

/-- The cells one iteration of the scan reads in state `s`: the candidate
(line 395), and its eight neighbours when the candidate exceeds `min_max`
(line 396).  The cell `(a, b)` is read as `hough[a*N_R + b]`. -/
def cellReads (hough : Int → Int) (N_R t r : Int) (s : ScanState) : List (Int × Int) :=
  (t, r) :: (if hough (t * N_R + r) > s.min_max then neighbourCells t r else [])

/-- An accumulator with row length 4 and two cells of count 1, `(1, 3)` in the
last column and `(359, 1)` in the last row; every other cell is 0. -/
def edgePeaks : Int → Int := fun k =>
  if k = 1 * 4 + 3 then 1 else if k = 359 * 4 + 1 then 1 else 0

/-- The C conversion of a real value to `int`, which truncates toward zero: `v`
is the result of converting `a`. -/
def truncatesTo (v : Int) (a : ℝ) : Prop :=
  (0 ≤ a ∧ (v : ℝ) ≤ a ∧ a < (v : ℝ) + 1) ∨ (a < 0 ∧ (v : ℝ) - 1 < a ∧ a ≤ (v : ℝ))

/-- For the pixel `(x, y)` and the bucket `t` the environment returns what
lines 373-374 compute when the floating-point evaluation agrees with exact
arithmetic up to the conversion to `int`: the truncation of
`x*cos(theta) + y*sin(theta)` with `theta = 2*pi*t/360`. -/
def houghExact (env : Env) (x y t : Int) : Prop :=
  truncatesTo (env.houghR x y t)
    ((x : ℝ) * Real.cos (2 * Real.pi * (t : ℝ) / 360) +
      (y : ℝ) * Real.sin (2 * Real.pi * (t : ℝ) / 360))

/-- For the peak `(t, r)` and the stride `sx` the environment returns what
lines 435-436 compute when the floating-point evaluation agrees with exact
arithmetic up to the conversion to `int`: the truncation of
`-cos(th)*sin(th)*sx + r/sin(th)` with `th = t*2*pi/360`. -/
def lineExact (env : Env) (t r sx : Int) : Prop :=
  truncatesTo (env.lineY t r sx)
    (-Real.cos ((t : ℝ) * 2 * Real.pi / 360) * Real.sin ((t : ℝ) * 2 * Real.pi / 360) * (sx : ℝ) +
      (r : ℝ) / Real.sin ((t : ℝ) * 2 * Real.pi / 360))

/-- The row `v` is the truncation of the solution `y = (r - sx*cos(th)) / sin(th)`
of the line equation `sx*cos(th) + y*sin(th) = r`, `th = t*2*pi/360`. -/
def onLineRow (t r sx v : Int) : Prop :=
  truncatesTo v
    (((r : ℝ) - (sx : ℝ) * Real.cos ((t : ℝ) * 2 * Real.pi / 360)) /
      Real.sin ((t : ℝ) * 2 * Real.pi / 360))

/-- An environment whose vote radius is 140 and whose locator row is 135
whatever the arguments. -/
def diagEnv : Env :=
  { houghR := fun _ _ _ => 140
    lineY := fun _ _ _ => 135
    qsort := fun l => l }

/-- Ten calls in which every entry is sampled visible. -/
def demoTenClear : List Frame := List.replicate 10 frClear

/-! # Theorems -/

set_option maxRecDepth 100000

/-! ## Array access lemmas -/

theorem slot_set_self (maxes : List LocMax) (i : Nat) (m : LocMax) (h : i < maxes.length) :
    slot (maxes.set i m) i = m := by
  simp [slot, List.getElem?_set, h]

theorem slot_set_ne (maxes : List LocMax) (i j : Nat) (m : LocMax) (h : i ≠ j) :
    slot (maxes.set i m) j = slot maxes j := by
  simp [slot, List.getElem?_set, h]

theorem slot_set (maxes : List LocMax) (i j : Nat) (m : LocMax) (h : i < maxes.length) :
    slot (maxes.set i m) j = if i = j then m else slot maxes j := by
  by_cases hij : i = j
  · subst hij; simp [slot_set_self _ _ _ h]
  · simp [hij, slot_set_ne _ _ _ _ hij]

theorem slot_eq_getElem (maxes : List LocMax) (i : Nat) (h : i < maxes.length) :
    slot maxes i = maxes[i] := by
  simp [slot, h]

theorem set_slot_self (maxes : List LocMax) (i : Nat) : maxes.set i (slot maxes i) = maxes := by
  by_cases h : i < maxes.length
  · apply List.ext_getElem (by simp)
    intro k h1 h2
    rw [List.getElem_set]
    split
    · next hk => subst hk; exact slot_eq_getElem _ _ h
    · rfl
  · exact List.set_eq_of_length_le (by omega)

theorem ext_slot (a b : List LocMax) (hl : a.length = b.length)
    (h : ∀ i, i < a.length → slot a i = slot b i) : a = b := by
  apply List.ext_getElem hl
  intro i h1 h2
  have := h i h1
  rwa [slot_eq_getElem _ _ h1, slot_eq_getElem _ _ h2] at this

/-! ## Emitter -/

theorem playLoop_none (k line : Nat) (maxes : List LocMax)
    (h : ∀ i, line ≤ i → i < line + k → (slot maxes i).play = 0) :
    playLoop k line maxes = (maxes, none) := by
  induction k generalizing line with
  | zero => rfl
  | succ k ih =>
    have h0 : (slot maxes line).play = 0 := h line (le_refl _) (by omega)
    simp only [playLoop, h0, ne_eq, not_true_eq_false, if_false]
    exact ih (line + 1) (fun i h1 h2 => h i (by omega) (by omega))

theorem playLoop_first (k line j : Nat) (maxes : List LocMax)
    (hj1 : line ≤ j) (hj2 : j < line + k) (hp : (slot maxes j).play ≠ 0)
    (h : ∀ i, line ≤ i → i < j → (slot maxes i).play = 0) :
    playLoop k line maxes =
      (maxes.set j { slot maxes j with play := 0 }, some (slot maxes j).instrument) := by
  induction k generalizing line with
  | zero => omega
  | succ k ih =>
    by_cases hlj : line = j
    · subst hlj
      simp only [playLoop, hp, ne_eq, not_false_eq_true, if_true]
    · have h0 : (slot maxes line).play = 0 := h line (le_refl _) (by omega)
      simp only [playLoop, h0, ne_eq, not_true_eq_false, if_false]
      exact ih (line + 1) (by omega) (by omega) (fun i h1 h2 => h i (by omega) h2)

theorem exists_first_play (maxes : List LocMax) (n : Nat)
    (h : ∃ i, i < n ∧ (slot maxes i).play ≠ 0) :
    ∃ j, j < n ∧ (slot maxes j).play ≠ 0 ∧ ∀ i, i < j → (slot maxes i).play = 0 := by
  classical
  refine ⟨Nat.find h, (Nat.find_spec h).1, (Nat.find_spec h).2, ?_⟩
  intro i hi
  have := Nat.find_min h hi
  by_contra hne
  exact this ⟨by have := (Nat.find_spec h).1; omega, hne⟩

theorem pending_set_clear (maxes : List LocMax) (j : Nat) (hj : j < maxes.length)
    (hp : (slot maxes j).play ≠ 0) :
    pending (maxes.set j { slot maxes j with play := 0 }) + 1 = pending maxes := by
  unfold pending
  rw [List.countP_set _ _ _ _ hj]
  have h1 : maxes[j].play ≠ 0 := by rwa [slot_eq_getElem _ _ hj] at hp
  have h2 := List.boole_getElem_le_countP (fun m : LocMax => decide (m.play ≠ 0)) maxes j hj
  simp only [h1, ne_eq, not_false_eq_true, decide_True, if_true, not_true_eq_false,
    decide_False] at h2 ⊢
  simp only [Bool.false_eq_true, if_false]
  omega

/-- C1. Emitter step on a slot array of `N_MAXES` entries: if `j` is the
lowest index whose `play` flag is set, the emitter writes `maxes[j].instrument`
to the sink and the new array is the old one with only the `play` field of entry
`j` cleared (so every other entry, and every other field, is unchanged); the
emitter writes nothing iff no flag is set, and then the array is unchanged; and
whenever some flag is set the number of set flags drops by exactly one. -/
theorem C1_emitter_step (maxes : List LocMax) (hlen : maxes.length = N_MAXES) :
    (∀ j, j < N_MAXES → (slot maxes j).play ≠ 0 →
        (∀ i, i < j → (slot maxes i).play = 0) →
        emit maxes =
          (maxes.set j { slot maxes j with play := 0 }, some (slot maxes j).instrument)) ∧
    ((emit maxes).2 = none ↔ ∀ i, i < N_MAXES → (slot maxes i).play = 0) ∧
    ((∀ i, i < N_MAXES → (slot maxes i).play = 0) → (emit maxes).1 = maxes) ∧
    ((∃ i, i < N_MAXES ∧ (slot maxes i).play ≠ 0) →
        (∃ id, (emit maxes).2 = some id) ∧ pending (emit maxes).1 + 1 = pending maxes) := by
  have first : ∀ j, j < N_MAXES → (slot maxes j).play ≠ 0 →
      (∀ i, i < j → (slot maxes i).play = 0) →
      emit maxes =
        (maxes.set j { slot maxes j with play := 0 }, some (slot maxes j).instrument) := by
    intro j hj hp hfirst
    exact playLoop_first N_MAXES 0 j maxes (Nat.zero_le _) (by omega) hp
      (fun i _ h2 => hfirst i h2)
  have none_of : (∀ i, i < N_MAXES → (slot maxes i).play = 0) → emit maxes = (maxes, none) := by
    intro h
    exact playLoop_none N_MAXES 0 maxes (fun i _ h2 => h i (by omega))
  refine ⟨first, ⟨?_, ?_⟩, ?_, ?_⟩
  · intro hnone i hi
    by_contra hne
    obtain ⟨j, hj, hp, hfirst⟩ := exists_first_play maxes N_MAXES ⟨i, hi, hne⟩
    rw [first j hj hp hfirst] at hnone
    simp at hnone
  · intro h; rw [none_of h]
  · intro h; rw [none_of h]
  · intro hex
    obtain ⟨j, hj, hp, hfirst⟩ := exists_first_play maxes N_MAXES hex
    rw [first j hj hp hfirst]
    exact ⟨⟨_, rfl⟩, pending_set_clear maxes j (by omega) hp⟩

theorem diff_comm (a b : LocMax) : diff a b = diff b a := by
  unfold diff; omega

theorem dupInner_eq (i : Nat) (k j : Nat) (maxes : List LocMax) :
    dupInner i k j maxes =
      if ∃ x, x < j + k ∧ j ≤ x ∧ diff (slot maxes i) (slot maxes x) < 10 then
        maxes.set i { slot maxes i with search_n := 0 }
      else maxes := by
  induction k generalizing j with
  | zero =>
    have : ¬ ∃ x, x < j + 0 ∧ j ≤ x ∧ diff (slot maxes i) (slot maxes x) < 10 := by
      rintro ⟨x, h1, h2, _⟩; omega
    simp only [dupInner, this, if_false]
  | succ k ih =>
    by_cases hd : diff (slot maxes i) (slot maxes j) < 10
    · have : ∃ x, x < j + (k + 1) ∧ j ≤ x ∧ diff (slot maxes i) (slot maxes x) < 10 :=
        ⟨j, by omega, le_refl _, hd⟩
      simp only [dupInner, hd, this, if_true]
    · simp only [dupInner, hd, if_false]
      rw [ih (j + 1)]
      have : (∃ x, x < j + 1 + k ∧ j + 1 ≤ x ∧ diff (slot maxes i) (slot maxes x) < 10) ↔
          (∃ x, x < j + (k + 1) ∧ j ≤ x ∧ diff (slot maxes i) (slot maxes x) < 10) := by
        constructor
        · rintro ⟨x, h1, h2, h3⟩; exact ⟨x, by omega, by omega, h3⟩
        · rintro ⟨x, h1, h2, h3⟩
          have : x ≠ j := by rintro rfl; exact hd h3
          exact ⟨x, by omega, by omega, h3⟩
      simp only [this]

theorem dupInner_length (i k j : Nat) (maxes : List LocMax) :
    (dupInner i k j maxes).length = maxes.length := by
  rw [dupInner_eq]; split <;> simp

/-- What the inner loop for `i` leaves in entry `x`. -/
theorem slot_dupInner (i x : Nat) (maxes : List LocMax) (hi : i < maxes.length)
    (hN : i < N_MAXES) :
    slot (dupInner i (N_MAXES - (i + 1)) (i + 1) maxes) x =
      if x = i ∧ hasLaterDup maxes i then { slot maxes x with search_n := 0 }
      else slot maxes x := by
  rw [dupInner_eq]
  have hiff : (∃ y, y < i + 1 + (N_MAXES - (i + 1)) ∧ i + 1 ≤ y ∧
      diff (slot maxes i) (slot maxes y) < 10) ↔ hasLaterDup maxes i := by
    unfold hasLaterDup
    constructor
    · rintro ⟨y, h1, h2, h3⟩; exact ⟨y, by omega, by omega, h3⟩
    · rintro ⟨y, h1, h2, h3⟩; exact ⟨y, by omega, by omega, h3⟩
  by_cases hd : hasLaterDup maxes i
  · rw [if_pos (hiff.mpr hd), slot_set _ _ _ _ hi]
    by_cases hx : i = x
    · subst hx; simp [hd]
    · have : ¬ x = i := fun h => hx h.symm
      simp [hx, this]
  · rw [if_neg (fun h => hd (hiff.mp h))]
    simp [hd]

theorem hasLaterDup_congr (a b : List LocMax)
    (h : ∀ x, (slot a x).r = (slot b x).r ∧ (slot a x).t = (slot b x).t) (i : Nat) :
    hasLaterDup a i ↔ hasLaterDup b i := by
  unfold hasLaterDup diff
  constructor
  · rintro ⟨j, h1, h2, h3⟩
    refine ⟨j, h1, h2, ?_⟩
    rw [← (h i).1, ← (h i).2, ← (h j).1, ← (h j).2]; exact h3
  · rintro ⟨j, h1, h2, h3⟩
    refine ⟨j, h1, h2, ?_⟩
    rw [(h i).1, (h i).2, (h j).1, (h j).2]; exact h3

theorem dupOuter_length (k i : Nat) (maxes : List LocMax) :
    (dupOuter k i maxes).length = maxes.length := by
  induction k generalizing i maxes with
  | zero => rfl
  | succ k ih => simp only [dupOuter]; rw [ih, dupInner_length]

/-- What the outer loop, run for `i0 ≤ i < i0 + k`, leaves in entry `x`. -/
theorem slot_dupOuter (k i0 x : Nat) (maxes : List LocMax) (hlen : maxes.length = N_MAXES)
    (hk : i0 + k ≤ N_MAXES) :
    slot (dupOuter k i0 maxes) x =
      if (i0 ≤ x ∧ x < i0 + k) ∧ hasLaterDup maxes x then { slot maxes x with search_n := 0 }
      else slot maxes x := by
  induction k generalizing i0 maxes with
  | zero =>
    have : ¬ ((i0 ≤ x ∧ x < i0 + 0) ∧ hasLaterDup maxes x) := by rintro ⟨⟨h1, h2⟩, _⟩; omega
    simp only [dupOuter, this, if_false]
  | succ k ih =>
    simp only [dupOuter]
    have hi0 : i0 < maxes.length := by omega
    have hi0N : i0 < N_MAXES := by omega
    have hstep := fun y => slot_dupInner i0 y maxes hi0 hi0N
    have hsame : ∀ y, (slot (dupInner i0 (N_MAXES - (i0 + 1)) (i0 + 1) maxes) y).r = (slot maxes y).r ∧
        (slot (dupInner i0 (N_MAXES - (i0 + 1)) (i0 + 1) maxes) y).t = (slot maxes y).t := by
      intro y; rw [hstep y]; split <;> simp
    rw [ih (i0 + 1) _ (by rw [dupInner_length]; exact hlen) (by omega)]
    have hc := hasLaterDup_congr _ _ hsame x
    rw [hstep x]
    by_cases hd : hasLaterDup maxes x
    · have hd2 := hc.mpr hd
      by_cases hx : x = i0
      · subst hx
        have h1 : ¬ (x + 1 ≤ x ∧ x < x + 1 + k) := by omega
        have h2 : (x ≤ x ∧ x < x + (k + 1)) := by omega
        simp [hd, h1, h2]
      · by_cases hr : i0 + 1 ≤ x ∧ x < i0 + 1 + k
        · have h2 : (i0 ≤ x ∧ x < i0 + (k + 1)) := by omega
          simp [hd, hd2, hx, hr, h2]
        · have h2 : ¬ (i0 ≤ x ∧ x < i0 + (k + 1)) := by omega
          simp [hd, hx, hr, h2]
    · have hd2 : ¬ hasLaterDup (dupInner i0 (N_MAXES - (i0 + 1)) (i0 + 1) maxes) x :=
        fun h => hd (hc.mp h)
      have hd3 : ¬ (x = i0 ∧ hasLaterDup maxes i0) := by
        rintro ⟨rfl, h⟩; exact hd h
      simp [hd, hd2, hd3]

/-- Characterisation of `remove_dups`: entry `x` has `search_n` zeroed when a
later entry lies within combined distance 10, and is otherwise unchanged. -/
theorem slot_remove_dups (maxes : List LocMax) (hlen : maxes.length = N_MAXES) (x : Nat) :
    slot (remove_dups maxes) x =
      if x < N_MAXES ∧ hasLaterDup maxes x then { slot maxes x with search_n := 0 }
      else slot maxes x := by
  unfold remove_dups
  rw [slot_dupOuter N_MAXES 0 x maxes hlen (by omega)]
  have : ((0 ≤ x ∧ x < 0 + N_MAXES) ∧ hasLaterDup maxes x) ↔ (x < N_MAXES ∧ hasLaterDup maxes x) := by
    constructor
    · rintro ⟨⟨_, h⟩, h2⟩; exact ⟨by omega, h2⟩
    · rintro ⟨h, h2⟩; exact ⟨⟨by omega, by omega⟩, h2⟩
  simp only [this]

theorem C7_counterexample :
    nearPair.length = N_MAXES ∧ (48 : Nat) < 49 ∧ 49 < N_MAXES ∧
      diff (slot nearPair 48) (slot nearPair 49) < 10 ∧
      (slot (remove_dups nearPair) 49).search_n = 5 ∧
      (slot (remove_dups nearPair) 48).search_n = 0 := by
  decide

/-- C7 (amended). For every slot array and every pair of indices `i < j` with
`|t_i - t_j| + |r_i - r_j| < 10`, after `remove_dups` the earlier entry `i` (by
array index) has `search_n = 0`. -/
theorem C7_dedup_deactivates_earlier (maxes : List LocMax) (hlen : maxes.length = N_MAXES)
    (i j : Nat) (hij : i < j) (hj : j < N_MAXES)
    (hd : diff (slot maxes i) (slot maxes j) < 10) :
    (slot (remove_dups maxes) i).search_n = 0 := by
  rw [slot_remove_dups maxes hlen i]
  have h : i < N_MAXES ∧ hasLaterDup maxes i := ⟨by omega, j, hj, hij, hd⟩
  rw [if_pos h]

theorem C7_dedup_deactivates_earlier_witness :
    nearPair.length = N_MAXES ∧ diff (slot nearPair 48) (slot nearPair 49) < 10 ∧
      (slot (remove_dups nearPair) 48).search_n = 0 :=
  ⟨by decide, by decide,
    C7_dedup_deactivates_earlier nearPair (by decide) 48 49 (by decide) (by decide) (by decide)⟩

/-- C8. In a slot array where entries `i < j` are both active (`search_n > 0`)
and within combined distance 10 of each other, and every other entry is at
combined distance at least 10 from both, exactly one of the two is active after
`remove_dups`; and an active entry at combined distance at least 10 from every
other entry is still active afterwards. -/
theorem C8_dedup_keeps_exactly_one (maxes : List LocMax) (hlen : maxes.length = N_MAXES) :
    (∀ i j, i < j → j < N_MAXES →
        (slot maxes i).search_n > 0 → (slot maxes j).search_n > 0 →
        diff (slot maxes i) (slot maxes j) < 10 →
        (∀ k, k < N_MAXES → k ≠ i → k ≠ j →
          diff (slot maxes i) (slot maxes k) ≥ 10 ∧ diff (slot maxes j) (slot maxes k) ≥ 10) →
        (((slot (remove_dups maxes) i).search_n > 0 ∧ ¬ (slot (remove_dups maxes) j).search_n > 0) ∨
         (¬ (slot (remove_dups maxes) i).search_n > 0 ∧ (slot (remove_dups maxes) j).search_n > 0))) ∧
    (∀ i, i < N_MAXES → (slot maxes i).search_n > 0 →
        (∀ k, k < N_MAXES → k ≠ i → diff (slot maxes i) (slot maxes k) ≥ 10) →
        (slot (remove_dups maxes) i).search_n > 0) := by
  constructor
  · intro i j hij hj hai haj hd hfar
    right
    constructor
    · rw [slot_remove_dups maxes hlen i]
      have h : i < N_MAXES ∧ hasLaterDup maxes i := ⟨by omega, j, hj, hij, hd⟩
      rw [if_pos h]
      simp
    · rw [slot_remove_dups maxes hlen j]
      have h : ¬ (j < N_MAXES ∧ hasLaterDup maxes j) := by
        rintro ⟨_, k, hk, hjk, hdk⟩
        have := (hfar k hk (by omega) (by omega)).2
        omega
      rw [if_neg h]
      exact haj
  · intro i hi hai hfar
    rw [slot_remove_dups maxes hlen i]
    have h : ¬ (i < N_MAXES ∧ hasLaterDup maxes i) := by
      rintro ⟨_, k, hk, hik, hdk⟩
      have := hfar k hk (by omega)
      omega
    rw [if_neg h]
    exact hai

theorem C8_dedup_keeps_exactly_one_witness :
    nearPair.length = N_MAXES ∧
      ((slot nearPair 48).search_n > 0 ∧ (slot nearPair 49).search_n > 0 ∧
        diff (slot nearPair 48) (slot nearPair 49) < 10) ∧
      (((slot (remove_dups nearPair) 48).search_n > 0 ∧
          ¬ (slot (remove_dups nearPair) 49).search_n > 0) ∨
        (¬ (slot (remove_dups nearPair) 48).search_n > 0 ∧
          (slot (remove_dups nearPair) 49).search_n > 0)) ∧
      (slot (remove_dups nearPair) 3).search_n > 0 :=
  ⟨by decide, by decide,
    (C8_dedup_keeps_exactly_one nearPair (by decide)).1 48 49 (by decide) (by decide)
      (by decide) (by decide) (by decide) (by decide),
    (C8_dedup_keeps_exactly_one nearPair (by decide)).2 3 (by decide) (by decide) (by decide)⟩

/-! ## Loop ranges -/

theorem mem_intRange (lo hi x : Int) : x ∈ intRange lo hi ↔ lo ≤ x ∧ x < hi := by
  unfold intRange
  simp only [List.mem_map, List.mem_range]
  constructor
  · rintro ⟨k, hk, rfl⟩; omega
  · rintro ⟨h1, h2⟩
    exact ⟨(x - lo).toNat, by omega, by omega⟩

theorem intRange_append (lo mid hi : Int) (h1 : lo ≤ mid) (h2 : mid ≤ hi) :
    intRange lo hi = intRange lo mid ++ intRange mid hi := by
  unfold intRange
  have e : (hi - lo).toNat = (mid - lo).toNat + (hi - mid).toNat := by omega
  rw [e, List.range_add, List.map_append, List.map_map]
  congr 1
  apply List.map_congr_left
  intro k _
  simp only [Function.comp]
  push_cast
  omega

/-! ## Maxima scan -/

theorem scanOver_append (hough : Int → Int) (N_R : Int) (a b : List (Int × Int))
    (s : ScanState) :
    scanOver hough N_R (a ++ b) s = scanOver hough N_R b (scanOver hough N_R a s) := by
  simp [scanOver, List.foldl_append]

theorem scanOver_skip (hough : Int → Int) (N_R : Int) (cells : List (Int × Int))
    (s : ScanState) (h : ∀ c ∈ cells, hough (c.1 * N_R + c.2) ≤ s.min_max) :
    scanOver hough N_R cells s = s := by
  induction cells with
  | nil => rfl
  | cons c cs ih =>
    have hc := h c (List.mem_cons_self _ _)
    have : scanCell hough N_R c.1 c.2 s = s := by
      unfold scanCell accepts
      have : ¬ hough (c.1 * N_R + c.2) > s.min_max := by omega
      simp [this]
    simp only [scanOver, List.foldl_cons, this]
    exact ih (fun c' hc' => h c' (List.mem_cons_of_mem _ hc'))

theorem scanCells_split (N_R : Int) (mid : Int) (h1 : 1 ≤ mid) (h2 : mid ≤ N_THETA) :
    scanCells N_R =
      (intRange 1 mid).flatMap (fun t => (intRange 1 N_R).map (fun r => (t, r))) ++
      (intRange mid N_THETA).flatMap (fun t => (intRange 1 N_R).map (fun r => (t, r))) := by
  unfold scanCells
  rw [intRange_append 1 mid N_THETA h1 h2, List.flatMap_append]

theorem maximaScan_fivePeaks :
    (maximaScan fivePeaks 4 zeroMaxes).maxes.map (fun m => m.count) =
      [5, 0, 7, 6, 6] ++ List.replicate 45 0 := by
  unfold maximaScan
  rw [scanCells_split 4 11 (by decide) (by decide), scanOver_append]
  have hmm : (scanOver fivePeaks 4
      ((intRange 1 11).flatMap (fun t => (intRange 1 4).map (fun r => (t, r))))
      ⟨zeroMaxes, 0, 0⟩).min_max = 0 := by decide
  rw [scanOver_skip]
  · decide
  · intro c hc
    rw [hmm]
    simp only [List.mem_flatMap, List.mem_map, mem_intRange] at hc
    obtain ⟨t, ⟨ht1, ht2⟩, r, ⟨hr1, hr2⟩, rfl⟩ := hc
    simp only [fivePeaks]
    split_ifs <;> omega

theorem locateStride_fold (env : Env) (fr : Frame) (t r : Int) (L : List Int)
    (s : LocMax × Int) (ht : s.1.t = t) (hr : s.1.r = r) :
    let res := L.foldl (fun s sx => locateStride env fr sx s) s
    let cs := (L.filter (fun sx => decide (env.lineY t r sx > 2 ∧ env.lineY t r sx < fr.height - 2))).map
      (fun sx => windowCount fr.width fr.data sx (env.lineY t r sx))
    res.1.search_n = cs.foldl max s.1.search_n ∧
    res.2 = s.2 + ((cs.filter (fun c => decide (2 ≤ c))).length : Int) ∧
    res.1.t = t ∧ res.1.r = r := by
  induction L generalizing s with
  | nil => simp [ht, hr]
  | cons sx L ih =>
    simp only [List.foldl_cons]
    by_cases hin : env.lineY t r sx > 2 ∧ env.lineY t r sx < fr.height - 2
    · have hstep : locateStride env fr sx s =
          (if windowCount fr.width fr.data sx (env.lineY t r sx) > s.1.search_n then
              { s.1 with search_n := windowCount fr.width fr.data sx (env.lineY t r sx),
                         search_x := sx, search_y := env.lineY t r sx }
            else s.1,
           if windowCount fr.width fr.data sx (env.lineY t r sx) > 1 then s.2 + 1 else s.2) := by
        unfold locateStride
        simp only [ht, hr, hin, and_self, if_true]
      have h := ih (locateStride env fr sx s)
        (by rw [hstep]; dsimp only; split <;> simp [ht])
        (by rw [hstep]; dsimp only; split <;> simp [hr])
      obtain ⟨h1, h2, h3, h4⟩ := h
      refine ⟨?_, ?_, h3, h4⟩
      · rw [h1]
        simp only [List.filter_cons, hin, and_self, decide_True, if_true, List.map_cons,
          List.foldl_cons]
        congr 1
        rw [hstep]; dsimp only
        split
        · next hgt => simp only []; rw [max_eq_right (le_of_lt hgt)]
        · next hgt => rw [max_eq_left (not_lt.mp hgt)]
      · rw [h2]
        simp only [List.filter_cons, hin, and_self, decide_True, if_true, List.map_cons]
        rw [hstep]; dsimp only
        by_cases hq : windowCount fr.width fr.data sx (env.lineY t r sx) > 1
        · have hq2 : 2 ≤ windowCount fr.width fr.data sx (env.lineY t r sx) := by omega
          simp only [hq, hq2, if_true, decide_True, List.length_cons]
          push_cast; omega
        · have hq2 : ¬ 2 ≤ windowCount fr.width fr.data sx (env.lineY t r sx) := by omega
          simp only [hq, hq2, if_false, decide_False]
          simp
    · have hstep : locateStride env fr sx s = s := by
        unfold locateStride
        simp only [ht, hr, hin, if_false]
      rw [hstep]
      have h := ih s ht hr
      simp only [List.filter_cons, hin, decide_False, if_false] at h ⊢
      simpa using h

theorem searchLine_spec (env : Env) (fr : Frame) (m : LocMax) :
    (searchLine env fr m).1.search_n = bestWindow env fr m.t m.r ∧
    (searchLine env fr m).2 = (qualifyingStrides env fr m.t m.r : Int) := by
  have h := locateStride_fold env fr m.t m.r (strides fr.width)
    ({ m with instrument := -1, noisy := 0, played_at := 0, reset_at := 0,
              search_n := 0, search_x := -1, search_y := -1 }, 0) rfl rfl
  obtain ⟨h1, h2, _, _⟩ := h
  constructor
  · exact h1
  · rw [searchLine, h2]; simp [qualifyingStrides, windowCounts, inImageStrides]

theorem centerOfMass_search_n (fr : Frame) (m : LocMax) :
    (centerOfMass fr m).search_n = m.search_n := by
  unfold centerOfMass; split <;> rfl

theorem locate_search_n (env : Env) (fr : Frame) (m : LocMax) :
    (locate env fr m).search_n =
      if qualifyingStrides env fr m.t m.r < 2 ∨ bestWindow env fr m.t m.r < 4 then 0
      else bestWindow env fr m.t m.r := by
  obtain ⟨h1, h2⟩ := searchLine_spec env fr m
  unfold locate
  rw [centerOfMass_search_n]
  unfold acceptLine
  rw [h1, h2]
  have e : ((qualifyingStrides env fr m.t m.r : Int) < 2) ↔ qualifyingStrides env fr m.t m.r < 2 := by
    omega
  simp only [e]
  split
  · rfl
  · exact h1

/-- C9. Locator acceptance is conjunctive: after the line-location step of an
entry, `search_n` is non-zero iff at least 2 in-image strides had a 5x5 window
with at least 2 foreground pixels and the best window had at least 4; when
accepted `search_n` is the maximum window count, otherwise it is 0; in
particular fewer than 2 qualifying strides give 0 whatever the best window. -/
theorem C9_locator_acceptance (env : Env) (fr : Frame) (m : LocMax) :
    ((locate env fr m).search_n ≠ 0 ↔
      (2 ≤ qualifyingStrides env fr m.t m.r ∧ 4 ≤ bestWindow env fr m.t m.r)) ∧
    ((2 ≤ qualifyingStrides env fr m.t m.r ∧ 4 ≤ bestWindow env fr m.t m.r) →
      (locate env fr m).search_n = bestWindow env fr m.t m.r) ∧
    (¬ (2 ≤ qualifyingStrides env fr m.t m.r ∧ 4 ≤ bestWindow env fr m.t m.r) →
      (locate env fr m).search_n = 0) ∧
    (qualifyingStrides env fr m.t m.r < 2 → (locate env fr m).search_n = 0) := by
  rw [locate_search_n]
  refine ⟨?_, ?_, ?_, ?_⟩
  · constructor
    · intro h
      by_contra hc
      apply h
      rw [if_pos (by omega)]
    · rintro ⟨h1, h2⟩
      rw [if_neg (by omega)]
      omega
  · rintro ⟨h1, h2⟩
    rw [if_neg (by omega)]
  · intro h
    rw [if_pos (by omega)]
  · intro h
    rw [if_pos (Or.inl h)]

/-! ## Tracking: one entry -/

theorem trackLine_fires (frame npixels : Int) (m : LocMax) (n : Int)
    (h : fires frame npixels m) :
    trackLine frame npixels m n =
      ({ m with
          instrument := if m.instrument < 0 then n + 1 else m.instrument
          played_at := frame
          play := if m.noisy = 0 then 1 else m.play
          noisy := m.noisy + 10 }, n + 1) := by
  obtain ⟨h1, h2, h3, h4⟩ := h
  unfold trackLine
  simp only [h1, h2, h3, h4, and_self, if_true, if_false]

theorem trackLine_clears (frame npixels : Int) (m : LocMax) (n : Int)
    (h : clears npixels m) :
    trackLine frame npixels m n =
      ({ m with noisy := if m.noisy = 0 then 0 else m.noisy - 1, reset_at := frame }, n) := by
  obtain ⟨h1, h2⟩ := h
  unfold trackLine
  simp only [h1, h2, if_false]

theorem trackLine_idle (frame npixels : Int) (m : LocMax) (n : Int)
    (h1 : ¬ fires frame npixels m) (h2 : ¬ clears npixels m) :
    trackLine frame npixels m n = (m, n) := by
  unfold trackLine
  by_cases hs : m.search_n = 0
  · simp only [hs, if_true]
  · by_cases hp : npixels < 2
    · have : ¬ (frame - m.played_at > 5 ∧ frame - m.reset_at < 2) := by
        intro hc; exact h1 ⟨hs, hp, hc.1, hc.2⟩
      simp only [hs, hp, this, if_true, if_false]
    · exact absurd ⟨hs, hp⟩ h2

theorem fires_not_clears (frame npixels : Int) (m : LocMax) (h : fires frame npixels m) :
    ¬ clears npixels m := fun hc => hc.2 h.2.1

/-- The three cases of the tracking body. -/
theorem trackLine_cases (frame npixels : Int) (m : LocMax) (n : Int) :
    (fires frame npixels m ∧ trackLine frame npixels m n =
      ({ m with
          instrument := if m.instrument < 0 then n + 1 else m.instrument
          played_at := frame
          play := if m.noisy = 0 then 1 else m.play
          noisy := m.noisy + 10 }, n + 1)) ∨
    (¬ fires frame npixels m ∧ clears npixels m ∧ trackLine frame npixels m n =
      ({ m with noisy := if m.noisy = 0 then 0 else m.noisy - 1, reset_at := frame }, n)) ∨
    (¬ fires frame npixels m ∧ ¬ clears npixels m ∧ trackLine frame npixels m n = (m, n)) := by
  by_cases hf : fires frame npixels m
  · exact Or.inl ⟨hf, trackLine_fires _ _ _ _ hf⟩
  · by_cases hc : clears npixels m
    · exact Or.inr (Or.inl ⟨hf, hc, trackLine_clears _ _ _ _ hc⟩)
    · exact Or.inr (Or.inr ⟨hf, hc, trackLine_idle _ _ _ _ hf hc⟩)

theorem trackLine_zeroMax (frame npixels n : Int) :
    trackLine frame npixels zeroMax n = (zeroMax, n) := by
  unfold trackLine; simp [zeroMax]

/-! ## Tracking: the loop -/

theorem slot_of_length_le (maxes : List LocMax) (i : Nat) (h : maxes.length ≤ i) :
    slot maxes i = zeroMax := by
  simp [slot, List.getElem?_eq_none h]

theorem slot_set_trackLine (frame npixels n : Int) (maxes : List LocMax) (i : Nat) :
    slot (maxes.set i (trackLine frame npixels (slot maxes i) n).1) i =
      (trackLine frame npixels (slot maxes i) n).1 := by
  by_cases h : i < maxes.length
  · exact slot_set_self _ _ _ h
  · rw [List.set_eq_of_length_le (by omega), slot_of_length_le _ _ (by omega), trackLine_zeroMax]

theorem trackLoop_length (frame : Int) (npix : Nat → Int) (k line : Nat)
    (s : List LocMax × Int) :
    (trackLoop frame npix k line s).1.length = s.1.length := by
  induction k generalizing line s with
  | zero => rfl
  | succ k ih => simp only [trackLoop]; rw [ih]; simp

theorem trackLoop_add (frame : Int) (npix : Nat → Int) (a b line : Nat)
    (s : List LocMax × Int) :
    trackLoop frame npix (a + b) line s =
      trackLoop frame npix b (line + a) (trackLoop frame npix a line s) := by
  induction a generalizing line s with
  | zero => simp [trackLoop]
  | succ a ih =>
    have e : a + 1 + b = (a + b) + 1 := by omega
    rw [e]
    simp only [trackLoop]
    rw [ih]
    have e2 : line + 1 + a = line + (a + 1) := by omega
    rw [e2]

theorem slot_trackLoop_aux (frame : Int) (npix : Nat → Int) (k line : Nat)
    (s : List LocMax × Int) (i : Nat) :
    slot (trackLoop frame npix k line s).1 i =
      if line ≤ i ∧ i < line + k then
        (trackLine frame (npix i) (slot s.1 i) (trackLoop frame npix (i - line) line s).2).1
      else slot s.1 i := by
  induction k generalizing line s with
  | zero =>
    have : ¬ (line ≤ i ∧ i < line + 0) := by omega
    simp only [trackLoop, this, if_false]
  | succ k ih =>
    simp only [trackLoop]
    rw [ih]
    by_cases hi : line = i
    · subst hi
      have h1 : ¬ (line + 1 ≤ line ∧ line < line + 1 + k) := by omega
      have h2 : line ≤ line ∧ line < line + (k + 1) := by omega
      simp only [h1, h2, if_false, if_true, Nat.sub_self, trackLoop]
      exact slot_set_trackLine _ _ _ _ _
    · by_cases hr : line + 1 ≤ i ∧ i < line + 1 + k
      · have h2 : line ≤ i ∧ i < line + (k + 1) := by omega
        simp only [hr, h2, and_self, if_true]
        rw [slot_set_ne _ _ _ _ hi]
        have e : i - line = (i - (line + 1)) + 1 := by omega
        rw [e]
        simp only [trackLoop]
      · have h2 : ¬ (line ≤ i ∧ i < line + (k + 1)) := by omega
        simp only [hr, h2, if_false]
        exact slot_set_ne _ _ _ _ hi

/-- What the tracking loop leaves in entry `i`: the tracking body applied to the
entry it started with and the value `n` has when the loop reaches `i`. -/
theorem slot_trackLoop (frame : Int) (npix : Nat → Int) (maxes : List LocMax) (n : Int)
    (i : Nat) (hi : i < N_MAXES) :
    slot (trackLoop frame npix N_MAXES 0 (maxes, n)).1 i =
      (trackLine frame (npix i) (slot maxes i) (nBefore frame npix maxes n i)).1 := by
  rw [slot_trackLoop_aux]
  have : 0 ≤ i ∧ i < 0 + N_MAXES := by omega
  simp only [this, and_self, if_true, Nat.sub_zero, nBefore]

theorem slot_trackLoop_out (frame : Int) (npix : Nat → Int) (maxes : List LocMax) (n : Int)
    (i : Nat) (hi : ¬ i < N_MAXES) :
    slot (trackLoop frame npix N_MAXES 0 (maxes, n)).1 i = slot maxes i := by
  rw [slot_trackLoop_aux]
  have : ¬ (0 ≤ i ∧ i < 0 + N_MAXES) := by omega
  simp only [this, if_false]

theorem trackLine_n_le (frame npixels : Int) (m : LocMax) (n : Int) :
    n ≤ (trackLine frame npixels m n).2 := by
  rcases trackLine_cases frame npixels m n with ⟨_, h⟩ | ⟨_, _, h⟩ | ⟨_, _, h⟩ <;> simp [h]

theorem trackLoop_n_le (frame : Int) (npix : Nat → Int) (k line : Nat)
    (s : List LocMax × Int) : s.2 ≤ (trackLoop frame npix k line s).2 := by
  induction k generalizing line s with
  | zero => simp [trackLoop]
  | succ k ih =>
    simp only [trackLoop]
    exact le_trans (trackLine_n_le _ _ _ _) (ih _ _)

theorem nBefore_succ (frame : Int) (npix : Nat → Int) (maxes : List LocMax) (n : Int)
    (i : Nat) :
    nBefore frame npix maxes n (i + 1) =
      (trackLine frame (npix i) (slot maxes i) (nBefore frame npix maxes n i)).2 := by
  unfold nBefore
  rw [trackLoop_add frame npix i 1 0]
  simp only [trackLoop, Nat.zero_add]
  have := slot_trackLoop_aux frame npix i 0 (maxes, n) i
  have h : ¬ (0 ≤ i ∧ i < 0 + i) := by omega
  simp only [h, if_false] at this
  rw [this]

theorem nBefore_mono (frame : Int) (npix : Nat → Int) (maxes : List LocMax) (n : Int)
    (i j : Nat) (h : i ≤ j) :
    nBefore frame npix maxes n i ≤ nBefore frame npix maxes n j := by
  obtain ⟨d, rfl⟩ := Nat.exists_eq_add_of_le h
  unfold nBefore
  rw [trackLoop_add]
  exact trackLoop_n_le _ _ _ _ _

theorem nBefore_zero (frame : Int) (npix : Nat → Int) (maxes : List LocMax) (n : Int) :
    nBefore frame npix maxes n 0 = n := rfl

/-! ## Emitter: effect on one entry -/

theorem emit_cases (maxes : List LocMax) :
    (emit maxes = (maxes, none) ∧ ∀ i, i < N_MAXES → (slot maxes i).play = 0) ∨
    (∃ j, j < N_MAXES ∧ (slot maxes j).play ≠ 0 ∧ (∀ i, i < j → (slot maxes i).play = 0) ∧
      emit maxes =
        (maxes.set j { slot maxes j with play := 0 }, some (slot maxes j).instrument)) := by
  by_cases h : ∃ i, i < N_MAXES ∧ (slot maxes i).play ≠ 0
  · obtain ⟨j, hj, hp, hfirst⟩ := exists_first_play maxes N_MAXES h
    exact Or.inr ⟨j, hj, hp, hfirst,
      playLoop_first N_MAXES 0 j maxes (Nat.zero_le _) (by omega) hp (fun i _ h2 => hfirst i h2)⟩
  · have h0 : ∀ i, i < N_MAXES → (slot maxes i).play = 0 := by
      intro i hi
      by_contra hne
      exact h ⟨i, hi, hne⟩
    exact Or.inl ⟨playLoop_none N_MAXES 0 maxes (fun i _ h2 => h0 i (by omega)), h0⟩

theorem emit_length (maxes : List LocMax) : (emit maxes).1.length = maxes.length := by
  rcases emit_cases maxes with ⟨h, _⟩ | ⟨j, _, _, _, h⟩ <;> simp [h]

/-- The emitter changes at most the `play` field of an entry, and only to 0. -/
theorem slot_emit (maxes : List LocMax) (i : Nat) :
    slot (emit maxes).1 i = slot maxes i ∨
      slot (emit maxes).1 i = { slot maxes i with play := 0 } := by
  rcases emit_cases maxes with ⟨h, _⟩ | ⟨j, _, hp, _, h⟩
  · left; rw [h]
  · rw [h]
    by_cases hji : j = i
    · subst hji
      right
      have hlt : j < maxes.length := by
        by_contra hge
        rw [slot_of_length_le _ _ (by omega)] at hp
        exact hp rfl
      exact slot_set_self _ _ _ hlt
    · left; exact slot_set_ne _ _ _ _ hji

/-! ## One call of `mirror_redraw` -/

theorem mirror_redraw_early (env : Env) (fr : Frame) (s : State) (h : s.frame + 1 < 150) :
    mirror_redraw env fr s = ({ s with frame := s.frame + 1 }, none) := by
  unfold mirror_redraw; simp only [h, if_true]

theorem mirror_redraw_late (env : Env) (fr : Frame) (s : State) (h : ¬ s.frame + 1 < 150) :
    (mirror_redraw env fr s).1 =
      ⟨(emit (trackLoop (s.frame + 1) (npixelsOf fr) N_MAXES 0
          (maxesBeforeTracking env fr s, s.n)).1).1,
        nBefore (s.frame + 1) (npixelsOf fr) (maxesBeforeTracking env fr s) s.n N_MAXES,
        s.frame + 1, true⟩ := by
  unfold mirror_redraw; simp only [h, if_false]; rfl

theorem mirror_redraw_frame (env : Env) (fr : Frame) (s : State) :
    (mirror_redraw env fr s).1.frame = s.frame + 1 := by
  by_cases h : s.frame + 1 < 150
  · rw [mirror_redraw_early env fr s h]
  · rw [mirror_redraw_late env fr s h]

theorem mirror_redraw_initialized (env : Env) (fr : Frame) (s : State)
    (h : s.initialized = true) : (mirror_redraw env fr s).1.initialized = true := by
  by_cases hf : s.frame + 1 < 150
  · rw [mirror_redraw_early env fr s hf]; exact h
  · rw [mirror_redraw_late env fr s hf]

/-- After a call that reaches the tracking loop, entry `i` is what the loop body
computed for it, up to the `play` flag the emitter may have cleared. -/
theorem slot_mirror_redraw (env : Env) (fr : Frame) (s : State) (h : ¬ s.frame + 1 < 150)
    (i : Nat) (hi : i < N_MAXES) :
    slot (mirror_redraw env fr s).1.maxes i = trackedEntry env fr s i ∨
    slot (mirror_redraw env fr s).1.maxes i = { trackedEntry env fr s i with play := 0 } := by
  rw [mirror_redraw_late env fr s h]
  simp only
  have ht := slot_trackLoop (s.frame + 1) (npixelsOf fr) (maxesBeforeTracking env fr s) s.n i hi
  rcases slot_emit (trackLoop (s.frame + 1) (npixelsOf fr) N_MAXES 0
      (maxesBeforeTracking env fr s, s.n)).1 i with h1 | h1
  · left; rw [h1, ht]; rfl
  · right; rw [h1, ht]; rfl

/-! ## Runs -/

theorem run_nil (env : Env) (s : State) : run env s [] = s := rfl

theorem run_cons (env : Env) (s : State) (fr : Frame) (frames : List Frame) :
    run env s (fr :: frames) = run env (mirror_redraw env fr s).1 frames := rfl

theorem run_append (env : Env) (s : State) (a b : List Frame) :
    run env s (a ++ b) = run env (run env s a) b := by
  simp [run, List.foldl_append]

theorem run_snoc (env : Env) (s : State) (a : List Frame) (fr : Frame) :
    run env s (a ++ [fr]) = (mirror_redraw env fr (run env s a)).1 := by
  rw [run_append]; rfl

theorem run_frame (env : Env) (s : State) (frames : List Frame) :
    (run env s frames).frame = s.frame + frames.length := by
  induction frames generalizing s with
  | nil => simp [run_nil]
  | cons fr frames ih =>
    rw [run_cons, ih, mirror_redraw_frame]
    simp only [List.length_cons]; push_cast; omega

theorem run_initialized (env : Env) (s : State) (frames : List Frame)
    (h : s.initialized = true) : (run env s frames).initialized = true := by
  induction frames generalizing s with
  | nil => exact h
  | cons fr frames ih => rw [run_cons]; exact ih _ (mirror_redraw_initialized env fr s h)

theorem initState_frame : initState.frame = 0 := rfl

/-! ## Fields of the tracked entry -/

theorem trackLine_played_at (frame npixels : Int) (m : LocMax) (n : Int) :
    (trackLine frame npixels m n).1.played_at =
      if fires frame npixels m then frame else m.played_at := by
  rcases trackLine_cases frame npixels m n with ⟨hf, h⟩ | ⟨hf, _, h⟩ | ⟨hf, _, h⟩ <;>
    rw [h] <;> simp [hf]

theorem trackLine_reset_at (frame npixels : Int) (m : LocMax) (n : Int) :
    (trackLine frame npixels m n).1.reset_at =
      if clears npixels m then frame else m.reset_at := by
  rcases trackLine_cases frame npixels m n with ⟨hf, h⟩ | ⟨hf, hc, h⟩ | ⟨hf, hc, h⟩
  · rw [h]; simp [fires_not_clears _ _ _ hf]
  · rw [h]; simp [hc]
  · rw [h]; simp [hc]

theorem trackLine_search_n (frame npixels : Int) (m : LocMax) (n : Int) :
    (trackLine frame npixels m n).1.search_n = m.search_n := by
  rcases trackLine_cases frame npixels m n with ⟨hf, h⟩ | ⟨hf, hc, h⟩ | ⟨hf, hc, h⟩ <;>
    rw [h]

/-- After a call that reaches the tracking loop, `played_at` of entry `i` is the
frame of the call if the entry triggered, and is otherwise unchanged. -/
theorem played_at_mirror_redraw (env : Env) (fr : Frame) (s : State)
    (h : ¬ s.frame + 1 < 150) (i : Nat) (hi : i < N_MAXES) :
    (slot (mirror_redraw env fr s).1.maxes i).played_at =
      if triggers env fr s i then s.frame + 1
      else (slot (maxesBeforeTracking env fr s) i).played_at := by
  have e : (slot (mirror_redraw env fr s).1.maxes i).played_at =
      (trackedEntry env fr s i).played_at := by
    rcases slot_mirror_redraw env fr s h i hi with h1 | h1 <;> rw [h1]
  rw [e, trackedEntry, trackLine_played_at]
  have : triggers env fr s i ↔
      fires (s.frame + 1) (npixelsOf fr i) (slot (maxesBeforeTracking env fr s) i) := by
    unfold triggers
    constructor
    · exact fun hh => hh.2.2
    · exact fun hh => ⟨hi, h, hh⟩
  by_cases hf : fires (s.frame + 1) (npixelsOf fr i) (slot (maxesBeforeTracking env fr s) i)
  · rw [if_pos hf, if_pos (this.mpr hf)]
  · rw [if_neg hf, if_neg (fun hh => hf (this.mp hh))]

theorem maxesBeforeTracking_initialized (env : Env) (fr : Frame) (s : State)
    (h : s.initialized = true) : maxesBeforeTracking env fr s = s.maxes := by
  unfold maxesBeforeTracking; simp [h]

/-- From an initialised state, `played_at` of an entry never falls below a
value it has reached, as long as that value is not beyond the frame counter. -/
theorem played_at_ge_run (env : Env) (s : State) (frames : List Frame) (i : Nat)
    (hi : i < N_MAXES) (f : Int) (hinit : s.initialized = true)
    (hf : f ≤ s.frame) (hp : f ≤ (slot s.maxes i).played_at) :
    f ≤ (slot (run env s frames).maxes i).played_at := by
  induction frames generalizing s with
  | nil => exact hp
  | cons fr frames ih =>
    rw [run_cons]
    apply ih
    · exact mirror_redraw_initialized env fr s hinit
    · rw [mirror_redraw_frame]; omega
    · by_cases h : s.frame + 1 < 150
      · rw [mirror_redraw_early env fr s h]; exact hp
      · rw [played_at_mirror_redraw env fr s h i hi]
        split
        · omega
        · rw [maxesBeforeTracking_initialized env fr s hinit]; exact hp

/-- C2. Debounce floor: along any sequence of calls of `mirror_redraw` (any
frames read back, so any `npixels` samples, in particular occluded on every
frame in between), if entry `i` meets the trigger condition in the call at frame
`f1` and again in a later call at frame `f2`, then `f2 - f1 > 5`; `played_at` is
set to the frame of the call at both. -/
theorem C2_debounce_floor (env : Env) (s0 : State) (pre : List Frame) (fr1 : Frame)
    (mid : List Frame) (fr2 : Frame) (i : Nat)
    (h1 : triggers env fr1 (run env s0 pre) i)
    (h2 : triggers env fr2 (run env s0 (pre ++ fr1 :: mid)) i) :
    ((run env s0 (pre ++ fr1 :: mid)).frame + 1) - ((run env s0 pre).frame + 1) > 5 ∧
    (slot (mirror_redraw env fr1 (run env s0 pre)).1.maxes i).played_at =
      (run env s0 pre).frame + 1 ∧
    (slot (mirror_redraw env fr2 (run env s0 (pre ++ fr1 :: mid))).1.maxes i).played_at =
      (run env s0 (pre ++ fr1 :: mid)).frame + 1 ∧
    (run env s0 (pre ++ fr1 :: mid)).frame + 1 =
      (run env s0 pre).frame + 1 + (mid.length + 1) := by
  have hi : i < N_MAXES := h1.1
  have hset1 : (slot (mirror_redraw env fr1 (run env s0 pre)).1.maxes i).played_at =
      (run env s0 pre).frame + 1 := by
    rw [played_at_mirror_redraw env fr1 _ h1.2.1 i hi, if_pos h1]
  have hset2 : (slot (mirror_redraw env fr2 (run env s0 (pre ++ fr1 :: mid))).1.maxes i).played_at =
      (run env s0 (pre ++ fr1 :: mid)).frame + 1 := by
    rw [played_at_mirror_redraw env fr2 _ h2.2.1 i hi, if_pos h2]
  have hrun : run env s0 (pre ++ fr1 :: mid) =
      run env (mirror_redraw env fr1 (run env s0 pre)).1 mid := by
    rw [run_append, run_cons]
  have hinit1 : (mirror_redraw env fr1 (run env s0 pre)).1.initialized = true := by
    rw [mirror_redraw_late env fr1 _ h1.2.1]
  have hfr : (run env s0 (pre ++ fr1 :: mid)).frame =
      (run env s0 pre).frame + 1 + mid.length := by
    rw [hrun, run_frame, mirror_redraw_frame]
  have hge := played_at_ge_run env (mirror_redraw env fr1 (run env s0 pre)).1 mid i hi
    ((run env s0 pre).frame + 1) hinit1 (by rw [mirror_redraw_frame]) (by rw [hset1])
  rw [← hrun] at hge
  have hinit2 : (run env s0 (pre ++ fr1 :: mid)).initialized = true := by
    rw [hrun]; exact run_initialized env _ mid hinit1
  have hfire := h2.2.2
  rw [maxesBeforeTracking_initialized env fr2 _ hinit2] at hfire
  have hcond := hfire.2.2.1
  refine ⟨?_, hset1, hset2, ?_⟩
  · omega
  · rw [hfr]; omega

/-! ## Detection pass: what it leaves in the array -/

theorem minLoop_maxes (k i : Nat) (s : ScanState) : (minLoop k i s).maxes = s.maxes := by
  induction k generalizing i s with
  | zero => rfl
  | succ k ih =>
    simp only [minLoop]
    rw [ih]
    split <;> rfl

theorem scanCell_length (hough : Int → Int) (N_R t r : Int) (s : ScanState) :
    (scanCell hough N_R t r s).maxes.length = s.maxes.length := by
  unfold scanCell
  split
  · rw [minLoop_maxes]; simp
  · rfl

theorem scanCell_play (hough : Int → Int) (N_R t r : Int) (s : ScanState)
    (h : ∀ i, (slot s.maxes i).play = 0) :
    ∀ i, (slot (scanCell hough N_R t r s).maxes i).play = 0 := by
  intro i
  unfold scanCell
  split
  · rw [minLoop_maxes]
    simp only
    by_cases hlt : s.min_max_i < s.maxes.length
    · rw [slot_set _ _ _ _ hlt]
      split
      · exact h s.min_max_i
      · exact h i
    · rw [List.set_eq_of_length_le (by omega)]; exact h i
  · exact h i

theorem scanOver_length (hough : Int → Int) (N_R : Int) (cells : List (Int × Int))
    (s : ScanState) : (scanOver hough N_R cells s).maxes.length = s.maxes.length := by
  induction cells generalizing s with
  | nil => rfl
  | cons c cs ih =>
    simp only [scanOver, List.foldl_cons]
    have := ih (scanCell hough N_R c.1 c.2 s)
    simp only [scanOver] at this
    rw [this, scanCell_length]

theorem scanOver_play (hough : Int → Int) (N_R : Int) (cells : List (Int × Int))
    (s : ScanState) (h : ∀ i, (slot s.maxes i).play = 0) :
    ∀ i, (slot (scanOver hough N_R cells s).maxes i).play = 0 := by
  induction cells generalizing s with
  | nil => exact h
  | cons c cs ih =>
    simp only [scanOver, List.foldl_cons]
    have := ih (scanCell hough N_R c.1 c.2 s) (scanCell_play hough N_R c.1 c.2 s h)
    simpa only [scanOver] using this

theorem slot_mem (maxes : List LocMax) (i : Nat) (h : i < maxes.length) :
    slot maxes i ∈ maxes := by
  rw [slot_eq_getElem _ _ h]; exact List.getElem_mem _

theorem play_zero_of_slots (maxes : List LocMax) (h : ∀ i, (slot maxes i).play = 0) :
    ∀ m ∈ maxes, m.play = 0 := by
  intro m hm
  obtain ⟨i, hi, rfl⟩ := List.getElem_of_mem hm
  have := h i
  rwa [slot_eq_getElem _ _ hi] at this

theorem slots_of_play_zero (maxes : List LocMax) (h : ∀ m ∈ maxes, m.play = 0) :
    ∀ i, (slot maxes i).play = 0 := by
  intro i
  by_cases hi : i < maxes.length
  · exact h _ (slot_mem maxes i hi)
  · rw [slot_of_length_le _ _ (by omega)]; rfl

theorem sameButSearch_refl (a : LocMax) : sameButSearch a a :=
  ⟨rfl, rfl, rfl, rfl, rfl, rfl, rfl, rfl⟩

theorem sameButSearch_trans (a b c : LocMax) (h1 : sameButSearch a b)
    (h2 : sameButSearch b c) : sameButSearch a c := by
  obtain ⟨a1, a2, a3, a4, a5, a6, a7, a8⟩ := h1
  obtain ⟨b1, b2, b3, b4, b5, b6, b7, b8⟩ := h2
  exact ⟨b1.trans a1, b2.trans a2, b3.trans a3, b4.trans a4, b5.trans a5, b6.trans a6,
    b7.trans a7, b8.trans a8⟩

theorem locateStride_same (env : Env) (fr : Frame) (sx : Int) (s : LocMax × Int) :
    sameButSearch s.1 (locateStride env fr sx s).1 := by
  unfold locateStride
  simp only
  split
  · split <;> exact ⟨rfl, rfl, rfl, rfl, rfl, rfl, rfl, rfl⟩
  · exact sameButSearch_refl _

theorem locateFold_same (env : Env) (fr : Frame) (L : List Int) (s : LocMax × Int) :
    sameButSearch s.1 (L.foldl (fun s sx => locateStride env fr sx s) s).1 := by
  induction L generalizing s with
  | nil => exact sameButSearch_refl _
  | cons sx L ih =>
    simp only [List.foldl_cons]
    exact sameButSearch_trans _ _ _ (locateStride_same env fr sx s) (ih _)

theorem acceptLine_same (s : LocMax × Int) : sameButSearch s.1 (acceptLine s) := by
  unfold acceptLine
  split <;> exact ⟨rfl, rfl, rfl, rfl, rfl, rfl, rfl, rfl⟩

theorem centerOfMass_same (fr : Frame) (m : LocMax) : sameButSearch m (centerOfMass fr m) := by
  unfold centerOfMass
  split <;> exact ⟨rfl, rfl, rfl, rfl, rfl, rfl, rfl, rfl⟩

/-- The entry the locator leaves: the tracking fields are reset (lines 425-428),
and `count`, `t`, `r`, `play` are those of the entry it was given. -/
theorem locate_fields (env : Env) (fr : Frame) (m : LocMax) :
    (locate env fr m).instrument = -1 ∧ (locate env fr m).noisy = 0 ∧
    (locate env fr m).played_at = 0 ∧ (locate env fr m).reset_at = 0 ∧
    (locate env fr m).play = m.play ∧ (locate env fr m).count = m.count ∧
    (locate env fr m).t = m.t ∧ (locate env fr m).r = m.r := by
  have h1 := locateFold_same env fr (strides fr.width)
    ({ m with instrument := -1, noisy := 0, played_at := 0, reset_at := 0,
              search_n := 0, search_x := -1, search_y := -1 }, 0)
  have h2 := acceptLine_same (searchLine env fr m)
  have h3 := centerOfMass_same fr (acceptLine (searchLine env fr m))
  have h := sameButSearch_trans _ _ _ (sameButSearch_trans _ _ _ h1 h2) h3
  obtain ⟨c1, c2, c3, c4, c5, c6, c7, c8⟩ := h
  exact ⟨c6, c8, c4, c5, c7, c1, c2, c3⟩

theorem locateLoop_length (env : Env) (fr : Frame) (k i : Nat) (maxes : List LocMax) :
    (locateLoop env fr k i maxes).length = maxes.length := by
  induction k generalizing i maxes with
  | zero => rfl
  | succ k ih => simp only [locateLoop]; rw [ih]; simp

theorem slot_locateLoop (env : Env) (fr : Frame) (k i0 x : Nat) (maxes : List LocMax)
    (hlen : i0 + k ≤ maxes.length) :
    slot (locateLoop env fr k i0 maxes) x =
      if i0 ≤ x ∧ x < i0 + k then locate env fr (slot maxes x) else slot maxes x := by
  induction k generalizing i0 maxes with
  | zero =>
    have : ¬ (i0 ≤ x ∧ x < i0 + 0) := by omega
    simp only [locateLoop, this, if_false]
  | succ k ih =>
    simp only [locateLoop]
    rw [ih (i0 + 1) _ (by simp; omega)]
    by_cases hx : i0 = x
    · subst hx
      have h1 : ¬ (i0 + 1 ≤ i0 ∧ i0 < i0 + 1 + k) := by omega
      have h2 : i0 ≤ i0 ∧ i0 < i0 + (k + 1) := by omega
      simp only [h1, h2, if_false, if_true, and_self]
      exact slot_set_self _ _ _ (by omega)
    · rw [slot_set_ne _ _ _ _ hx]
      by_cases hr : i0 + 1 ≤ x ∧ x < i0 + 1 + k
      · have h2 : i0 ≤ x ∧ x < i0 + (k + 1) := by omega
        simp only [hr, h2, and_self, if_true]
      · have h2 : ¬ (i0 ≤ x ∧ x < i0 + (k + 1)) := by omega
        simp only [hr, h2, if_false]

theorem remove_dups_length (maxes : List LocMax) : (remove_dups maxes).length = maxes.length :=
  dupOuter_length _ _ _

/-- Length of the array after the detection pass, for a `qsort` that permutes. -/
theorem detect_length (env : Env) (hq : ∀ l, (env.qsort l).Perm l) (fr : Frame)
    (maxes : List LocMax) : (detect env fr maxes).length = maxes.length := by
  unfold detect
  simp only
  rw [remove_dups_length, locateLoop_length, (hq _).length_eq]
  unfold maximaScan
  rw [scanOver_length]

/-- Entry `i` after the detection pass on an array whose `play` flags are all
clear: the tracking fields are reset and the flag is still clear. -/
theorem detect_fields (env : Env) (hq : ∀ l, (env.qsort l).Perm l) (fr : Frame)
    (maxes : List LocMax) (hlen : maxes.length = N_MAXES)
    (hplay : ∀ m ∈ maxes, m.play = 0) (i : Nat) (hi : i < N_MAXES) :
    (slot (detect env fr maxes) i).instrument = -1 ∧
    (slot (detect env fr maxes) i).noisy = 0 ∧
    (slot (detect env fr maxes) i).played_at = 0 ∧
    (slot (detect env fr maxes) i).reset_at = 0 ∧
    (slot (detect env fr maxes) i).play = 0 := by
  unfold detect
  simp only
  have hscanlen : (maximaScan (houghPass env fr).cell (MAX fr.width fr.height) maxes).maxes.length =
      N_MAXES := by
    unfold maximaScan; rw [scanOver_length]; exact hlen
  have hscanplay : ∀ m ∈ (maximaScan (houghPass env fr).cell (MAX fr.width fr.height) maxes).maxes,
      m.play = 0 := by
    apply play_zero_of_slots
    unfold maximaScan
    exact scanOver_play _ _ _ _ (slots_of_play_zero maxes hplay)
  have hsortlen : (env.qsort
      (maximaScan (houghPass env fr).cell (MAX fr.width fr.height) maxes).maxes).length = N_MAXES := by
    rw [(hq _).length_eq]; exact hscanlen
  have hsortplay : ∀ m ∈ env.qsort
      (maximaScan (houghPass env fr).cell (MAX fr.width fr.height) maxes).maxes, m.play = 0 := by
    intro m hm
    exact hscanplay m ((hq _).mem_iff.mp hm)
  have hloc := slot_locateLoop env fr N_MAXES 0 i _ (by rw [hsortlen]; omega)
  have hin : 0 ≤ i ∧ i < 0 + N_MAXES := by omega
  rw [if_pos hin] at hloc
  have hlf := locate_fields env fr (slot (env.qsort
      (maximaScan (houghPass env fr).cell (MAX fr.width fr.height) maxes).maxes) i)
  have hp0 := slots_of_play_zero _ hsortplay i
  rw [slot_remove_dups _ (by rw [locateLoop_length]; exact hsortlen) i]
  split
  · simp only
    rw [hloc]
    exact ⟨hlf.1, hlf.2.1, hlf.2.2.1, hlf.2.2.2.1, by rw [hlf.2.2.2.2.1]; exact hp0⟩
  · rw [hloc]
    exact ⟨hlf.1, hlf.2.1, hlf.2.2.1, hlf.2.2.2.1, by rw [hlf.2.2.2.2.1]; exact hp0⟩

/-! ## Runs from program start -/

theorem run_warmup_aux (env : Env) (s : State) (frames : List Frame)
    (h : s.frame + frames.length < 150) :
    run env s frames = { s with frame := s.frame + frames.length } := by
  induction frames generalizing s with
  | nil => simp [run_nil]
  | cons fr frames ih =>
    simp only [List.length_cons, Nat.cast_add, Nat.cast_one] at h
    rw [run_cons, mirror_redraw_early env fr s (by omega)]
    rw [ih _ (by simp only; omega)]
    simp only [List.length_cons, Nat.cast_add, Nat.cast_one]
    congr 1
    omega

/-- During warm-up (fewer than 150 calls) only the frame counter changes. -/
theorem run_warmup (env : Env) (frames : List Frame) (h : frames.length < 150) :
    run env initState frames = ⟨initState.maxes, 0, frames.length, false⟩ := by
  rw [run_warmup_aux env initState frames (by simp [initState]; omega)]
  simp [initState]

theorem initState_maxes_length : initState.maxes.length = N_MAXES := by
  simp [initState]

theorem initState_maxes_play : ∀ m ∈ initState.maxes, m.play = 0 := by
  intro m hm
  simp only [initState, List.mem_replicate] at hm
  rw [hm.2]; rfl

/-- Induction over the runs that have reached the tracking phase: a property
that holds after the detection call and is kept by every later call holds after
every run of at least 150 calls. -/
theorem run_tracking_induction (env : Env) (P : State → Prop)
    (hdet : ∀ fr, P (mirror_redraw env fr ⟨initState.maxes, 0, 149, false⟩).1)
    (hstep : ∀ fr s, s.initialized = true → 150 ≤ s.frame → P s →
      P (mirror_redraw env fr s).1)
    (frames : List Frame) (h : 150 ≤ frames.length) :
    P (run env initState frames) ∧ (run env initState frames).initialized = true := by
  induction frames using List.reverseRecOn with
  | nil => simp at h
  | append_singleton pre fr ih =>
    rw [run_snoc]
    simp only [List.length_append, List.length_singleton] at h
    by_cases hl : pre.length = 149
    · rw [run_warmup env pre (by omega), hl]
      refine ⟨hdet fr, ?_⟩
      rw [mirror_redraw_late _ _ _ (by simp)]
    · obtain ⟨hP, hinit⟩ := ih (by omega)
      refine ⟨hstep fr _ hinit ?_ hP, mirror_redraw_initialized env fr _ hinit⟩
      rw [run_frame, initState_frame]
      have : 150 ≤ pre.length := by omega
      omega

theorem run_initState_frame (env : Env) (frames : List Frame) :
    (run env initState frames).frame = frames.length := by
  rw [run_frame, initState_frame]; simp

/-- The array at line 490 of the detection call (call number 150). -/
theorem maxesBeforeTracking_warm (env : Env) (fr : Frame) (k : Int) :
    maxesBeforeTracking env fr ⟨initState.maxes, 0, k, false⟩ =
      detect env fr initState.maxes := by
  simp [maxesBeforeTracking]

/-- After a call that reaches the tracking loop, `reset_at` of entry `i` is the
frame of the call if the entry was sampled visible, and is otherwise unchanged. -/
theorem reset_at_mirror_redraw (env : Env) (fr : Frame) (s : State)
    (h : ¬ s.frame + 1 < 150) (i : Nat) (hi : i < N_MAXES) :
    (slot (mirror_redraw env fr s).1.maxes i).reset_at =
      if sampledVisible env fr s i then s.frame + 1
      else (slot (maxesBeforeTracking env fr s) i).reset_at := by
  have e : (slot (mirror_redraw env fr s).1.maxes i).reset_at =
      (trackedEntry env fr s i).reset_at := by
    rcases slot_mirror_redraw env fr s h i hi with h1 | h1 <;> rw [h1]
  rw [e, trackedEntry, trackLine_reset_at]
  have : sampledVisible env fr s i ↔
      clears (npixelsOf fr i) (slot (maxesBeforeTracking env fr s) i) := by
    unfold sampledVisible
    constructor
    · exact fun hh => hh.2.2
    · exact fun hh => ⟨hi, h, hh⟩
  by_cases hf : clears (npixelsOf fr i) (slot (maxesBeforeTracking env fr s) i)
  · rw [if_pos hf, if_pos (this.mpr hf)]
  · rw [if_neg hf, if_neg (fun hh => hf (this.mp hh))]

/-- In the tracking phase `reset_at` never exceeds the frame counter. -/
theorem reset_at_le_frame (env : Env) (hq : ∀ l, (env.qsort l).Perm l)
    (frames : List Frame) (h : 150 ≤ frames.length) :
    (∀ i, i < N_MAXES →
      (slot (run env initState frames).maxes i).reset_at ≤ (run env initState frames).frame) ∧
    (run env initState frames).initialized = true := by
  apply run_tracking_induction env
    (fun s => ∀ i, i < N_MAXES → (slot s.maxes i).reset_at ≤ s.frame) _ _ frames h
  · intro fr i hi
    rw [reset_at_mirror_redraw env fr _ (by simp) i hi, mirror_redraw_frame]
    split
    · simp
    · rw [maxesBeforeTracking_warm,
        (detect_fields env hq fr _ initState_maxes_length initState_maxes_play i hi).2.2.2.1]
      simp
  · intro fr s hinit hfr hP i hi
    rw [reset_at_mirror_redraw env fr _ (by omega) i hi, mirror_redraw_frame]
    split
    · simp
    · rw [maxesBeforeTracking_initialized env fr s hinit]
      have := hP i hi
      omega

/-- C3. Clear-window condition, on runs from program start: if entry `i` meets
the trigger condition in a call, then the call just before it (frame `f-1`)
reached the tracking loop and sampled the entry visible (`npixels >= 2`); hence
an entry that was sampled visible in no earlier call does not trigger. -/
theorem C3_clear_window (env : Env) (hq : ∀ l, (env.qsort l).Perm l)
    (pre : List Frame) (fr : Frame) (i : Nat) :
    (triggers env fr (run env initState pre) i →
      ∃ pre1 fr1, pre = pre1 ++ [fr1] ∧ sampledVisible env fr1 (run env initState pre1) i ∧
        (run env initState pre1).frame + 1 = (run env initState pre).frame + 1 - 1) ∧
    ((∀ pre1 fr1 rest, pre = pre1 ++ fr1 :: rest →
        ¬ sampledVisible env fr1 (run env initState pre1) i) →
      ¬ triggers env fr (run env initState pre) i) := by
  have main : triggers env fr (run env initState pre) i →
      ∃ pre1 fr1, pre = pre1 ++ [fr1] ∧ sampledVisible env fr1 (run env initState pre1) i ∧
        (run env initState pre1).frame + 1 = (run env initState pre).frame + 1 - 1 := by
    intro ht
    obtain ⟨hi, hfr, hfire⟩ := ht
    rw [run_initState_frame] at hfr
    have hlen : 149 ≤ pre.length := by omega
    by_cases h149 : pre.length = 149
    · exfalso
      rw [run_warmup env pre (by omega), maxesBeforeTracking_warm] at hfire
      have hr := (detect_fields env hq fr _ initState_maxes_length initState_maxes_play
        i hi).2.2.2.1
      have hc := hfire.2.2.2
      rw [hr] at hc
      simp only [h149] at hc
      omega
    · have hne : pre ≠ [] := by
        intro hnil; rw [hnil] at hlen; simp at hlen
      obtain ⟨pre1, fr1, rfl⟩ : ∃ pre1 fr1, pre = pre1 ++ [fr1] :=
        ⟨pre.dropLast, pre.getLast hne, (List.dropLast_append_getLast hne).symm⟩
      simp only [List.length_append, List.length_singleton] at hlen h149
      refine ⟨pre1, fr1, rfl, ?_, ?_⟩
      · have hlate : ¬ (run env initState pre1).frame + 1 < 150 := by
          rw [run_initState_frame]; omega
        by_contra hnv
        rw [run_snoc] at hfire
        have hinit : (mirror_redraw env fr1 (run env initState pre1)).1.initialized = true := by
          rw [mirror_redraw_late _ _ _ hlate]
        rw [maxesBeforeTracking_initialized env fr _ hinit] at hfire
        have hc := hfire.2.2.2
        rw [reset_at_mirror_redraw env fr1 _ hlate i hi, if_neg hnv, mirror_redraw_frame] at hc
        have hbound : (slot (maxesBeforeTracking env fr1 (run env initState pre1)) i).reset_at ≤
            (run env initState pre1).frame := by
          by_cases h150 : 150 ≤ pre1.length
          · obtain ⟨hR, hin⟩ := reset_at_le_frame env hq pre1 h150
            rw [maxesBeforeTracking_initialized env fr1 _ hin]
            exact hR i hi
          · have hl : pre1.length = 149 := by omega
            rw [run_warmup env pre1 (by omega), maxesBeforeTracking_warm]
            rw [(detect_fields env hq fr1 _ initState_maxes_length initState_maxes_play
              i hi).2.2.2.1]
            simp
        omega
      · rw [run_initState_frame, run_initState_frame]
        simp only [List.length_append, List.length_singleton]
        push_cast; omega
  refine ⟨main, ?_⟩
  intro hnever ht
  obtain ⟨pre1, fr1, hpre, hv, _⟩ := main ht
  exact hnever pre1 fr1 [] hpre hv

/-! ## Instrument ids -/

theorem trackLine_instrument (frame npixels : Int) (m : LocMax) (n : Int) :
    (trackLine frame npixels m n).1.instrument =
      if fires frame npixels m ∧ m.instrument < 0 then n + 1 else m.instrument := by
  rcases trackLine_cases frame npixels m n with ⟨hf, h⟩ | ⟨hf, _, h⟩ | ⟨hf, _, h⟩
  · rw [h]
    simp only [hf, true_and]
  · rw [h]; simp [hf]
  · rw [h]; simp [hf]

theorem trackLine_play (frame npixels : Int) (m : LocMax) (n : Int) :
    (trackLine frame npixels m n).1.play =
      if fires frame npixels m ∧ m.noisy = 0 then 1 else m.play := by
  rcases trackLine_cases frame npixels m n with ⟨hf, h⟩ | ⟨hf, _, h⟩ | ⟨hf, _, h⟩
  · rw [h]
    simp only [hf, true_and]
  · rw [h]; simp [hf]
  · rw [h]; simp [hf]

theorem trackLine_n (frame npixels : Int) (m : LocMax) (n : Int) :
    (trackLine frame npixels m n).2 = if fires frame npixels m then n + 1 else n := by
  rcases trackLine_cases frame npixels m n with ⟨hf, h⟩ | ⟨hf, _, h⟩ | ⟨hf, _, h⟩ <;>
    rw [h] <;> simp [hf]

theorem playHasId_trackLoop (frame : Int) (npix : Nat → Int) (maxes : List LocMax) (n : Int)
    (hn : 0 ≤ n) (h : playHasId maxes) :
    playHasId (trackLoop frame npix N_MAXES 0 (maxes, n)).1 := by
  intro i hi hp
  rw [slot_trackLoop frame npix maxes n i hi] at hp ⊢
  rw [trackLine_play] at hp
  rw [trackLine_instrument]
  have hnb : n ≤ nBefore frame npix maxes n i := by
    have := nBefore_mono frame npix maxes n 0 i (Nat.zero_le _)
    rwa [nBefore_zero] at this
  by_cases hf : fires frame (npix i) (slot maxes i)
  · by_cases hneg : (slot maxes i).instrument < 0
    · rw [if_pos ⟨hf, hneg⟩]; omega
    · rw [if_neg (fun hh => hneg hh.2)]; omega
  · rw [if_neg (fun hh => hf hh.1)] at hp
    rw [if_neg (fun hh => hf hh.1)]
    exact h i hi hp

theorem playHasId_emit (maxes : List LocMax) (h : playHasId maxes) :
    playHasId (emit maxes).1 ∧ ∀ id, (emit maxes).2 = some id → 0 ≤ id := by
  constructor
  · intro i hi hp
    rcases slot_emit maxes i with h1 | h1
    · rw [h1] at hp ⊢; exact h i hi hp
    · rw [h1] at hp; exact absurd rfl hp
  · intro id hid
    rcases emit_cases maxes with ⟨he, _⟩ | ⟨j, hj, hp, _, he⟩
    · rw [he] at hid; simp at hid
    · rw [he] at hid
      simp only [Option.some.injEq] at hid
      rw [← hid]
      exact h j hj hp

theorem mirror_redraw_out (env : Env) (fr : Frame) (s : State) (h : ¬ s.frame + 1 < 150) :
    (mirror_redraw env fr s).2 =
      (emit (trackLoop (s.frame + 1) (npixelsOf fr) N_MAXES 0
          (maxesBeforeTracking env fr s, s.n)).1).2 := by
  unfold mirror_redraw; simp only [h, if_false]

theorem mirror_redraw_n (env : Env) (fr : Frame) (s : State) :
    s.n ≤ (mirror_redraw env fr s).1.n := by
  by_cases h : s.frame + 1 < 150
  · rw [mirror_redraw_early env fr s h]
  · rw [mirror_redraw_late env fr s h]
    simp only
    have := nBefore_mono (s.frame + 1) (npixelsOf fr) (maxesBeforeTracking env fr s) s.n 0
      N_MAXES (Nat.zero_le _)
    rwa [nBefore_zero] at this

theorem run_n_le (env : Env) (s : State) (frames : List Frame) :
    s.n ≤ (run env s frames).n := by
  induction frames generalizing s with
  | nil => exact le_refl _
  | cons fr frames ih =>
    rw [run_cons]
    exact le_trans (mirror_redraw_n env fr s) (ih _)

theorem playHasId_detect (env : Env) (hq : ∀ l, (env.qsort l).Perm l) (fr : Frame) :
    playHasId (detect env fr initState.maxes) := by
  intro i hi hp
  exact absurd (detect_fields env hq fr _ initState_maxes_length initState_maxes_play i hi).2.2.2.2 hp

theorem playHasId_initState : playHasId initState.maxes := by
  intro i _ hp
  exact absurd (slots_of_play_zero _ initState_maxes_play i) hp

/-- In every state of a run from program start the counter `n` is non-negative
and the array at line 490 of the next call satisfies `playHasId`. -/
theorem playHasId_run (env : Env) (hq : ∀ l, (env.qsort l).Perm l) (frames : List Frame) :
    0 ≤ (run env initState frames).n ∧ playHasId (run env initState frames).maxes ∧
      ∀ fr, playHasId (maxesBeforeTracking env fr (run env initState frames)) := by
  have hn : 0 ≤ (run env initState frames).n := run_n_le env initState frames
  by_cases hl : frames.length < 150
  · rw [run_warmup env frames hl]
    refine ⟨le_refl _, playHasId_initState, fun fr => ?_⟩
    rw [maxesBeforeTracking_warm]
    exact playHasId_detect env hq fr
  · have key := run_tracking_induction env (fun s => 0 ≤ s.n ∧ playHasId s.maxes)
      (fun fr => by
        rw [mirror_redraw_late _ _ _ (by simp)]
        simp only
        rw [maxesBeforeTracking_warm]
        refine ⟨?_, ?_⟩
        · have := nBefore_mono 150 (npixelsOf fr) (detect env fr initState.maxes) 0 0 N_MAXES
            (Nat.zero_le _)
          rw [nBefore_zero] at this
          have e : (149 : Int) + 1 = 150 := by norm_num
          rw [e]; exact this
        · exact (playHasId_emit _ (playHasId_trackLoop _ _ _ _ (le_refl _)
            (playHasId_detect env hq fr))).1)
      (fun fr s hinit _ hP => by
        have hlate : ¬ s.frame + 1 < 150 := by omega
        rw [mirror_redraw_late _ _ _ hlate]
        simp only
        rw [maxesBeforeTracking_initialized env fr s hinit]
        refine ⟨?_, ?_⟩
        · have := nBefore_mono (s.frame + 1) (npixelsOf fr) s.maxes s.n 0 N_MAXES (Nat.zero_le _)
          rw [nBefore_zero] at this
          omega
        · exact (playHasId_emit _ (playHasId_trackLoop _ _ _ _ hP.1 hP.2)).1)
      frames (by omega)
    obtain ⟨⟨_, hP⟩, hinit⟩ := key
    refine ⟨hn, hP, fun fr => ?_⟩
    rw [maxesBeforeTracking_initialized env fr _ hinit]
    exact hP

/-- C6. Every emitted identifier is non-negative: in every state reached from
the zero-initialised program state by any number of calls of `mirror_redraw`
(warm-up, the detection call, tracking and emission), an entry whose `play` flag
is set has `instrument >= 0`, and so does the array the emitter of the next call
scans; whatever a call writes to the sink is `>= 0`, never the unassigned -1. -/
theorem C6_emitted_id_nonneg (env : Env) (hq : ∀ l, (env.qsort l).Perm l)
    (frames : List Frame) :
    (∀ i, i < N_MAXES → (slot (run env initState frames).maxes i).play ≠ 0 →
      0 ≤ (slot (run env initState frames).maxes i).instrument) ∧
    (∀ fr i, i < N_MAXES →
      (slot (trackLoop ((run env initState frames).frame + 1) (npixelsOf fr) N_MAXES 0
        (maxesBeforeTracking env fr (run env initState frames),
          (run env initState frames).n)).1 i).play ≠ 0 →
      0 ≤ (slot (trackLoop ((run env initState frames).frame + 1) (npixelsOf fr) N_MAXES 0
        (maxesBeforeTracking env fr (run env initState frames),
          (run env initState frames).n)).1 i).instrument) ∧
    (∀ fr id, (mirror_redraw env fr (run env initState frames)).2 = some id → 0 ≤ id) := by
  obtain ⟨hn, hP, hM⟩ := playHasId_run env hq frames
  refine ⟨hP, ?_, ?_⟩
  · intro fr
    exact playHasId_trackLoop _ _ _ _ hn (hM fr)
  · intro fr id hid
    by_cases h : (run env initState frames).frame + 1 < 150
    · rw [mirror_redraw_early _ _ _ h] at hid
      simp at hid
    · rw [mirror_redraw_out _ _ _ h] at hid
      exact (playHasId_emit _ (playHasId_trackLoop _ _ _ _ hn (hM fr))).2 id hid

/-- After a call that reaches the tracking loop, `instrument` of entry `i` is
the incremented counter if the entry triggered while unassigned, and is
otherwise unchanged. -/
theorem instrument_mirror_redraw (env : Env) (fr : Frame) (s : State)
    (h : ¬ s.frame + 1 < 150) (i : Nat) (hi : i < N_MAXES) :
    (slot (mirror_redraw env fr s).1.maxes i).instrument =
      if triggers env fr s i ∧ (slot (maxesBeforeTracking env fr s) i).instrument < 0 then
        nBefore (s.frame + 1) (npixelsOf fr) (maxesBeforeTracking env fr s) s.n i + 1
      else (slot (maxesBeforeTracking env fr s) i).instrument := by
  have e : (slot (mirror_redraw env fr s).1.maxes i).instrument =
      (trackedEntry env fr s i).instrument := by
    rcases slot_mirror_redraw env fr s h i hi with h1 | h1 <;> rw [h1]
  rw [e, trackedEntry, trackLine_instrument]
  have : triggers env fr s i ↔
      fires (s.frame + 1) (npixelsOf fr i) (slot (maxesBeforeTracking env fr s) i) := by
    unfold triggers
    constructor
    · exact fun hh => hh.2.2
    · exact fun hh => ⟨hi, h, hh⟩
  by_cases hf : fires (s.frame + 1) (npixelsOf fr i) (slot (maxesBeforeTracking env fr s) i) ∧
      (slot (maxesBeforeTracking env fr s) i).instrument < 0
  · rw [if_pos hf, if_pos ⟨this.mpr hf.1, hf.2⟩]
  · rw [if_neg hf, if_neg (fun hh => hf ⟨this.mp hh.1, hh.2⟩)]

/-- From an initialised state an assigned id is never changed. -/
theorem instrument_frozen_run (env : Env) (s : State) (frames : List Frame) (i : Nat)
    (hi : i < N_MAXES) (hinit : s.initialized = true)
    (hid : 0 ≤ (slot s.maxes i).instrument) :
    (slot (run env s frames).maxes i).instrument = (slot s.maxes i).instrument := by
  induction frames generalizing s with
  | nil => rfl
  | cons fr frames ih =>
    rw [run_cons]
    have hstep : (slot (mirror_redraw env fr s).1.maxes i).instrument =
        (slot s.maxes i).instrument := by
      by_cases h : s.frame + 1 < 150
      · rw [mirror_redraw_early env fr s h]
      · rw [instrument_mirror_redraw env fr s h i hi,
          maxesBeforeTracking_initialized env fr s hinit]
        rw [if_neg (fun hh => by omega)]
    rw [ih _ (mirror_redraw_initialized env fr s hinit) (by rw [hstep]; exact hid), hstep]

/-- Status of a run of at least 149 calls from program start: the next call
reaches the tracking loop, on the freshly detected array (149 calls) or on the
stored one (150 calls or more, initialised). -/
theorem run_status (env : Env) (pre : List Frame) (h : 149 ≤ pre.length) :
    ¬ (run env initState pre).frame + 1 < 150 ∧
    ((pre.length = 149 ∧ ∀ fr, maxesBeforeTracking env fr (run env initState pre) =
        detect env fr initState.maxes) ∨
     (150 ≤ pre.length ∧ (run env initState pre).initialized = true ∧
        ∀ fr, maxesBeforeTracking env fr (run env initState pre) =
          (run env initState pre).maxes)) := by
  constructor
  · rw [run_initState_frame]; omega
  · by_cases hl : pre.length = 149
    · left
      refine ⟨hl, fun fr => ?_⟩
      rw [run_warmup env pre (by omega), maxesBeforeTracking_warm]
    · right
      have h150 : 150 ≤ pre.length := by omega
      have hinit := (run_tracking_induction env (fun _ => True) (fun _ => trivial)
        (fun _ _ _ _ _ => trivial) pre h150).2
      exact ⟨h150, hinit, fun fr => maxesBeforeTracking_initialized env fr _ hinit⟩

theorem triggers_late (env : Env) (fr : Frame) (s : State) (i : Nat)
    (h : triggers env fr s i) : ¬ s.frame + 1 < 150 := h.2.1

theorem triggers_length (env : Env) (fr : Frame) (pre : List Frame) (i : Nat)
    (h : triggers env fr (run env initState pre) i) : 149 ≤ pre.length := by
  have := h.2.1
  rw [run_initState_frame] at this
  omega

/-- An entry that has not triggered so far is still unassigned at line 490 of
the next call. -/
theorem unassigned_of_no_trigger (env : Env) (hq : ∀ l, (env.qsort l).Perm l) (i : Nat)
    (hi : i < N_MAXES) (pre : List Frame) (h : 149 ≤ pre.length)
    (hno : ∀ pre1 fr1 rest, pre = pre1 ++ fr1 :: rest →
      ¬ triggers env fr1 (run env initState pre1) i) (fr : Frame) :
    (slot (maxesBeforeTracking env fr (run env initState pre)) i).instrument = -1 := by
  induction pre using List.reverseRecOn generalizing fr with
  | nil => simp at h
  | append_singleton pre1 fr1 ih =>
    simp only [List.length_append, List.length_singleton] at h
    obtain ⟨_, hst⟩ := run_status env (pre1 ++ [fr1]) (by simp; omega)
    rcases hst with ⟨hl, hM⟩ | ⟨hl, hinit, hM⟩
    · rw [hM fr]
      exact (detect_fields env hq fr _ initState_maxes_length initState_maxes_play i hi).1
    · simp only [List.length_append, List.length_singleton] at hl
      rw [hM fr, run_snoc]
      have hlate : ¬ (run env initState pre1).frame + 1 < 150 := by
        rw [run_initState_frame]; omega
      rw [instrument_mirror_redraw env fr1 _ hlate i hi]
      have hnt : ¬ triggers env fr1 (run env initState pre1) i := hno pre1 fr1 [] rfl
      rw [if_neg (fun hh => hnt hh.1)]
      apply ih (by omega)
      intro p f r hp
      apply hno p f (r ++ [fr1])
      rw [hp]; simp

/-- C4. Instrument id is frozen, on runs from program start: the detection pass
leaves `instrument = -1`; an entry that has not triggered yet still has -1; a
trigger leaves an assigned id (`>= 0`); once an id is assigned, every later call
leaves it unchanged; and the tracking body itself never changes an assigned id,
whether or not it triggers. -/
theorem C4_instrument_frozen (env : Env) (hq : ∀ l, (env.qsort l).Perm l) (i : Nat)
    (hi : i < N_MAXES) :
    (∀ fr, (slot (detect env fr initState.maxes) i).instrument = -1) ∧
    (∀ frames, 150 ≤ frames.length →
      (∀ pre fr rest, frames = pre ++ fr :: rest →
        ¬ triggers env fr (run env initState pre) i) →
      (slot (run env initState frames).maxes i).instrument = -1) ∧
    (∀ pre fr, triggers env fr (run env initState pre) i →
      0 ≤ (slot (run env initState (pre ++ [fr])).maxes i).instrument) ∧
    (∀ frames more, 150 ≤ frames.length →
      0 ≤ (slot (run env initState frames).maxes i).instrument →
      (slot (run env initState (frames ++ more)).maxes i).instrument =
        (slot (run env initState frames).maxes i).instrument) ∧
    (∀ frame npixels m n, 0 ≤ m.instrument →
      (trackLine frame npixels m n).1.instrument = m.instrument) := by
  refine ⟨?_, ?_, ?_, ?_, ?_⟩
  · intro fr
    exact (detect_fields env hq fr _ initState_maxes_length initState_maxes_play i hi).1
  · intro frames hlen hno
    obtain ⟨_, hst⟩ := run_status env frames (by omega)
    rcases hst with ⟨hl, _⟩ | ⟨_, hinit, hM⟩
    · omega
    · have := unassigned_of_no_trigger env hq i hi frames (by omega) hno
        ⟨0, 0, fun _ => 0, fun _ _ => 0⟩
      rwa [hM] at this
  · intro pre fr ht
    rw [run_snoc, instrument_mirror_redraw env fr _ ht.2.1 i hi]
    have hn := (playHasId_run env hq pre).1
    have hnb := nBefore_mono ((run env initState pre).frame + 1) (npixelsOf fr)
      (maxesBeforeTracking env fr (run env initState pre)) (run env initState pre).n 0 i
      (Nat.zero_le _)
    rw [nBefore_zero] at hnb
    split
    · omega
    · next hneg =>
      have : ¬ (slot (maxesBeforeTracking env fr (run env initState pre)) i).instrument < 0 :=
        fun hh => hneg ⟨ht, hh⟩
      omega
  · intro frames more hlen hid
    obtain ⟨_, hst⟩ := run_status env frames (by omega)
    rcases hst with ⟨hl, _⟩ | ⟨_, hinit, _⟩
    · omega
    · rw [run_append]
      exact instrument_frozen_run env _ more i hi hinit hid
  · intro frame npixels m n hm
    rw [trackLine_instrument, if_neg (fun hh => by omega)]

theorem nBefore_succ_fires (frame : Int) (npix : Nat → Int) (maxes : List LocMax) (n : Int)
    (i : Nat) (h : fires frame (npix i) (slot maxes i)) :
    nBefore frame npix maxes n (i + 1) = nBefore frame npix maxes n i + 1 := by
  rw [nBefore_succ, trackLine_n, if_pos h]

theorem nBefore_ge (frame : Int) (npix : Nat → Int) (maxes : List LocMax) (n : Int) (i : Nat) :
    n ≤ nBefore frame npix maxes n i := by
  have := nBefore_mono frame npix maxes n 0 i (Nat.zero_le _)
  rwa [nBefore_zero] at this

theorem new_id_lt (frame : Int) (npix : Nat → Int) (maxes : List LocMax) (n : Int)
    (i j : Nat) (hij : i < j) (h : fires frame (npix i) (slot maxes i)) :
    nBefore frame npix maxes n i + 1 < nBefore frame npix maxes n j + 1 := by
  have h1 := nBefore_succ_fires frame npix maxes n i h
  have h2 := nBefore_mono frame npix maxes n (i + 1) j (by omega)
  omega

theorem idsDistinct_trackLoop (frame : Int) (npix : Nat → Int) (maxes : List LocMax) (n : Int)
    (h : idsDistinct maxes n) :
    idsDistinct (trackLoop frame npix N_MAXES 0 (maxes, n)).1
      (nBefore frame npix maxes n N_MAXES) := by
  obtain ⟨hle, hne⟩ := h
  have hval : ∀ i, i < N_MAXES →
      (slot (trackLoop frame npix N_MAXES 0 (maxes, n)).1 i).instrument =
        if fires frame (npix i) (slot maxes i) ∧ (slot maxes i).instrument < 0 then
          nBefore frame npix maxes n i + 1
        else (slot maxes i).instrument := by
    intro i hi
    rw [slot_trackLoop frame npix maxes n i hi, trackLine_instrument]
  constructor
  · intro i hi
    rw [hval i hi]
    split
    · next hf =>
      have h1 := nBefore_succ_fires frame npix maxes n i hf.1
      have h2 := nBefore_mono frame npix maxes n (i + 1) N_MAXES (by omega)
      omega
    · have := hle i hi
      have := nBefore_ge frame npix maxes n N_MAXES
      omega
  · intro i j hi hj hij h0i h0j
    rw [hval i hi] at h0i ⊢
    rw [hval j hj] at h0j ⊢
    by_cases hfi : fires frame (npix i) (slot maxes i) ∧ (slot maxes i).instrument < 0
    · by_cases hfj : fires frame (npix j) (slot maxes j) ∧ (slot maxes j).instrument < 0
      · rw [if_pos hfi, if_pos hfj]
        rcases Nat.lt_or_gt_of_ne hij with hlt | hgt
        · have := new_id_lt frame npix maxes n i j hlt hfi.1
          omega
        · have := new_id_lt frame npix maxes n j i hgt hfj.1
          omega
      · rw [if_pos hfi, if_neg hfj]
        have := hle j hj
        have := nBefore_ge frame npix maxes n i
        omega
    · by_cases hfj : fires frame (npix j) (slot maxes j) ∧ (slot maxes j).instrument < 0
      · rw [if_neg hfi, if_pos hfj]
        have := hle i hi
        have := nBefore_ge frame npix maxes n j
        omega
      · rw [if_neg hfi] at h0i ⊢
        rw [if_neg hfj] at h0j ⊢
        exact hne i j hi hj hij h0i h0j

theorem idsDistinct_emit (maxes : List LocMax) (n : Int) (h : idsDistinct maxes n) :
    idsDistinct (emit maxes).1 n := by
  have e : ∀ i, (slot (emit maxes).1 i).instrument = (slot maxes i).instrument := by
    intro i
    rcases slot_emit maxes i with h1 | h1 <;> rw [h1]
  constructor
  · intro i hi; rw [e i]; exact h.1 i hi
  · intro i j hi hj hij; rw [e i, e j]; exact h.2 i j hi hj hij

theorem idsDistinct_detect (env : Env) (hq : ∀ l, (env.qsort l).Perm l) (fr : Frame) :
    idsDistinct (detect env fr initState.maxes) 0 := by
  have e : ∀ i, i < N_MAXES → (slot (detect env fr initState.maxes) i).instrument = -1 :=
    fun i hi => (detect_fields env hq fr _ initState_maxes_length initState_maxes_play i hi).1
  constructor
  · intro i hi; rw [e i hi]; omega
  · intro i j hi _ _ h0; rw [e i hi] at h0; omega

theorem idsDistinct_run (env : Env) (hq : ∀ l, (env.qsort l).Perm l) (frames : List Frame)
    (h : 150 ≤ frames.length) :
    idsDistinct (run env initState frames).maxes (run env initState frames).n := by
  refine (run_tracking_induction env (fun s => idsDistinct s.maxes s.n) ?_ ?_ frames h).1
  · intro fr
    rw [mirror_redraw_late _ _ _ (by simp)]
    simp only
    rw [maxesBeforeTracking_warm]
    exact idsDistinct_emit _ _ (idsDistinct_trackLoop _ _ _ _ (idsDistinct_detect env hq fr))
  · intro fr s hinit hfr hP
    rw [mirror_redraw_late _ _ _ (by omega)]
    simp only
    rw [maxesBeforeTracking_initialized env fr s hinit]
    exact idsDistinct_emit _ _ (idsDistinct_trackLoop _ _ _ _ hP)

/-- The id a first trigger assigns, and its relation to the counter. -/
theorem firstTrigger_id (env : Env) (hq : ∀ l, (env.qsort l).Perm l) (pre : List Frame)
    (fr : Frame) (i : Nat) (h : firstTrigger env pre fr i) :
    (slot (run env initState (pre ++ [fr])).maxes i).instrument =
      nBefore ((run env initState pre).frame + 1) (npixelsOf fr)
        (maxesBeforeTracking env fr (run env initState pre)) (run env initState pre).n i + 1 ∧
    (run env initState pre).n <
      (slot (run env initState (pre ++ [fr])).maxes i).instrument ∧
    (slot (run env initState (pre ++ [fr])).maxes i).instrument ≤
      (run env initState (pre ++ [fr])).n ∧
    0 ≤ (slot (run env initState (pre ++ [fr])).maxes i).instrument := by
  obtain ⟨ht, hno⟩ := h
  have hi := ht.1
  have hneg := unassigned_of_no_trigger env hq i hi pre (triggers_length env fr pre i ht) hno fr
  have hval : (slot (run env initState (pre ++ [fr])).maxes i).instrument =
      nBefore ((run env initState pre).frame + 1) (npixelsOf fr)
        (maxesBeforeTracking env fr (run env initState pre)) (run env initState pre).n i + 1 := by
    rw [run_snoc, instrument_mirror_redraw env fr _ ht.2.1 i hi, if_pos ⟨ht, by rw [hneg]; omega⟩]
  have hge := nBefore_ge ((run env initState pre).frame + 1) (npixelsOf fr)
    (maxesBeforeTracking env fr (run env initState pre)) (run env initState pre).n i
  have hn0 := (playHasId_run env hq pre).1
  have hlen : 150 ≤ (pre ++ [fr]).length := by
    have := triggers_length env fr pre i ht
    simp; omega
  refine ⟨hval, by omega, (idsDistinct_run env hq _ hlen).1 i hi, by omega⟩

/-- C5. Instrument ids are unique and increasing, on runs from program start
that have passed the detection call: two distinct entries that both hold an
assigned id (`>= 0`) hold different ids; and an entry whose first trigger comes
in a later call, or in the same call at a higher index, holds a strictly larger
id in every later state. -/
theorem C5_ids_unique_increasing (env : Env) (hq : ∀ l, (env.qsort l).Perm l) :
    (∀ frames i j, 150 ≤ frames.length → i < N_MAXES → j < N_MAXES → i ≠ j →
      0 ≤ (slot (run env initState frames).maxes i).instrument →
      0 ≤ (slot (run env initState frames).maxes j).instrument →
      (slot (run env initState frames).maxes i).instrument ≠
        (slot (run env initState frames).maxes j).instrument) ∧
    (∀ pre fr mid fr2 rest i j,
      firstTrigger env pre fr i → firstTrigger env (pre ++ fr :: mid) fr2 j →
      (slot (run env initState (pre ++ fr :: mid ++ fr2 :: rest)).maxes i).instrument <
        (slot (run env initState (pre ++ fr :: mid ++ fr2 :: rest)).maxes j).instrument) ∧
    (∀ pre fr rest i j, i < j →
      firstTrigger env pre fr i → firstTrigger env pre fr j →
      (slot (run env initState (pre ++ fr :: rest)).maxes i).instrument <
        (slot (run env initState (pre ++ fr :: rest)).maxes j).instrument) := by
  refine ⟨?_, ?_, ?_⟩
  · intro frames i j hlen hi hj hij h0i h0j
    exact (idsDistinct_run env hq frames hlen).2 i j hi hj hij h0i h0j
  · intro pre fr mid fr2 rest i j hfi hfj
    have hi := hfi.1.1
    have hj := hfj.1.1
    obtain ⟨_, _, hile, hi0⟩ := firstTrigger_id env hq pre fr i hfi
    obtain ⟨_, hjgt, _, hj0⟩ := firstTrigger_id env hq (pre ++ fr :: mid) fr2 j hfj
    have hlen1 : 150 ≤ (pre ++ [fr]).length := by
      have := triggers_length env fr pre i hfi.1
      simp; omega
    have hinit1 := (run_status env (pre ++ [fr]) (by omega)).2
    have hinit1 : (run env initState (pre ++ [fr])).initialized = true := by
      rcases hinit1 with ⟨hl, _⟩ | ⟨_, h, _⟩
      · omega
      · exact h
    have e1 : pre ++ fr :: mid = (pre ++ [fr]) ++ mid := by simp
    have e2 : pre ++ fr :: mid ++ fr2 :: rest = (pre ++ [fr]) ++ (mid ++ fr2 :: rest) := by simp
    have e3 : pre ++ fr :: mid ++ fr2 :: rest = ((pre ++ fr :: mid) ++ [fr2]) ++ rest := by simp
    have hmono : (run env initState (pre ++ [fr])).n ≤ (run env initState (pre ++ fr :: mid)).n := by
      have := run_n_le env (run env initState (pre ++ [fr])) mid
      rwa [← run_append, ← e1] at this
    have hfin_i : (slot (run env initState (pre ++ fr :: mid ++ fr2 :: rest)).maxes i).instrument =
        (slot (run env initState (pre ++ [fr])).maxes i).instrument := by
      rw [e2, run_append]
      exact instrument_frozen_run env _ _ i hi hinit1 hi0
    have hlen2 : 150 ≤ ((pre ++ fr :: mid) ++ [fr2]).length := by
      simp at hlen1 ⊢; omega
    have hinit2 : (run env initState ((pre ++ fr :: mid) ++ [fr2])).initialized = true := by
      rcases (run_status env ((pre ++ fr :: mid) ++ [fr2]) (by omega)).2 with ⟨hl, _⟩ | ⟨_, h, _⟩
      · omega
      · exact h
    have hfin_j : (slot (run env initState (pre ++ fr :: mid ++ fr2 :: rest)).maxes j).instrument =
        (slot (run env initState ((pre ++ fr :: mid) ++ [fr2])).maxes j).instrument := by
      rw [e3, run_append]
      exact instrument_frozen_run env _ _ j hj hinit2 hj0
    rw [hfin_i, hfin_j]
    omega
  · intro pre fr rest i j hij hfi hfj
    have hi := hfi.1.1
    have hj := hfj.1.1
    obtain ⟨hvi, _, _, hi0⟩ := firstTrigger_id env hq pre fr i hfi
    obtain ⟨hvj, _, _, hj0⟩ := firstTrigger_id env hq pre fr j hfj
    have hlen1 : 150 ≤ (pre ++ [fr]).length := by
      have := triggers_length env fr pre i hfi.1
      simp; omega
    have hinit1 : (run env initState (pre ++ [fr])).initialized = true := by
      rcases (run_status env (pre ++ [fr]) (by omega)).2 with ⟨hl, _⟩ | ⟨_, h, _⟩
      · omega
      · exact h
    have e2 : pre ++ fr :: rest = (pre ++ [fr]) ++ rest := by simp
    rw [e2, run_append, instrument_frozen_run env _ _ i hi hinit1 hi0,
      instrument_frozen_run env _ _ j hj hinit1 hj0, hvi, hvj]
    exact new_id_lt _ _ _ _ i j hij hfi.1.2.2

/-! ## Hough pass: the accumulator cell by cell -/

theorem houghVotes_fold (env : Env) (N_R x y k : Int) (L : List Int) (hg : Accumulator) :
    (L.foldl (fun hg t =>
        let r := env.houghR x y t
        if r > 0 then bump hg (t * N_R + r) else hg) hg).cell k =
      hg.cell k + ((L.filter
        (fun t => decide (env.houghR x y t > 0 ∧ t * N_R + env.houghR x y t = k))).length : Int) := by
  induction L generalizing hg with
  | nil => simp
  | cons t L ih =>
    simp only [List.foldl_cons]
    rw [ih]
    by_cases hr : env.houghR x y t > 0
    · by_cases hk : t * N_R + env.houghR x y t = k
      · simp only [hr, hk, if_true, bump, List.filter_cons, and_self, decide_True,
          List.length_cons]
        push_cast
        omega
      · have hk2 : ¬ k = t * N_R + env.houghR x y t := fun h => hk h.symm
        simp only [hr, hk, hk2, if_true, if_false, bump, List.filter_cons, and_false, true_and,
          decide_False]
        rfl
    · simp only [hr, if_false, List.filter_cons, false_and, decide_False]
      rfl

theorem houghVotes_apply (env : Env) (N_R x y k : Int) (hg : Accumulator) :
    (houghVotes env N_R x y hg).cell k = hg.cell k + (votesAt env N_R x y k : Int) :=
  houghVotes_fold env N_R x y k _ hg

theorem houghRow_fold (env : Env) (fr : Frame) (y k : Int) (L : List Int) (hg : Accumulator) :
    (L.foldl (fun hg x =>
        if fr.data (4 * (y * fr.width + x) + 3) > 0 then
          houghVotes env (MAX fr.width fr.height) x y hg
        else hg) hg).cell k =
      hg.cell k + (L.map (fun x =>
        if fr.data (4 * (y * fr.width + x) + 3) > 0 then
          (votesAt env (MAX fr.width fr.height) x y k : Int)
        else 0)).sum := by
  induction L generalizing hg with
  | nil => simp
  | cons x L ih =>
    simp only [List.foldl_cons, List.map_cons, List.sum_cons]
    rw [ih]
    split
    · rw [houghVotes_apply]; omega
    · omega

theorem houghRows_fold (env : Env) (fr : Frame) (k : Int) (L : List Int) (hg : Accumulator) :
    (L.foldl (fun hg y =>
        (intRange 0 fr.width).foldl (fun hg x =>
          if fr.data (4 * (y * fr.width + x) + 3) > 0 then
            houghVotes env (MAX fr.width fr.height) x y hg
          else hg) hg) hg).cell k =
      hg.cell k + (L.map (fun y =>
        ((intRange 0 fr.width).map (fun x =>
          if fr.data (4 * (y * fr.width + x) + 3) > 0 then
            (votesAt env (MAX fr.width fr.height) x y k : Int)
          else 0)).sum)).sum := by
  induction L generalizing hg with
  | nil => simp
  | cons y L ih =>
    simp only [List.foldl_cons, List.map_cons, List.sum_cons]
    rw [ih, houghRow_fold]
    omega

/-- The accumulator cell `k` after the Hough pass holds the number of votes
cast for it. -/
theorem houghPass_apply (env : Env) (fr : Frame) (k : Int) :
    (houghPass env fr).cell k = votesOfFrame env fr k := by
  unfold houghPass votesOfFrame
  rw [houghRows_fold]
  simp only [zero_add]

/-! ## Maxima scan: cells without votes are passed over -/

theorem minLoop_nonneg (k i : Nat) (s : ScanState) (h : scanNonneg s) :
    scanNonneg (minLoop k i s) := by
  induction k generalizing i s with
  | zero => exact h
  | succ k ih =>
    simp only [minLoop]
    apply ih
    split
    · exact ⟨h.2 _, h.2⟩
    · exact h

theorem scanCell_nonneg (hough : Int → Int) (N_R t r : Int) (s : ScanState)
    (h : scanNonneg s) : scanNonneg (scanCell hough N_R t r s) := by
  unfold scanCell
  split
  · next hacc =>
    apply minLoop_nonneg
    have hgt : hough (t * N_R + r) > s.min_max := by
      unfold accepts at hacc
      simp only [Bool.and_eq_true, decide_eq_true_eq] at hacc
      exact hacc.1
    refine ⟨by have := h.1; simp only; omega, fun i => ?_⟩
    simp only
    by_cases hlt : s.min_max_i < s.maxes.length
    · rw [slot_set _ _ _ _ hlt]
      split
      · have := h.1; simp only; omega
      · exact h.2 i
    · rw [List.set_eq_of_length_le (by omega)]; exact h.2 i
  · exact h

theorem scanOver_filter (hough : Int → Int) (N_R : Int) (cells : List (Int × Int))
    (s : ScanState) (h : scanNonneg s) :
    scanOver hough N_R cells s =
      scanOver hough N_R (cells.filter (fun c => decide (hough (c.1 * N_R + c.2) > 0))) s := by
  induction cells generalizing s with
  | nil => rfl
  | cons c cs ih =>
    by_cases hc : hough (c.1 * N_R + c.2) > 0
    · simp only [List.filter_cons, hc, decide_True, if_true]
      simp only [scanOver, List.foldl_cons]
      have := ih (scanCell hough N_R c.1 c.2 s) (scanCell_nonneg hough N_R c.1 c.2 s h)
      simpa only [scanOver] using this
    · simp only [List.filter_cons, hc, decide_False]
      have hskip : scanCell hough N_R c.1 c.2 s = s := by
        unfold scanCell accepts
        have : ¬ hough (c.1 * N_R + c.2) > s.min_max := by have := h.1; omega
        simp [this]
      simp only [scanOver, List.foldl_cons, hskip]
      have := ih s h
      simpa only [scanOver] using this

theorem scanNonneg_init : scanNonneg ⟨initState.maxes, 0, 0⟩ := by
  refine ⟨le_refl _, fun i => ?_⟩
  show 0 ≤ (slot initState.maxes i).count
  by_cases hi : i < initState.maxes.length
  · have hm := slot_mem initState.maxes i hi
    have := initState_maxes_play
    simp only [initState, List.mem_replicate] at hm
    have e : slot initState.maxes i = zeroMax := hm.2
    rw [e]; decide
  · rw [slot_of_length_le _ _ (by omega)]; decide

/-! ## A worked run -/

theorem demoEnv_qsort_perm : ∀ l, (demoEnv.qsort l).Perm l :=
  fun l => List.perm_insertionSort _ l

theorem votesOfFrame_eq_zero (env : Env) (fr : Frame) (k : Int)
    (h : ∀ x y t, env.houghR x y t > 0 → t * MAX fr.width fr.height + env.houghR x y t ≠ k) :
    votesOfFrame env fr k = 0 := by
  have hv : ∀ x y, votesAt env (MAX fr.width fr.height) x y k = 0 := by
    intro x y
    unfold votesAt
    rw [List.length_eq_zero, List.filter_eq_nil_iff]
    intro t _
    simp only [decide_eq_true_eq, not_and]
    exact h x y t
  unfold votesOfFrame
  simp [hv]

theorem demo_votes_157 : votesOfFrame demoEnv frClear 157 = 12 := by decide

theorem demo_votes_1503 : votesOfFrame demoEnv frClear 1503 = 12 := by decide

theorem demo_hough : (houghPass demoEnv frClear).cell = demoHough := by
  funext k
  rw [houghPass_apply]
  unfold demoHough
  by_cases h1 : k = 157
  · rw [h1, demo_votes_157]; rfl
  · by_cases h2 : k = 1503
    · rw [h2, demo_votes_1503]; rfl
    · rw [if_neg h1, if_neg h2]
      apply votesOfFrame_eq_zero
      intro x y t ht
      have hM : MAX frClear.width frClear.height = 15 := by decide
      rw [hM]
      simp only [demoEnv] at ht ⊢
      split_ifs at ht ⊢ <;> omega

theorem demo_cells :
    (scanCells 15).filter (fun c => decide (demoHough (c.1 * 15 + c.2) > 0)) =
      [(10, 7), (100, 3)] := by decide

theorem demo_scan :
    (maximaScan demoHough 15 initState.maxes).maxes =
      ((List.replicate N_MAXES zeroMax).set 0 { zeroMax with count := 12, t := 10, r := 7 }).set 2
        { zeroMax with count := 12, t := 100, r := 3 } := by
  unfold maximaScan
  rw [scanOver_filter _ _ _ _ scanNonneg_init, demo_cells]
  decide

theorem demo_detect :
    detect demoEnv frClear initState.maxes =
      List.replicate 48 demoIdle ++
        [⟨12, 10, 7, 4, 2, 4, 0, 0, -1, 0, 0⟩, ⟨12, 100, 3, 4, 2, 9, 0, 0, -1, 0, 0⟩] := by
  unfold detect
  have hM : MAX frClear.width frClear.height = 15 := by decide
  simp only [hM, demo_hough, demo_scan]
  decide

theorem demo_run150 :
    run demoEnv initState (demoWarm ++ [frClear]) =
      demoState (demoA 0 150 (-1) 0 0) (demoB 0 150 (-1) 0 0) 0 150 := by
  rw [run_snoc, run_warmup demoEnv demoWarm (by decide)]
  unfold mirror_redraw maxesBeforeTracking
  simp only [demo_detect]
  decide

theorem demo_run151 :
    run demoEnv initState (demoWarm ++ [frClear, frOcc48]) =
      demoState (demoA 151 150 1 0 10) (demoB 0 151 (-1) 0 0) 1 151 := by
  have e : demoWarm ++ [frClear, frOcc48] = (demoWarm ++ [frClear]) ++ [frOcc48] := by simp
  rw [e, run_snoc, demo_run150]
  decide

theorem demo_run151_both :
    run demoEnv initState (demoWarm ++ [frClear, frOccBoth]) =
      demoState (demoA 151 150 1 0 10) (demoB 151 150 2 1 10) 2 151 := by
  have e : demoWarm ++ [frClear, frOccBoth] = (demoWarm ++ [frClear]) ++ [frOccBoth] := by simp
  rw [e, run_snoc, demo_run150]
  decide

theorem demo_run152 :
    run demoEnv initState (demoWarm ++ [frClear, frOcc48, frOcc49]) =
      demoState (demoA 151 152 1 0 9) (demoB 152 151 2 0 10) 2 152 := by
  have e : demoWarm ++ [frClear, frOcc48, frOcc49] =
      (demoWarm ++ [frClear, frOcc48]) ++ [frOcc49] := by simp
  rw [e, run_snoc, demo_run151]
  decide

theorem demo_run156 :
    run demoEnv initState ((demoWarm ++ [frClear]) ++ frOcc48 :: demoMid) =
      demoState (demoA 151 156 1 0 5) (demoB 152 156 2 0 6) 2 156 := by
  have e : (demoWarm ++ [frClear]) ++ frOcc48 :: demoMid =
      (demoWarm ++ [frClear, frOcc48]) ++ demoMid := by simp
  rw [e, run_append, demo_run151]
  decide

theorem triggers_occluded (env : Env) (fr : Frame) (s : State) (i : Nat)
    (h : triggers env fr s i) : npixelsOf fr i < 2 := h.2.2.2.1

/-- A trigger is a first trigger when every earlier call sampled the entry
visible. -/
theorem firstTrigger_of_visible (env : Env) (pre : List Frame) (fr : Frame) (i : Nat)
    (h : triggers env fr (run env initState pre) i)
    (hv : ∀ f ∈ pre, ¬ npixelsOf f i < 2) : firstTrigger env pre fr i := by
  refine ⟨h, fun pre1 fr1 rest hp ht => ?_⟩
  apply hv fr1 (by rw [hp]; simp)
  exact triggers_occluded env fr1 _ i ht

theorem C1_emitter_step_witness :
    demoPending.length = N_MAXES ∧
      emit demoPending =
        (demoPending.set 48 { slot demoPending 48 with play := 0 },
          some (slot demoPending 48).instrument) ∧
      pending (emit demoPending).1 + 1 = pending demoPending :=
  ⟨by decide,
    (C1_emitter_step demoPending (by decide)).1 48 (by decide) (by decide) (by decide),
    ((C1_emitter_step demoPending (by decide)).2.2.2 ⟨48, by decide, by decide⟩).2⟩

theorem demo_trigger151 :
    triggers demoEnv frOcc48 (run demoEnv initState (demoWarm ++ [frClear])) 48 := by
  rw [demo_run150]; decide

theorem demo_trigger157 :
    triggers demoEnv frOcc48
      (run demoEnv initState ((demoWarm ++ [frClear]) ++ frOcc48 :: demoMid)) 48 := by
  rw [demo_run156]; decide

theorem C2_debounce_floor_witness :
    triggers demoEnv frOcc48 (run demoEnv initState (demoWarm ++ [frClear])) 48 ∧
    triggers demoEnv frOcc48
      (run demoEnv initState ((demoWarm ++ [frClear]) ++ frOcc48 :: demoMid)) 48 ∧
    ((run demoEnv initState ((demoWarm ++ [frClear]) ++ frOcc48 :: demoMid)).frame + 1) -
      ((run demoEnv initState (demoWarm ++ [frClear])).frame + 1) > 5 :=
  ⟨demo_trigger151, demo_trigger157,
    (C2_debounce_floor demoEnv initState (demoWarm ++ [frClear]) frOcc48 demoMid frOcc48 48
      demo_trigger151 demo_trigger157).1⟩

theorem C3_clear_window_witness :
    triggers demoEnv frOcc48 (run demoEnv initState (demoWarm ++ [frClear])) 48 ∧
    ∃ pre1 fr1, demoWarm ++ [frClear] = pre1 ++ [fr1] ∧
      sampledVisible demoEnv fr1 (run demoEnv initState pre1) 48 ∧
      (run demoEnv initState pre1).frame + 1 =
        (run demoEnv initState (demoWarm ++ [frClear])).frame + 1 - 1 :=
  ⟨demo_trigger151,
    (C3_clear_window demoEnv demoEnv_qsort_perm (demoWarm ++ [frClear]) frOcc48 48).1
      demo_trigger151⟩

theorem demo_assigned151 :
    0 ≤ (slot (run demoEnv initState (demoWarm ++ [frClear, frOcc48])).maxes 48).instrument := by
  rw [demo_run151]; decide

theorem C4_instrument_frozen_witness :
    150 ≤ (demoWarm ++ [frClear, frOcc48]).length ∧
    0 ≤ (slot (run demoEnv initState (demoWarm ++ [frClear, frOcc48])).maxes 48).instrument ∧
    (slot (run demoEnv initState ((demoWarm ++ [frClear, frOcc48]) ++ demoMid)).maxes
        48).instrument =
      (slot (run demoEnv initState (demoWarm ++ [frClear, frOcc48])).maxes 48).instrument :=
  ⟨by decide, demo_assigned151,
    (C4_instrument_frozen demoEnv demoEnv_qsort_perm 48 (by decide)).2.2.2.1
      (demoWarm ++ [frClear, frOcc48]) demoMid (by decide) demo_assigned151⟩

theorem demo_first48 : firstTrigger demoEnv (demoWarm ++ [frClear]) frOcc48 48 := by
  apply firstTrigger_of_visible _ _ _ _ demo_trigger151
  intro f hf
  have : f = frClear := by
    simp only [demoWarm, List.mem_append, List.mem_replicate, List.mem_singleton] at hf
    rcases hf with ⟨_, h⟩ | h <;> exact h
  rw [this]; decide

theorem demo_first49 :
    firstTrigger demoEnv (demoWarm ++ [frClear] ++ frOcc48 :: []) frOcc49 49 := by
  apply firstTrigger_of_visible
  · have e : demoWarm ++ [frClear] ++ frOcc48 :: [] = demoWarm ++ [frClear, frOcc48] := by simp
    rw [e, demo_run151]; decide
  · intro f hf
    have : f = frClear ∨ f = frOcc48 := by
      simp only [demoWarm, List.mem_append, List.mem_replicate, List.mem_singleton] at hf
      rcases hf with (⟨_, h⟩ | h) | h
      · exact Or.inl h
      · exact Or.inl h
      · exact Or.inr h
    rcases this with h | h <;> rw [h] <;> decide

theorem C5_ids_unique_increasing_witness :
    firstTrigger demoEnv (demoWarm ++ [frClear]) frOcc48 48 ∧
    firstTrigger demoEnv (demoWarm ++ [frClear] ++ frOcc48 :: []) frOcc49 49 ∧
    (slot (run demoEnv initState
        (demoWarm ++ [frClear] ++ frOcc48 :: [] ++ frOcc49 :: demoMid)).maxes 48).instrument <
      (slot (run demoEnv initState
        (demoWarm ++ [frClear] ++ frOcc48 :: [] ++ frOcc49 :: demoMid)).maxes 49).instrument :=
  ⟨demo_first48, demo_first49,
    (C5_ids_unique_increasing demoEnv demoEnv_qsort_perm).2.1 (demoWarm ++ [frClear]) frOcc48 []
      frOcc49 demoMid 48 49 demo_first48 demo_first49⟩

theorem demo_pending49 :
    (slot (run demoEnv initState (demoWarm ++ [frClear, frOccBoth])).maxes 49).play ≠ 0 := by
  rw [demo_run151_both]; decide

theorem C6_emitted_id_nonneg_witness :
    (slot (run demoEnv initState (demoWarm ++ [frClear, frOccBoth])).maxes 49).play ≠ 0 ∧
    0 ≤ (slot (run demoEnv initState (demoWarm ++ [frClear, frOccBoth])).maxes 49).instrument :=
  ⟨demo_pending49,
    (C6_emitted_id_nonneg demoEnv demoEnv_qsort_perm (demoWarm ++ [frClear, frOccBoth])).1 49
      (by decide) demo_pending49⟩

theorem C9_locator_acceptance_witness :
    qualifyingStrides demoEnv frOneCluster 10 7 = 1 ∧
    bestWindow demoEnv frOneCluster 10 7 = 4 ∧
    (locate demoEnv frOneCluster { zeroMax with t := 10, r := 7 }).search_n = 0 :=
  ⟨by decide, by decide,
    (C9_locator_acceptance demoEnv frOneCluster { zeroMax with t := 10, r := 7 }).2.2.2
      (by decide)⟩

/-- C10 (the code against the claim). On the accumulator `fivePeaks` the scan
reaches the cell `(9, 2)` with `min_max_i = 3`; the cell is accepted (count 6)
and overwrites entry 3, which holds the peak of count 3, although entry 1 (and
45 more) still hold count 0: the overwritten entry is not the minimum of the
array.  After the scan the local maximum `(5, 2)` of count 3 is no longer in
the array while entries of count 0 are. -/
theorem C10_scan_overwrites_non_minimum :
    (scanCells 4).getD 25 (0, 0) = (9, 2) ∧
    accepts fivePeaks 4 9 2 beforeFifth = true ∧
    beforeFifth.min_max_i = 3 ∧
    (slot beforeFifth.maxes 3).count = 3 ∧
    (slot beforeFifth.maxes 1).count = 0 ∧
    isLocalMax fivePeaks 4 5 2 = true ∧ fivePeaks (5 * 4 + 2) = 3 ∧
    (maximaScan fivePeaks 4 zeroMaxes).maxes.map (fun m => m.count) =
      [5, 0, 7, 6, 6] ++ List.replicate 45 0 := by
  refine ⟨by decide, by decide, by decide, by decide, by decide, by decide, by decide,
    maximaScan_fivePeaks⟩

/-! ## `remove_dups`: characterisation -/

/-- C18. Characterisation of `remove_dups` on a slot array: entry `i` has
`search_n = 0` afterwards if some later entry `j > i` lies within combined
distance 10 (whatever the `search_n` of entry `j`), and otherwise keeps its
`search_n`; no other field of any entry changes, no entry becomes active, and
the last entry is left as it was. -/
theorem C18_remove_dups_characterisation (maxes : List LocMax)
    (hlen : maxes.length = N_MAXES) :
    (∀ i j, i < j → j < N_MAXES → diff (slot maxes i) (slot maxes j) < 10 →
      (slot (remove_dups maxes) i).search_n = 0) ∧
    (∀ i, (∀ j, j < N_MAXES → i < j → ¬ diff (slot maxes i) (slot maxes j) < 10) →
      slot (remove_dups maxes) i = slot maxes i) ∧
    (∀ i, { slot (remove_dups maxes) i with search_n := (slot maxes i).search_n } =
      slot maxes i) ∧
    (∀ i, (slot (remove_dups maxes) i).search_n ≠ 0 → (slot maxes i).search_n ≠ 0) ∧
    slot (remove_dups maxes) (N_MAXES - 1) = slot maxes (N_MAXES - 1) ∧
    (remove_dups maxes).length = maxes.length := by
  refine ⟨?_, ?_, ?_, ?_, ?_, remove_dups_length maxes⟩
  · intro i j hij hj hd
    rw [slot_remove_dups maxes hlen i]
    have h : i < N_MAXES ∧ hasLaterDup maxes i := ⟨by omega, j, hj, hij, hd⟩
    rw [if_pos h]
  · intro i hno
    rw [slot_remove_dups maxes hlen i]
    have h : ¬ (i < N_MAXES ∧ hasLaterDup maxes i) := by
      rintro ⟨_, j, hj, hij, hd⟩
      exact hno j hj hij hd
    rw [if_neg h]
  · intro i
    rw [slot_remove_dups maxes hlen i]
    split <;> rfl
  · intro i hne
    rw [slot_remove_dups maxes hlen i] at hne
    split at hne
    · exact absurd rfl hne
    · exact hne
  · rw [slot_remove_dups maxes hlen (N_MAXES - 1)]
    have h : ¬ (N_MAXES - 1 < N_MAXES ∧ hasLaterDup maxes (N_MAXES - 1)) := by
      rintro ⟨_, j, hj, hij, _⟩
      omega
    rw [if_neg h]

theorem C18_remove_dups_characterisation_witness :
    inactivePair.length = N_MAXES ∧
    ((slot inactivePair 49).search_n = 0 ∧
      diff (slot inactivePair 48) (slot inactivePair 49) < 10) ∧
    (slot (remove_dups inactivePair) 48).search_n = 0 ∧
    slot (remove_dups inactivePair) 3 = slot inactivePair 3 :=
  ⟨by decide, by decide,
    (C18_remove_dups_characterisation inactivePair (by decide)).1 48 49 (by decide) (by decide)
      (by decide),
    (C18_remove_dups_characterisation inactivePair (by decide)).2.1 3 (by decide)⟩

/-! ## Warm-up gate -/

/-- C13. Warm-up gate, on every sequence of calls from program start (frame
counter 0): a call made after `pre.length` calls brings the frame counter to
`pre.length + 1`; if that is below 150 the call only increments the counter
(neither detection nor tracking nor emission runs, nothing is written to the
sink); if it is 150 the array the tracking loop works on is the result of the
detection pass; if it is above 150 the state is already initialised and the
tracking loop works on the stored array, with no detection; and on every call
with counter at least 150 the new state is the result of the tracking loop and
the emitter and is initialised. -/
theorem C13_warmup_gate (env : Env) (pre : List Frame) (fr : Frame) :
    (run env initState pre).frame + 1 = (pre.length : Int) + 1 ∧
    (pre.length + 1 < 150 →
      mirror_redraw env fr (run env initState pre) =
        ({ run env initState pre with frame := (run env initState pre).frame + 1 }, none) ∧
      (mirror_redraw env fr (run env initState pre)).1.initialized = false ∧
      (mirror_redraw env fr (run env initState pre)).1.maxes = initState.maxes) ∧
    (pre.length + 1 = 150 →
      (run env initState pre).initialized = false ∧
      maxesBeforeTracking env fr (run env initState pre) = detect env fr initState.maxes) ∧
    (150 < pre.length + 1 →
      (run env initState pre).initialized = true ∧
      maxesBeforeTracking env fr (run env initState pre) = (run env initState pre).maxes) ∧
    (150 ≤ pre.length + 1 →
      (mirror_redraw env fr (run env initState pre)).1.maxes =
        trackAndEmit ((run env initState pre).frame + 1) (npixelsOf fr)
          (maxesBeforeTracking env fr (run env initState pre)) (run env initState pre).n ∧
      (mirror_redraw env fr (run env initState pre)).2 =
        (emit (trackLoop ((run env initState pre).frame + 1) (npixelsOf fr) N_MAXES 0
          (maxesBeforeTracking env fr (run env initState pre),
            (run env initState pre).n)).1).2 ∧
      (mirror_redraw env fr (run env initState pre)).1.initialized = true) := by
  have hfr := run_initState_frame env pre
  refine ⟨by rw [hfr], ?_, ?_, ?_, ?_⟩
  · intro h
    have hearly : (run env initState pre).frame + 1 < 150 := by rw [hfr]; omega
    rw [mirror_redraw_early env fr _ hearly]
    refine ⟨rfl, ?_, ?_⟩
    · simp only
      rw [run_warmup env pre (by omega)]
    · simp only
      rw [run_warmup env pre (by omega)]
  · intro h
    rw [run_warmup env pre (by omega)]
    exact ⟨rfl, maxesBeforeTracking_warm env fr _⟩
  · intro h
    rcases (run_status env pre (by omega)).2 with ⟨hl, _⟩ | ⟨_, hinit, hM⟩
    · omega
    · exact ⟨hinit, hM fr⟩
  · intro h
    have hlate : ¬ (run env initState pre).frame + 1 < 150 := by rw [hfr]; omega
    refine ⟨?_, mirror_redraw_out env fr _ hlate, ?_⟩
    · rw [mirror_redraw_late env fr _ hlate]; simp only [trackAndEmit]
    · rw [mirror_redraw_late env fr _ hlate]

/-! ## Slot identity under tracking and emission -/

theorem trackLine_sameLine (frame npixels : Int) (m : LocMax) (n : Int) :
    sameLine m (trackLine frame npixels m n).1 := by
  rcases trackLine_cases frame npixels m n with ⟨_, h⟩ | ⟨_, _, h⟩ | ⟨_, _, h⟩ <;>
    rw [h] <;> exact ⟨rfl, rfl, rfl, rfl, rfl, rfl⟩

theorem sameLine_refl (a : LocMax) : sameLine a a := ⟨rfl, rfl, rfl, rfl, rfl, rfl⟩

theorem sameLine_trans (a b c : LocMax) (h1 : sameLine a b) (h2 : sameLine b c) :
    sameLine a c := by
  unfold sameLine at h1 h2 ⊢
  omega

theorem slot_trackLoop_sameLine (frame : Int) (npix : Nat → Int) (maxes : List LocMax)
    (n : Int) (i : Nat) :
    sameLine (slot maxes i) (slot (trackLoop frame npix N_MAXES 0 (maxes, n)).1 i) := by
  by_cases hi : i < N_MAXES
  · rw [slot_trackLoop frame npix maxes n i hi]
    exact trackLine_sameLine _ _ _ _
  · rw [slot_trackLoop_out frame npix maxes n i hi]
    exact sameLine_refl _

theorem slot_emit_sameLine (maxes : List LocMax) (i : Nat) :
    sameLine (slot maxes i) (slot (emit maxes).1 i) := by
  rcases slot_emit maxes i with h | h <;> rw [h] <;> exact ⟨rfl, rfl, rfl, rfl, rfl, rfl⟩

theorem trackAndEmit_sameLine (frame : Int) (npix : Nat → Int) (maxes : List LocMax)
    (n : Int) (i : Nat) :
    sameLine (slot maxes i) (slot (trackAndEmit frame npix maxes n) i) :=
  sameLine_trans _ _ _ (slot_trackLoop_sameLine frame npix maxes n i) (slot_emit_sameLine _ i)

theorem trackLine_inactive (frame npixels : Int) (m : LocMax) (n : Int)
    (h : m.search_n = 0) : trackLine frame npixels m n = (m, n) := by
  unfold trackLine; simp only [h, if_true]

theorem trackAndEmit_inactive (frame : Int) (npix : Nat → Int) (maxes : List LocMax)
    (n : Int) (i : Nat) (hs : (slot maxes i).search_n = 0) (hp : (slot maxes i).play = 0) :
    slot (trackAndEmit frame npix maxes n) i = slot maxes i := by
  have ht : slot (trackLoop frame npix N_MAXES 0 (maxes, n)).1 i = slot maxes i := by
    by_cases hi : i < N_MAXES
    · rw [slot_trackLoop frame npix maxes n i hi, trackLine_inactive _ _ _ _ hs]
    · exact slot_trackLoop_out frame npix maxes n i hi
  unfold trackAndEmit
  rcases slot_emit (trackLoop frame npix N_MAXES 0 (maxes, n)).1 i with h | h
  · rw [h, ht]
  · rw [h, ht]
    cases hm : slot maxes i
    rw [hm] at hp
    simp only at hp
    simp only [hp]

theorem mirror_redraw_sameLine (env : Env) (fr : Frame) (s : State)
    (hinit : s.initialized = true) (i : Nat) :
    sameLine (slot s.maxes i) (slot (mirror_redraw env fr s).1.maxes i) := by
  by_cases h : s.frame + 1 < 150
  · rw [mirror_redraw_early env fr s h]; exact sameLine_refl _
  · rw [mirror_redraw_late env fr s h, maxesBeforeTracking_initialized env fr s hinit]
    have key := trackAndEmit_sameLine (s.frame + 1) (npixelsOf fr) s.maxes s.n i
    simp only [trackAndEmit] at key
    simp only
    exact key

theorem run_sameLine (env : Env) (s : State) (frames : List Frame)
    (hinit : s.initialized = true) (i : Nat) :
    sameLine (slot s.maxes i) (slot (run env s frames).maxes i) := by
  induction frames generalizing s with
  | nil => exact sameLine_refl _
  | cons fr frames ih =>
    rw [run_cons]
    exact sameLine_trans _ _ _ (mirror_redraw_sameLine env fr s hinit i)
      (ih _ (mirror_redraw_initialized env fr s hinit))

/-- C14. Slot identity and inactivity are permanent after detection: the
tracking loop followed by the emitter leaves `t`, `r`, `search_n`, `search_x`,
`search_y` (and `count`) of every entry unchanged, and leaves an entry with
`search_n == 0` and a clear `play` flag entirely unchanged; the same holds over
any number of calls from an initialised state, so an entry inactive after the
detection call is inactive in every later state. -/
theorem C14_identity_permanent (env : Env) (i : Nat) :
    (∀ frame npix maxes n,
      sameLine (slot maxes i) (slot (trackAndEmit frame npix maxes n) i)) ∧
    (∀ frame npix maxes n, (slot maxes i).search_n = 0 → (slot maxes i).play = 0 →
      slot (trackAndEmit frame npix maxes n) i = slot maxes i) ∧
    (∀ s frames, s.initialized = true →
      sameLine (slot s.maxes i) (slot (run env s frames).maxes i)) ∧
    (∀ pre more, 150 ≤ pre.length →
      (slot (run env initState pre).maxes i).search_n = 0 →
      (slot (run env initState (pre ++ more)).maxes i).search_n = 0) := by
  refine ⟨fun frame npix maxes n => trackAndEmit_sameLine frame npix maxes n i,
    fun frame npix maxes n hs hp => trackAndEmit_inactive frame npix maxes n i hs hp,
    fun s frames hinit => run_sameLine env s frames hinit i, ?_⟩
  intro pre more hlen h0
  rcases (run_status env pre (by omega)).2 with ⟨hl, _⟩ | ⟨_, hinit, _⟩
  · omega
  · rw [run_append, (run_sameLine env _ more hinit i).2.2.2.1]
    exact h0

theorem C14_identity_permanent_witness :
    150 ≤ (demoWarm ++ [frClear]).length ∧
    (slot (run demoEnv initState (demoWarm ++ [frClear])).maxes 47).search_n = 0 ∧
    (slot (run demoEnv initState ((demoWarm ++ [frClear]) ++ frOccBoth :: demoMid)).maxes
      47).search_n = 0 :=
  ⟨by decide, by rw [demo_run150]; decide,
    (C14_identity_permanent demoEnv 47).2.2.2 (demoWarm ++ [frClear]) (frOccBoth :: demoMid)
      (by decide) (by rw [demo_run150]; decide)⟩

/-! ## The counter `noisy` -/

theorem trackLine_noisy (frame npixels : Int) (m : LocMax) (n : Int) :
    (trackLine frame npixels m n).1.noisy =
      if fires frame npixels m then m.noisy + 10
      else if clears npixels m then (if m.noisy = 0 then 0 else m.noisy - 1)
      else m.noisy := by
  rcases trackLine_cases frame npixels m n with ⟨hf, h⟩ | ⟨hf, hc, h⟩ | ⟨hf, hc, h⟩
  · rw [h]; simp [hf]
  · rw [h]; simp [hf, hc]
  · rw [h]; simp [hf, hc]

theorem triggers_iff_fires (env : Env) (fr : Frame) (s : State) (i : Nat)
    (h : ¬ s.frame + 1 < 150) (hi : i < N_MAXES) :
    triggers env fr s i ↔
      fires (s.frame + 1) (npixelsOf fr i) (slot (maxesBeforeTracking env fr s) i) :=
  ⟨fun hh => hh.2.2, fun hh => ⟨hi, h, hh⟩⟩

theorem sampledVisible_iff_clears (env : Env) (fr : Frame) (s : State) (i : Nat)
    (h : ¬ s.frame + 1 < 150) (hi : i < N_MAXES) :
    sampledVisible env fr s i ↔ clears (npixelsOf fr i) (slot (maxesBeforeTracking env fr s) i) :=
  ⟨fun hh => hh.2.2, fun hh => ⟨hi, h, hh⟩⟩

/-- After a call that reaches the tracking loop, `noisy` of entry `i` has grown
by 10 if the entry triggered, has dropped by 1 (not below 0 from 0) if it was
sampled visible, and is otherwise unchanged. -/
theorem noisy_mirror_redraw (env : Env) (fr : Frame) (s : State)
    (h : ¬ s.frame + 1 < 150) (i : Nat) (hi : i < N_MAXES) :
    (slot (mirror_redraw env fr s).1.maxes i).noisy =
      if triggers env fr s i then (slot (maxesBeforeTracking env fr s) i).noisy + 10
      else if sampledVisible env fr s i then
        (if (slot (maxesBeforeTracking env fr s) i).noisy = 0 then 0
         else (slot (maxesBeforeTracking env fr s) i).noisy - 1)
      else (slot (maxesBeforeTracking env fr s) i).noisy := by
  have e : (slot (mirror_redraw env fr s).1.maxes i).noisy =
      (trackedEntry env fr s i).noisy := by
    rcases slot_mirror_redraw env fr s h i hi with h1 | h1 <;> rw [h1]
  rw [e, trackedEntry, trackLine_noisy]
  have h1 := triggers_iff_fires env fr s i h hi
  have h2 := sampledVisible_iff_clears env fr s i h hi
  by_cases hf : fires (s.frame + 1) (npixelsOf fr i) (slot (maxesBeforeTracking env fr s) i)
  · rw [if_pos hf, if_pos (h1.mpr hf)]
  · rw [if_neg hf, if_neg (fun hh => hf (h1.mp hh))]
    by_cases hc : clears (npixelsOf fr i) (slot (maxesBeforeTracking env fr s) i)
    · rw [if_pos hc, if_pos (h2.mpr hc)]
    · rw [if_neg hc, if_neg (fun hh => hc (h2.mp hh))]

/-- In every state of a run from program start, and in the array at line 490 of
the next call, `noisy` is non-negative. -/
theorem noisy_nonneg_run (env : Env) (hq : ∀ l, (env.qsort l).Perm l) (frames : List Frame)
    (i : Nat) (hi : i < N_MAXES) :
    0 ≤ (slot (run env initState frames).maxes i).noisy ∧
    ∀ fr, 0 ≤ (slot (maxesBeforeTracking env fr (run env initState frames)) i).noisy := by
  have hdet : ∀ fr, (slot (detect env fr initState.maxes) i).noisy = 0 := fun fr =>
    (detect_fields env hq fr _ initState_maxes_length initState_maxes_play i hi).2.1
  have hstep : ∀ fr s, ¬ s.frame + 1 < 150 →
      0 ≤ (slot (maxesBeforeTracking env fr s) i).noisy →
      0 ≤ (slot (mirror_redraw env fr s).1.maxes i).noisy := by
    intro fr s hlate h0
    rw [noisy_mirror_redraw env fr s hlate i hi]
    split
    · omega
    · split
      · split <;> omega
      · exact h0
  by_cases hl : frames.length < 150
  · rw [run_warmup env frames hl]
    refine ⟨?_, fun fr => ?_⟩
    · show 0 ≤ (slot initState.maxes i).noisy
      have hlt : i < initState.maxes.length := by rw [initState_maxes_length]; exact hi
      have hm := slot_mem initState.maxes i hlt
      simp only [initState, List.mem_replicate] at hm
      have e : slot initState.maxes i = zeroMax := hm.2
      rw [e]; decide
    · rw [maxesBeforeTracking_warm, hdet fr]
  · have key := run_tracking_induction env (fun s => 0 ≤ (slot s.maxes i).noisy)
      (fun fr => hstep fr _ (by simp) (by rw [maxesBeforeTracking_warm, hdet fr]))
      (fun fr s hinit hfr hP => hstep fr s (by omega)
        (by rw [maxesBeforeTracking_initialized env fr s hinit]; exact hP))
      frames (by omega)
    refine ⟨key.1, fun fr => ?_⟩
    rw [maxesBeforeTracking_initialized env fr _ key.2]
    exact key.1

/-- C16. Per-slot transition: for an active entry with `noisy >= 0` the body of
the tracking loop is the reference transition (trigger: id assigned iff it was
negative, `played_at := f`, `play := 1` iff `noisy` was 0, `noisy += 10`;
visible: `noisy := max(noisy - 1, 0)`, `reset_at := f`, nothing else; occluded
with the debounce condition failing: unchanged); and `noisy >= 0` holds for
every entry the tracking loop meets on a run from program start. -/
theorem C16_slot_transition (env : Env) (hq : ∀ l, (env.qsort l).Perm l) :
    (∀ f npixels m n, m.search_n ≠ 0 → 0 ≤ m.noisy →
      trackLine f npixels m n = slotTransitionRef f npixels m n) ∧
    (∀ pre fr i, i < N_MAXES →
      0 ≤ (slot (maxesBeforeTracking env fr (run env initState pre)) i).noisy) := by
  constructor
  · intro f npixels m n hs h0
    unfold slotTransitionRef
    rcases trackLine_cases f npixels m n with ⟨hf, h⟩ | ⟨hf, hc, h⟩ | ⟨hf, hc, h⟩
    · have hc : npixels < 2 ∧ f - m.played_at > 5 ∧ f - m.reset_at < 2 := hf.2
      rw [h, if_pos hc]
    · have h1 : ¬ (npixels < 2 ∧ f - m.played_at > 5 ∧ f - m.reset_at < 2) :=
        fun hh => hc.2 hh.1
      have h2 : npixels ≥ 2 := by have := hc.2; omega
      rw [h, if_neg h1, if_pos h2]
      have e : (if m.noisy = 0 then 0 else m.noisy - 1) = max (m.noisy - 1) 0 := by
        split
        · next hz => rw [hz]; decide
        · next hz => rw [max_eq_left (by omega)]
      rw [e]
    · have h1 : ¬ (npixels < 2 ∧ f - m.played_at > 5 ∧ f - m.reset_at < 2) :=
        fun hh => hf ⟨hs, hh⟩
      have h2 : ¬ npixels ≥ 2 := fun hh => hc ⟨hs, by omega⟩
      rw [h, if_neg h1, if_neg h2]
  · intro pre fr i hi
    exact (noisy_nonneg_run env hq pre i hi).2 fr

theorem C16_slot_transition_witness :
    (slot (run demoEnv initState (demoWarm ++ [frClear])).maxes 48).search_n ≠ 0 ∧
    0 ≤ (slot (run demoEnv initState (demoWarm ++ [frClear])).maxes 48).noisy ∧
    trackLine 151 0 (slot (run demoEnv initState (demoWarm ++ [frClear])).maxes 48) 0 =
      slotTransitionRef 151 0
        (slot (run demoEnv initState (demoWarm ++ [frClear])).maxes 48) 0 :=
  ⟨by rw [demo_run150]; decide, by rw [demo_run150]; decide,
    (C16_slot_transition demoEnv demoEnv_qsort_perm).1 151 0 _ 0
      (by rw [demo_run150]; decide) (by rw [demo_run150]; decide)⟩

/-! ## Re-arming -/

/-- From an initialised state, `noisy` of an entry drops by at most the number
of calls in which the entry was sampled visible. -/
theorem noisy_drop_le_visible (env : Env) (i : Nat) (hi : i < N_MAXES) (s : State)
    (frames : List Frame) (hinit : s.initialized = true) :
    (slot s.maxes i).noisy ≤
      (slot (run env s frames).maxes i).noisy + (visibleCount env i s frames : Int) := by
  induction frames generalizing s with
  | nil => simp [run_nil, visibleCount]
  | cons fr frames ih =>
    rw [run_cons]
    have hnext := ih (mirror_redraw env fr s).1 (mirror_redraw_initialized env fr s hinit)
    have hstep : (slot s.maxes i).noisy ≤ (slot (mirror_redraw env fr s).1.maxes i).noisy +
        (if sampledVisible env fr s i then 1 else 0 : Int) := by
      by_cases h : s.frame + 1 < 150
      · rw [mirror_redraw_early env fr s h]
        have : ¬ sampledVisible env fr s i := fun hh => hh.2.1 h
        simp [this]
      · rw [noisy_mirror_redraw env fr s h i hi, maxesBeforeTracking_initialized env fr s hinit]
        by_cases ht : triggers env fr s i
        · rw [if_pos ht]
          split <;> omega
        · rw [if_neg ht]
          by_cases hv : sampledVisible env fr s i
          · rw [if_pos hv, if_pos hv]
            split <;> omega
          · rw [if_neg hv, if_neg hv]; omega
    simp only [visibleCount]
    push_cast
    have e : ((if sampledVisible env fr s i then 1 else 0 : Nat) : Int) =
        (if sampledVisible env fr s i then 1 else 0 : Int) := by
      split <;> rfl
    omega

/-- C19. Re-arming needs ten visible frames: `noisy` is non-negative in every
state of a run from program start; a call changes it by `+10` when the entry
triggers, by `-1` (staying at 0 from 0) when the entry is sampled visible, and
not otherwise; the `play` flag is set by the tracking body only in a trigger
with `noisy == 0`, which leaves `noisy = 10`; and between two calls that set
the flag of an entry, the entry is sampled visible in at least 10 calls. -/
theorem C19_rearm_needs_ten_visible (env : Env) (hq : ∀ l, (env.qsort l).Perm l) (i : Nat)
    (hi : i < N_MAXES) :
    (∀ frames, 0 ≤ (slot (run env initState frames).maxes i).noisy) ∧
    (∀ fr s, ¬ s.frame + 1 < 150 →
      (slot (mirror_redraw env fr s).1.maxes i).noisy =
        if triggers env fr s i then (slot (maxesBeforeTracking env fr s) i).noisy + 10
        else if sampledVisible env fr s i then
          (if (slot (maxesBeforeTracking env fr s) i).noisy = 0 then 0
           else (slot (maxesBeforeTracking env fr s) i).noisy - 1)
        else (slot (maxesBeforeTracking env fr s) i).noisy) ∧
    (∀ fr s, (trackedEntry env fr s i).play ≠ (slot (maxesBeforeTracking env fr s) i).play →
      ¬ s.frame + 1 < 150 → setsFlag env fr s i) ∧
    (∀ fr s, setsFlag env fr s i →
      (trackedEntry env fr s i).play = 1 ∧
      (slot (mirror_redraw env fr s).1.maxes i).noisy = 10) ∧
    (∀ s0 pre fr1 mid fr2,
      setsFlag env fr1 (run env s0 pre) i →
      setsFlag env fr2 (run env s0 (pre ++ fr1 :: mid)) i →
      10 ≤ visibleCount env i (run env s0 (pre ++ [fr1])) mid) := by
  refine ⟨fun frames => (noisy_nonneg_run env hq frames i hi).1,
    fun fr s h => noisy_mirror_redraw env fr s h i hi, ?_, ?_, ?_⟩
  · intro fr s hne hlate
    rw [trackedEntry, trackLine_play] at hne
    by_cases hf : fires (s.frame + 1) (npixelsOf fr i) (slot (maxesBeforeTracking env fr s) i) ∧
        (slot (maxesBeforeTracking env fr s) i).noisy = 0
    · exact ⟨⟨hi, hlate, hf.1⟩, hf.2⟩
    · rw [if_neg hf] at hne
      exact absurd rfl hne
  · intro fr s hset
    obtain ⟨ht, h0⟩ := hset
    constructor
    · rw [trackedEntry, trackLine_play, if_pos ⟨ht.2.2, h0⟩]
    · rw [noisy_mirror_redraw env fr s ht.2.1 i hi, if_pos ht, h0]; rfl
  · intro s0 pre fr1 mid fr2 h1 h2
    have hlate1 := h1.1.2.1
    have hn1 : (slot (run env s0 (pre ++ [fr1])).maxes i).noisy = 10 := by
      rw [run_snoc, noisy_mirror_redraw env fr1 _ hlate1 i hi, if_pos h1.1, h1.2]; rfl
    have hinit1 : (run env s0 (pre ++ [fr1])).initialized = true := by
      rw [run_snoc, mirror_redraw_late env fr1 _ hlate1]
    have hrun : run env s0 (pre ++ fr1 :: mid) = run env (run env s0 (pre ++ [fr1])) mid := by
      rw [← run_append]; simp
    have hinit2 : (run env s0 (pre ++ fr1 :: mid)).initialized = true := by
      rw [hrun]; exact run_initialized env _ mid hinit1
    have hn2 := h2.2
    rw [maxesBeforeTracking_initialized env fr2 _ hinit2, hrun] at hn2
    have key := noisy_drop_le_visible env i hi (run env s0 (pre ++ [fr1])) mid hinit1
    rw [hn1, hn2] at key
    omega

/-! ## The 5x5 windows of the locator -/

theorem mem_windowPixels (cx cy : Int) (p : Int × Int) :
    p ∈ windowPixels cx cy ↔
      (cx - 2 ≤ p.1 ∧ p.1 ≤ cx + 2) ∧ (cy - 2 ≤ p.2 ∧ p.2 ≤ cy + 2) := by
  unfold windowPixels
  simp only [List.mem_flatMap, List.mem_map, mem_intRange]
  constructor
  · rintro ⟨y, ⟨hy1, hy2⟩, x, ⟨hx1, hx2⟩, rfl⟩
    simp only
    omega
  · rintro ⟨⟨hx1, hx2⟩, hy1, hy2⟩
    exact ⟨p.2, ⟨hy1, by omega⟩, p.1, ⟨hx1, by omega⟩, rfl⟩

theorem mem_strides (w sx : Int) (h : sx ∈ strides w) : 2 ≤ sx ∧ sx < w - 2 := by
  unfold strides at h
  simp only [List.mem_map, List.mem_range] at h
  obtain ⟨k, hk, rfl⟩ := h
  omega

theorem count_fold (fg : Int × Int → Bool) (L : List (Int × Int)) (a : Int) :
    L.foldl (fun np p => if fg p then np + 1 else np) a = a + ((L.filter fg).length : Int) := by
  induction L generalizing a with
  | nil => simp
  | cons p L ih =>
    simp only [List.foldl_cons, List.filter_cons]
    rw [ih]
    cases fg p <;> simp
    omega

theorem sums_fold (fg : Int × Int → Bool) (L : List (Int × Int)) (a : Int × Int) :
    L.foldl (fun acc p => if fg p then (acc.1 + p.1, acc.2 + p.2) else acc) a =
      (a.1 + ((L.filter fg).map Prod.fst).sum, a.2 + ((L.filter fg).map Prod.snd).sum) := by
  induction L generalizing a with
  | nil => simp
  | cons p L ih =>
    simp only [List.foldl_cons, List.filter_cons]
    rw [ih]
    cases fg p <;> simp
    constructor <;> omega

theorem nested_fold {β : Type} (f : β → Int × Int → β) (ys xs : List Int) (a : β) :
    ys.foldl (fun acc y => xs.foldl (fun acc x => f acc (x, y)) acc) a =
      (ys.flatMap (fun y => xs.map (fun x => (x, y)))).foldl f a := by
  induction ys generalizing a with
  | nil => rfl
  | cons y ys ih =>
    simp only [List.foldl_cons, List.flatMap_cons, List.foldl_append, List.foldl_map]
    exact ih _

/-- The count `npix` is the number of foreground pixels among the window
pixels: the window loops read `data` at the pixels of `windowPixels` only. -/
theorem windowCount_eq (w : Int) (data : Int → Int) (sx sy : Int) :
    windowCount w data sx sy = ((foregroundPixels w data sx sy).length : Int) := by
  unfold windowCount foregroundPixels windowPixels
  have h := nested_fold (fun (np : Int) p => if isForeground w data p then np + 1 else np)
    (intRange (sy - 2) (sy + 2 + 1)) (intRange (sx - 2) (sx + 2 + 1)) 0
  simp only [isForeground, decide_eq_true_eq] at h
  rw [h]
  have h2 := count_fold (isForeground w data)
    ((intRange (sy - 2) (sy + 2 + 1)).flatMap
      (fun y => (intRange (sx - 2) (sx + 2 + 1)).map (fun x => (x, y)))) 0
  simp only [isForeground, decide_eq_true_eq, zero_add] at h2
  rw [h2]

/-- The sums `xs`, `ys` are the coordinate sums over the foreground pixels of
the window. -/
theorem windowSums_eq (w : Int) (data : Int → Int) (cx cy : Int) :
    windowSums w data cx cy =
      (((foregroundPixels w data cx cy).map Prod.fst).sum,
       ((foregroundPixels w data cx cy).map Prod.snd).sum) := by
  unfold windowSums foregroundPixels windowPixels
  have h := nested_fold
    (fun (acc : Int × Int) p => if isForeground w data p then (acc.1 + p.1, acc.2 + p.2) else acc)
    (intRange (cy - 2) (cy + 2 + 1)) (intRange (cx - 2) (cx + 2 + 1)) (0, 0)
  simp only [isForeground, decide_eq_true_eq] at h
  rw [h]
  have h2 := sums_fold (isForeground w data)
    ((intRange (cy - 2) (cy + 2 + 1)).flatMap
      (fun y => (intRange (cx - 2) (cx + 2 + 1)).map (fun x => (x, y)))) (0, 0)
  simp only [isForeground, decide_eq_true_eq, zero_add] at h2
  rw [h2]

theorem sum_bounds (l : List Int) (lo hi : Int) (h : ∀ a ∈ l, lo ≤ a ∧ a ≤ hi) :
    (l.length : Int) * lo ≤ l.sum ∧ l.sum ≤ (l.length : Int) * hi := by
  induction l with
  | nil => simp
  | cons a l ih =>
    have ha := h a (List.mem_cons_self _ _)
    have := ih (fun b hb => h b (List.mem_cons_of_mem _ hb))
    simp only [List.length_cons, List.sum_cons]
    push_cast
    constructor <;> nlinarith

/-! ## The best window and its centre -/

theorem locateStride_tr (env : Env) (fr : Frame) (sx : Int) (s : LocMax × Int) :
    (locateStride env fr sx s).1.t = s.1.t ∧ (locateStride env fr sx s).1.r = s.1.r := by
  have h := locateStride_same env fr sx s
  exact ⟨h.2.1, h.2.2.1⟩

/-- After the stride loop over `L` the tracked centre is either the one the
loop started with or a stride of `L` whose row is in the image and whose window
count is the stored `search_n`. -/
theorem locateFold_centre (env : Env) (fr : Frame) (t r : Int) (L : List Int)
    (s : LocMax × Int) (ht : s.1.t = t) (hr : s.1.r = r) :
    ((L.foldl (fun s sx => locateStride env fr sx s) s).1.search_n = s.1.search_n ∧
      (L.foldl (fun s sx => locateStride env fr sx s) s).1.search_x = s.1.search_x ∧
      (L.foldl (fun s sx => locateStride env fr sx s) s).1.search_y = s.1.search_y) ∨
    (∃ sx, sx ∈ L ∧ (env.lineY t r sx > 2 ∧ env.lineY t r sx < fr.height - 2) ∧
      windowCount fr.width fr.data sx (env.lineY t r sx) =
        (L.foldl (fun s sx => locateStride env fr sx s) s).1.search_n ∧
      (L.foldl (fun s sx => locateStride env fr sx s) s).1.search_x = sx ∧
      (L.foldl (fun s sx => locateStride env fr sx s) s).1.search_y = env.lineY t r sx) := by
  induction L generalizing s with
  | nil => left; exact ⟨rfl, rfl, rfl⟩
  | cons sx L ih =>
    simp only [List.foldl_cons]
    have htr := locateStride_tr env fr sx s
    rcases ih (locateStride env fr sx s) (by rw [htr.1, ht]) (by rw [htr.2, hr]) with
      ⟨h1, h2, h3⟩ | ⟨sx2, hmem, hin, hc, hx, hy⟩
    · by_cases hupd : (env.lineY t r sx > 2 ∧ env.lineY t r sx < fr.height - 2) ∧
          windowCount fr.width fr.data sx (env.lineY t r sx) > s.1.search_n
      · right
        have hstep : (locateStride env fr sx s).1 =
            { s.1 with search_n := windowCount fr.width fr.data sx (env.lineY t r sx),
                       search_x := sx, search_y := env.lineY t r sx } := by
          unfold locateStride
          simp only [ht, hr, hupd.1, hupd.2, and_self, if_true]
        refine ⟨sx, List.mem_cons_self _ _, hupd.1, ?_, ?_, ?_⟩
        · rw [h1, hstep]
        · rw [h2, hstep]
        · rw [h3, hstep]
      · left
        have hstep : (locateStride env fr sx s).1 = s.1 := by
          unfold locateStride
          simp only [ht, hr]
          by_cases hin : env.lineY t r sx > 2 ∧ env.lineY t r sx < fr.height - 2
          · have : ¬ windowCount fr.width fr.data sx (env.lineY t r sx) > s.1.search_n :=
              fun hh => hupd ⟨hin, hh⟩
            simp only [hin, this, and_self, if_true, if_false]
          · simp only [hin, if_false]
        rw [h1, h2, h3, hstep]
        exact ⟨rfl, rfl, rfl⟩
    · right
      exact ⟨sx2, List.mem_cons_of_mem _ hmem, hin, hc, hx, hy⟩

/-- An accepted line: the stride whose window the locator kept, and what the
acceptance test and the centre-of-mass step make of it. -/
theorem locate_accepted (env : Env) (fr : Frame) (m : LocMax)
    (h : (locate env fr m).search_n ≠ 0) :
    ∃ sx, sx ∈ strides fr.width ∧
      (env.lineY m.t m.r sx > 2 ∧ env.lineY m.t m.r sx < fr.height - 2) ∧
      windowCount fr.width fr.data sx (env.lineY m.t m.r sx) = (locate env fr m).search_n ∧
      (acceptLine (searchLine env fr m)).search_n = (locate env fr m).search_n ∧
      (acceptLine (searchLine env fr m)).search_x = sx ∧
      (acceptLine (searchLine env fr m)).search_y = env.lineY m.t m.r sx ∧
      (locate env fr m).search_x =
        Int.tdiv (windowSums fr.width fr.data sx (env.lineY m.t m.r sx)).1
          (locate env fr m).search_n ∧
      (locate env fr m).search_y =
        Int.tdiv (windowSums fr.width fr.data sx (env.lineY m.t m.r sx)).2
          (locate env fr m).search_n := by
  have hsn : (locate env fr m).search_n = (acceptLine (searchLine env fr m)).search_n :=
    centerOfMass_search_n fr _
  have hacc : (acceptLine (searchLine env fr m)).search_n ≠ 0 := by rw [← hsn]; exact h
  have hkeep : acceptLine (searchLine env fr m) = (searchLine env fr m).1 := by
    unfold acceptLine at hacc ⊢
    split
    · next hc => rw [if_pos hc] at hacc; exact absurd rfl hacc
    · rfl
  have hcentre := locateFold_centre env fr m.t m.r (strides fr.width)
    ({ m with instrument := -1, noisy := 0, played_at := 0, reset_at := 0,
              search_n := 0, search_x := -1, search_y := -1 }, 0) rfl rfl
  have hsl : (searchLine env fr m).1.search_n ≠ 0 := by rw [← hkeep]; exact hacc
  rcases hcentre with ⟨h1, _, _⟩ | ⟨sx, hmem, hin, hc, hx, hy⟩
  · exact absurd h1 hsl
  · refine ⟨sx, hmem, hin, ?_, hsn.symm, ?_, ?_, ?_, ?_⟩
    · rw [hsn, hkeep]; exact hc
    · rw [hkeep]; exact hx
    · rw [hkeep]; exact hy
    · have : (locate env fr m).search_x =
          Int.tdiv (windowSums fr.width fr.data (acceptLine (searchLine env fr m)).search_x
            (acceptLine (searchLine env fr m)).search_y).1
            (acceptLine (searchLine env fr m)).search_n := by
        unfold locate centerOfMass
        rw [if_pos hacc]
      rw [this, hkeep]
      have hx2 : (searchLine env fr m).1.search_x = sx := hx
      have hy2 : (searchLine env fr m).1.search_y = env.lineY m.t m.r sx := hy
      rw [hx2, hy2, hsn, hkeep]
    · have : (locate env fr m).search_y =
          Int.tdiv (windowSums fr.width fr.data (acceptLine (searchLine env fr m)).search_x
            (acceptLine (searchLine env fr m)).search_y).2
            (acceptLine (searchLine env fr m)).search_n := by
        unfold locate centerOfMass
        rw [if_pos hacc]
      rw [this, hkeep]
      have hx2 : (searchLine env fr m).1.search_x = sx := hx
      have hy2 : (searchLine env fr m).1.search_y = env.lineY m.t m.r sx := hy
      rw [hx2, hy2, hsn, hkeep]

theorem pixelInBounds_of_window (w h sx sy : Int) (hsx : 2 ≤ sx ∧ sx < w - 2)
    (hsy : sy > 2 ∧ sy < h - 2) (p : Int × Int) (hp : p ∈ windowPixels sx sy) :
    pixelInBounds w h p := by
  rw [mem_windowPixels] at hp
  obtain ⟨⟨hx1, hx2⟩, hy1, hy2⟩ := hp
  have h1 : 0 ≤ p.1 := by omega
  have h2 : p.1 < w := by omega
  have h3 : 0 ≤ p.2 := by omega
  have h4 : p.2 < h := by omega
  refine ⟨⟨h1, h2⟩, ⟨h3, h4⟩, ?_, ?_⟩
  · have : 0 ≤ w * p.2 := mul_nonneg (by omega) h3
    omega
  · have hw : 0 < w := by omega
    have : w * p.2 ≤ w * (h - 1) := mul_le_mul_of_nonneg_left (by omega) (le_of_lt hw)
    have e : w * (h - 1) = w * h - w := by ring
    have e2 : 4 * w * h = 4 * (w * h) := by ring
    rw [e2]
    omega

theorem centroid_bounds (l : List Int) (lo hi : Int) (hlo : 0 ≤ lo)
    (h : ∀ a ∈ l, lo ≤ a ∧ a ≤ hi) (hk : 0 < (l.length : Int)) :
    Int.tdiv l.sum (l.length : Int) = l.sum / (l.length : Int) ∧
    lo ≤ l.sum / (l.length : Int) ∧ l.sum / (l.length : Int) ≤ hi := by
  obtain ⟨h1, h2⟩ := sum_bounds l lo hi h
  have hs : 0 ≤ l.sum := le_trans (mul_nonneg (le_of_lt hk) hlo) h1
  refine ⟨Int.tdiv_eq_ediv hs (le_of_lt hk), ?_, ?_⟩
  · apply Int.le_ediv_of_mul_le hk
    rw [mul_comm]; exact h1
  · apply Int.ediv_le_of_le_mul hk
    rw [mul_comm]; exact h2

/-- C15. Centroid refinement: for every frame and every accepted line
(`search_n != 0` after the line-location step) there is a stride `sx` of the
locator loop, with its row in the image, such that the stored `search_n` is the
number `k` of foreground pixels of the 5x5 window at that stride (the best
window count, positive, so the division is by the true pixel count and never by
zero), the stored position is `(floor(sum x / k), floor(sum y / k))` over these
pixels, and it lies within 2 pixels of the window centre in each axis, hence
inside the image. -/
theorem C15_centroid_refinement (env : Env) (fr : Frame) (m : LocMax)
    (h : (locate env fr m).search_n ≠ 0) :
    ∃ sx, sx ∈ strides fr.width ∧ refinedFrom env fr m sx := by
  obtain ⟨sx, hmem, hin, hc, _, _, _, hx, hy⟩ := locate_accepted env fr m h
  refine ⟨sx, hmem, ?_⟩
  have hstr := mem_strides fr.width sx hmem
  have hk : ((foregroundPixels fr.width fr.data sx (env.lineY m.t m.r sx)).length : Int) =
      (locate env fr m).search_n := by
    rw [← windowCount_eq]; exact hc
  have hpos : 0 < (locate env fr m).search_n := by
    have : 0 ≤ ((foregroundPixels fr.width fr.data sx (env.lineY m.t m.r sx)).length : Int) :=
      Int.natCast_nonneg _
    omega
  have hbest : (locate env fr m).search_n = bestWindow env fr m.t m.r := by
    have e := locate_search_n env fr m
    by_cases hcond : qualifyingStrides env fr m.t m.r < 2 ∨ bestWindow env fr m.t m.r < 4
    · rw [if_pos hcond] at e; exact absurd e h
    · rw [if_neg hcond] at e; exact e
  have hfst : ∀ a ∈ (foregroundPixels fr.width fr.data sx (env.lineY m.t m.r sx)).map Prod.fst,
      sx - 2 ≤ a ∧ a ≤ sx + 2 := by
    intro a ha
    simp only [List.mem_map] at ha
    obtain ⟨p, hp, rfl⟩ := ha
    have := (mem_windowPixels _ _ p).mp (List.mem_of_mem_filter hp)
    exact this.1
  have hsnd : ∀ a ∈ (foregroundPixels fr.width fr.data sx (env.lineY m.t m.r sx)).map Prod.snd,
      env.lineY m.t m.r sx - 2 ≤ a ∧ a ≤ env.lineY m.t m.r sx + 2 := by
    intro a ha
    simp only [List.mem_map] at ha
    obtain ⟨p, hp, rfl⟩ := ha
    have := (mem_windowPixels _ _ p).mp (List.mem_of_mem_filter hp)
    exact this.2
  have hkpos : 0 <
      ((foregroundPixels fr.width fr.data sx (env.lineY m.t m.r sx)).length : Int) := by
    rw [hk]; exact hpos
  have cx := centroid_bounds _ (sx - 2) (sx + 2) (by omega) hfst (by simpa using hkpos)
  have cy := centroid_bounds _ (env.lineY m.t m.r sx - 2) (env.lineY m.t m.r sx + 2)
    (by omega) hsnd (by simpa using hkpos)
  simp only [List.length_map] at cx cy
  rw [windowSums_eq] at hx hy
  simp only at hx hy
  rw [← hk, cx.1] at hx
  rw [← hk, cy.1] at hy
  refine ⟨hin, hk, hbest, hpos, hx, hy, ?_, ?_, ?_, ?_⟩
  · rw [hx]; exact ⟨cx.2.1, cx.2.2⟩
  · rw [hy]; exact ⟨cy.2.1, cy.2.2⟩
  · rw [hx]; constructor
    · have := cx.2.1; omega
    · have := cx.2.2; omega
  · rw [hy]; constructor
    · have := cy.2.1; omega
    · have := cy.2.2; omega

theorem C15_centroid_refinement_witness :
    (locate demoEnv frClear { zeroMax with t := 10, r := 7 }).search_n ≠ 0 ∧
    ∃ sx, sx ∈ strides frClear.width ∧
      refinedFrom demoEnv frClear { zeroMax with t := 10, r := 7 } sx :=
  ⟨by decide,
    C15_centroid_refinement demoEnv frClear { zeroMax with t := 10, r := 7 } (by decide)⟩

/-- C20. Locator window reads are in bounds: the window loops read `data` only
at the pixels of the 5x5 window (`windowPixels`); for every stride of the
locator loop whose row passes the test of line 437, every pixel of the search
window lies in the image and its alpha byte index `4*(w*y+x)+3` lies in
`[0, 4*w*h)`; and when the centre-of-mass step runs (`search_n != 0` after the
acceptance test) the same holds for every pixel of its window. -/
theorem C20_window_reads_in_bounds (env : Env) (fr : Frame) (m : LocMax) :
    (∀ cx cy,
      windowCount fr.width fr.data cx cy =
        (((windowPixels cx cy).filter (isForeground fr.width fr.data)).length : Int) ∧
      windowSums fr.width fr.data cx cy =
        ((((windowPixels cx cy).filter (isForeground fr.width fr.data)).map Prod.fst).sum,
         (((windowPixels cx cy).filter (isForeground fr.width fr.data)).map Prod.snd).sum)) ∧
    (∀ sx, sx ∈ strides fr.width →
      (env.lineY m.t m.r sx > 2 ∧ env.lineY m.t m.r sx < fr.height - 2) →
      ∀ p, p ∈ windowPixels sx (env.lineY m.t m.r sx) →
        pixelInBounds fr.width fr.height p) ∧
    ((acceptLine (searchLine env fr m)).search_n ≠ 0 →
      ∀ p, p ∈ windowPixels (acceptLine (searchLine env fr m)).search_x
          (acceptLine (searchLine env fr m)).search_y →
        pixelInBounds fr.width fr.height p) := by
  refine ⟨fun cx cy => ⟨windowCount_eq _ _ _ _, windowSums_eq _ _ _ _⟩, ?_, ?_⟩
  · intro sx hmem hin p hp
    exact pixelInBounds_of_window _ _ sx _ (mem_strides _ _ hmem) hin p hp
  · intro hacc p hp
    have hsn : (locate env fr m).search_n = (acceptLine (searchLine env fr m)).search_n :=
      centerOfMass_search_n fr _
    obtain ⟨sx, hmem, hin, _, _, hx, hy, _, _⟩ :=
      locate_accepted env fr m (by rw [hsn]; exact hacc)
    rw [hx, hy] at hp
    exact pixelInBounds_of_window _ _ sx _ (mem_strides _ _ hmem) hin p hp

theorem C20_window_reads_in_bounds_witness :
    (acceptLine (searchLine demoEnv frClear { zeroMax with t := 10, r := 7 })).search_n ≠ 0 ∧
    (0, 2) ∈ windowPixels
      (acceptLine (searchLine demoEnv frClear { zeroMax with t := 10, r := 7 })).search_x
      (acceptLine (searchLine demoEnv frClear { zeroMax with t := 10, r := 7 })).search_y ∧
    pixelInBounds frClear.width frClear.height (0, 2) :=
  ⟨by decide, by decide,
    (C20_window_reads_in_bounds demoEnv frClear { zeroMax with t := 10, r := 7 }).2.2
      (by decide) (0, 2) (by decide)⟩

/-! ## Maxima scan: the cells read -/

/-- The test of line 406 reads the accumulator at `neighbourCells`. -/
theorem isLocalMax_reads (hough : Int → Int) (N_R t r : Int) :
    isLocalMax hough N_R t r =
      (neighbourCells t r).all (fun c => decide (hough (t * N_R + r) ≥ hough (c.1 * N_R + c.2))) := by
  simp [isLocalMax, neighbourCells, Bool.and_assoc]

theorem scanNonneg_zero : scanNonneg ⟨zeroMaxes, 0, 0⟩ := scanNonneg_init

theorem edge_cells_two : ((scanCells 4).take 2).filter
    (fun c => decide (edgePeaks (c.1 * 4 + c.2) > 0)) = [] := by decide

theorem edge_cells_before_last : ((scanCells 4).take 1074).filter
    (fun c => decide (edgePeaks (c.1 * 4 + c.2) > 0)) = [(1, 3)] := by decide

theorem edge_state_two :
    scanOver edgePeaks 4 ((scanCells 4).take 2) ⟨zeroMaxes, 0, 0⟩ = ⟨zeroMaxes, 0, 0⟩ := by
  rw [scanOver_filter _ _ _ _ scanNonneg_zero, edge_cells_two]
  rfl

theorem edge_state_before_last :
    (scanOver edgePeaks 4 ((scanCells 4).take 1074) ⟨zeroMaxes, 0, 0⟩).min_max = 0 := by
  rw [scanOver_filter _ _ _ _ scanNonneg_zero, edge_cells_before_last]
  decide

/-- C11 (the code against the claim). On the accumulator `edgePeaks` (360 rows
of 4 cells) the scan reaches the cell `(1, 3)` with `min_max = 0`, so it reads
the neighbours of that cell, among them `(1, 4)`: radius index 4 is not below
`N_R = 4`, and `hough[1*4+4]` is the cell `(2, 0)` of the next angle row.  It
reaches the cell `(359, 1)` with `min_max = 0` and reads `(360, 1)`: angle index
360 is not below 360 and the flat index is past the `360*4` cells. -/
theorem C11_scan_reads_outside :
    (scanCells 4).getD 2 (0, 0) = (1, 3) ∧
    (1, 4) ∈ cellReads edgePeaks 4 1 3
      (scanOver edgePeaks 4 ((scanCells 4).take 2) ⟨zeroMaxes, 0, 0⟩) ∧
    ¬ ((4 : Int) < 4) ∧ (1 : Int) * 4 + 4 = 2 * 4 + 0 ∧
    (scanCells 4).getD 1074 (0, 0) = (359, 1) ∧
    (360, 1) ∈ cellReads edgePeaks 4 359 1
      (scanOver edgePeaks 4 ((scanCells 4).take 1074) ⟨zeroMaxes, 0, 0⟩) ∧
    ¬ ((360 : Int) < N_THETA) ∧ N_THETA * 4 ≤ (360 : Int) * 4 + 1 := by
  refine ⟨by decide, ?_, by decide, by decide, by decide, ?_, by decide, by decide⟩
  · rw [edge_state_two]; decide
  · unfold cellReads
    rw [edge_state_before_last]
    decide

/-! ## The trigonometric expressions in exact arithmetic -/

theorem truncatesTo_unique (v n : Int) (a : ℝ) (h0 : 0 ≤ a) (h1 : (n : ℝ) ≤ a)
    (h2 : a < (n : ℝ) + 1) (h : truncatesTo v a) : v = n := by
  rcases h with ⟨_, hv1, hv2⟩ | ⟨hneg, _, _⟩
  · have e1 : (v : ℝ) < (n : ℝ) + 1 := lt_of_le_of_lt hv1 h2
    have e2 : (n : ℝ) < (v : ℝ) + 1 := lt_of_le_of_lt h1 hv2
    have e3 : v < n + 1 := by exact_mod_cast e1
    have e4 : n < v + 1 := by exact_mod_cast e2
    omega
  · exact absurd h0 (not_le.mpr hneg)

theorem sqrt_two_bounds : (1.4142 : ℝ) < Real.sqrt 2 ∧ Real.sqrt 2 < 1.4143 := by
  constructor
  · rw [Real.lt_sqrt (by norm_num)]; norm_num
  · rw [Real.sqrt_lt' (by norm_num)]; norm_num

theorem hough_value_45 :
    ((99 : Int) : ℝ) * Real.cos (2 * Real.pi * ((45 : Int) : ℝ) / 360) +
      ((99 : Int) : ℝ) * Real.sin (2 * Real.pi * ((45 : Int) : ℝ) / 360) = 99 * Real.sqrt 2 := by
  have e : 2 * Real.pi * ((45 : Int) : ℝ) / 360 = Real.pi / 4 := by push_cast; ring
  rw [e, Real.cos_pi_div_four, Real.sin_pi_div_four]
  push_cast; ring

theorem line_value_45 :
    -Real.cos (((45 : Int) : ℝ) * 2 * Real.pi / 360) *
        Real.sin (((45 : Int) : ℝ) * 2 * Real.pi / 360) * ((12 : Int) : ℝ) +
      ((100 : Int) : ℝ) / Real.sin (((45 : Int) : ℝ) * 2 * Real.pi / 360) =
      100 * Real.sqrt 2 - 6 := by
  have e : ((45 : Int) : ℝ) * 2 * Real.pi / 360 = Real.pi / 4 := by push_cast; ring
  rw [e, Real.cos_pi_div_four, Real.sin_pi_div_four]
  have h2 : Real.sqrt 2 * Real.sqrt 2 = 2 := Real.mul_self_sqrt (by norm_num)
  have hpos : (0 : ℝ) < Real.sqrt 2 := Real.sqrt_pos.mpr (by norm_num)
  push_cast
  field_simp
  nlinarith [h2]

theorem solution_value_45 :
    (((100 : Int) : ℝ) - ((12 : Int) : ℝ) * Real.cos (((45 : Int) : ℝ) * 2 * Real.pi / 360)) /
      Real.sin (((45 : Int) : ℝ) * 2 * Real.pi / 360) = 100 * Real.sqrt 2 - 12 := by
  have e : ((45 : Int) : ℝ) * 2 * Real.pi / 360 = Real.pi / 4 := by push_cast; ring
  rw [e, Real.cos_pi_div_four, Real.sin_pi_div_four]
  have h2 : Real.sqrt 2 * Real.sqrt 2 = 2 := Real.mul_self_sqrt (by norm_num)
  have hpos : (0 : ℝ) < Real.sqrt 2 := Real.sqrt_pos.mpr (by norm_num)
  push_cast
  field_simp
  nlinarith [h2]

theorem sin_45_ne_zero : Real.sin (((45 : Int) : ℝ) * 2 * Real.pi / 360) ≠ 0 := by
  have e : ((45 : Int) : ℝ) * 2 * Real.pi / 360 = Real.pi / 4 := by push_cast; ring
  rw [e, Real.sin_pi_div_four]
  have hpos : (0 : ℝ) < Real.sqrt 2 := Real.sqrt_pos.mpr (by norm_num)
  positivity

/-- C12 (the code against the claim). In a 100 x 100 image (`N_R = 100`) the
pixel `(99, 99)` and the bucket `t = 45` give `x*cos(theta) + y*sin(theta) =
99*sqrt(2)`, about 140.007: whenever line 374 returns the integer part of that
value, `r = 140 > 0` is not below `max(w, h) = 100`, the increment goes to
`hough[45*100 + 140]`, which is the cell `(46, 40)`, and the votes of that pixel
raise that cell by at least one. -/
theorem C12_vote_beyond_radius_range (env : Env) (h : houghExact env 99 99 45) :
    env.houghR 99 99 45 = 140 ∧ 0 < env.houghR 99 99 45 ∧
    ¬ (env.houghR 99 99 45 < MAX 100 100) ∧
    45 * MAX 100 100 + env.houghR 99 99 45 = 46 * MAX 100 100 + 40 ∧
    ∀ acc : Accumulator,
      acc.cell (46 * 100 + 40) + 1 ≤ (houghVotes env (MAX 100 100) 99 99 acc).cell (46 * 100 + 40) := by
  have hb := sqrt_two_bounds
  have hv : env.houghR 99 99 45 = 140 := by
    unfold houghExact at h
    rw [hough_value_45] at h
    apply truncatesTo_unique _ 140 _ _ _ _ h
    · nlinarith [hb.1]
    · push_cast; nlinarith [hb.1]
    · push_cast; nlinarith [hb.2]
  have hM : MAX 100 100 = 100 := by decide
  refine ⟨hv, by rw [hv]; decide, by rw [hv, hM]; decide, by rw [hv, hM]; decide, ?_⟩
  intro acc
  rw [houghVotes_apply, hM]
  have hmem : (45 : Int) ∈ (intRange 0 N_THETA).filter
      (fun t => decide (env.houghR 99 99 t > 0 ∧ t * 100 + env.houghR 99 99 t = 46 * 100 + 40)) := by
    rw [List.mem_filter]
    refine ⟨(mem_intRange _ _ _).mpr (by decide), ?_⟩
    rw [hv]; decide
  have hpos : 0 < votesAt env 100 99 99 (46 * 100 + 40) := List.length_pos_of_mem hmem
  omega

theorem diagEnv_houghExact : houghExact diagEnv 99 99 45 := by
  have hb := sqrt_two_bounds
  unfold houghExact
  rw [hough_value_45]
  left
  refine ⟨by nlinarith [hb.1], ?_, ?_⟩
  · show ((140 : Int) : ℝ) ≤ 99 * Real.sqrt 2
    push_cast; nlinarith [hb.1]
  · show 99 * Real.sqrt 2 < ((140 : Int) : ℝ) + 1
    push_cast; nlinarith [hb.2]

theorem C12_vote_beyond_radius_range_witness :
    houghExact diagEnv 99 99 45 ∧ diagEnv.houghR 99 99 45 = 140 ∧
    ¬ (diagEnv.houghR 99 99 45 < MAX 100 100) :=
  ⟨diagEnv_houghExact, (C12_vote_beyond_radius_range diagEnv diagEnv_houghExact).1,
    (C12_vote_beyond_radius_range diagEnv diagEnv_houghExact).2.2.1⟩

/-- C17 (the code against the claim). For the peak `t = 45`, `r = 100`
(`sin(th) != 0`) and the stride `sx = 12`, the expression of line 436 is
`100*sqrt(2) - 6`, about 135.4, while the solution of the line equation is
`100*sqrt(2) - 12`, about 129.4: whenever line 436 returns the integer part of
its expression, `sy = 135`, the truncated solution is 129, and `sy` is not the
truncation of the solution. -/
theorem C17_row_not_on_line (env : Env) (h : lineExact env 45 100 12) :
    Real.sin (((45 : Int) : ℝ) * 2 * Real.pi / 360) ≠ 0 ∧
    env.lineY 45 100 12 = 135 ∧ onLineRow 45 100 12 129 ∧
    ¬ onLineRow 45 100 12 (env.lineY 45 100 12) := by
  have hb := sqrt_two_bounds
  have hv : env.lineY 45 100 12 = 135 := by
    unfold lineExact at h
    rw [line_value_45] at h
    apply truncatesTo_unique _ 135 _ _ _ _ h
    · nlinarith [hb.1]
    · push_cast; nlinarith [hb.1]
    · push_cast; nlinarith [hb.2]
  have hsol : onLineRow 45 100 12 129 := by
    unfold onLineRow
    rw [solution_value_45]
    left
    refine ⟨by nlinarith [hb.1], ?_, ?_⟩
    · push_cast; nlinarith [hb.1]
    · push_cast; nlinarith [hb.2]
  refine ⟨sin_45_ne_zero, hv, hsol, ?_⟩
  rw [hv]
  intro hbad
  unfold onLineRow at hbad
  rw [solution_value_45] at hbad
  have := truncatesTo_unique 135 129 _ (by nlinarith [hb.1]) (by push_cast; nlinarith [hb.1])
    (by push_cast; nlinarith [hb.2]) hbad
  omega

theorem diagEnv_lineExact : lineExact diagEnv 45 100 12 := by
  have hb := sqrt_two_bounds
  unfold lineExact
  rw [line_value_45]
  left
  refine ⟨by nlinarith [hb.1], ?_, ?_⟩
  · show ((135 : Int) : ℝ) ≤ 100 * Real.sqrt 2 - 6
    push_cast; nlinarith [hb.1]
  · show 100 * Real.sqrt 2 - 6 < ((135 : Int) : ℝ) + 1
    push_cast; nlinarith [hb.2]

theorem C17_row_not_on_line_witness :
    lineExact diagEnv 45 100 12 ∧ diagEnv.lineY 45 100 12 = 135 ∧
    onLineRow 45 100 12 129 :=
  ⟨diagEnv_lineExact, (C17_row_not_on_line diagEnv diagEnv_lineExact).2.1,
    (C17_row_not_on_line diagEnv diagEnv_lineExact).2.2.1⟩

theorem demo_run161 :
    run demoEnv initState ((demoWarm ++ [frClear]) ++ frOcc48 :: demoTenClear) =
      demoState (demoA 151 161 1 0 0) (demoB 0 161 (-1) 0 0) 1 161 := by
  have e : (demoWarm ++ [frClear]) ++ frOcc48 :: demoTenClear =
      (demoWarm ++ [frClear, frOcc48]) ++ demoTenClear := by simp
  rw [e, run_append, demo_run151]
  decide

theorem demo_setsFlag151 :
    setsFlag demoEnv frOcc48 (run demoEnv initState (demoWarm ++ [frClear])) 48 := by
  rw [demo_run150]; decide

theorem demo_setsFlag162 :
    setsFlag demoEnv frOcc48
      (run demoEnv initState ((demoWarm ++ [frClear]) ++ frOcc48 :: demoTenClear)) 48 := by
  rw [demo_run161]; decide

theorem C19_rearm_needs_ten_visible_witness :
    setsFlag demoEnv frOcc48 (run demoEnv initState (demoWarm ++ [frClear])) 48 ∧
    setsFlag demoEnv frOcc48
      (run demoEnv initState ((demoWarm ++ [frClear]) ++ frOcc48 :: demoTenClear)) 48 ∧
    10 ≤ visibleCount demoEnv 48
      (run demoEnv initState ((demoWarm ++ [frClear]) ++ [frOcc48])) demoTenClear :=
  ⟨demo_setsFlag151, demo_setsFlag162,
    (C19_rearm_needs_ten_visible demoEnv demoEnv_qsort_perm 48 (by decide)).2.2.2.2 initState
      (demoWarm ++ [frClear]) frOcc48 demoTenClear frOcc48 demo_setsFlag151 demo_setsFlag162⟩

theorem C13_warmup_gate_witness :
    demoWarm.length + 1 = 150 ∧
    (run demoEnv initState demoWarm).initialized = false ∧
    maxesBeforeTracking demoEnv frClear (run demoEnv initState demoWarm) =
      detect demoEnv frClear initState.maxes :=
  ⟨by decide, (C13_warmup_gate demoEnv demoWarm frClear).2.2.1 (by decide)⟩

end Mirror
